import Mathlib

/-!
# golucene: flush queue and Lucene41 postings reader

A shallow embedding of `core/index/flushQueue.go` and of the vInt tail decoder of
`core/codec/lucene41/postingsReader.go`, followed by theorems about them.

Conventions of the embedding.

* Go pointers to tickets are indices into a ticket memory (`heap`); the
  `container/list` queue holds such indices.
* A Go call either returns or panics: `Result`. A Go `error` value is an
  `Option String`, `none` being `nil`.
* `int32` arithmetic wraps (`wrap32`).
* Locks are not modelled: every operation below runs alone, from its `Lock()` to the
  last deferred `Unlock()`.
-/

namespace GoLucene

/-! ## Go runtime -/

/-- Outcome of a Go call: it returns a value or it panics with a message. -/
inductive Result (α : Type) where
  | ok (val : α)
  | panic (msg : String)
  deriving DecidableEq, Repr

/-- Sequencing of Go calls: a panic of the first call skips the second. -/
def Result.bind {α β : Type} (r : Result α) (f : α → Result β) : Result β :=
  match r with
  | .ok a => f a
  | .panic m => .panic m

/-- The value of `atomic.AddInt32` and of every `int32` computation: the result is
reduced into the range from -2^31 to 2^31 - 1. -/
def wrap32 (x : Int) : Int := (x + 2147483648) % 4294967296 - 2147483648

/-- The Go call `fmt.Sprintf(msg, args...)` for a format string without verbs, as
`assertn` is called in flushQueue.go: with no argument the result is the string
itself; arguments that no verb consumes are reported after it as
`%!(EXTRA type=value, ...)`. Each argument is given as its `type=value` text. -/
@[simp]
def sprintfExtra (msg : String) : List String → String
  | [] => msg
  | arg :: args => msg ++ "%!(EXTRA " ++ ", ".intercalate (arg :: args) ++ ")"

/-- Source function `assertn` of flushQueue.go: panics with the formatted message
when the condition is false. -/
def assertn (ok : Bool) (msg : String) (args : List String) : Result Unit :=
  if ok then .ok () else .panic (sprintfExtra msg args)

/-- Modelled from the spec: the package-level `assert` helper is not among the source
files of package `index`; it is taken to be the one of `mockDirectoryWrapper.go`,
which panics with "assert fail" when the condition is false. -/
def assert (ok : Bool) : Result Unit :=
  if ok then .ok () else .panic "assert fail"

/-- Message of the Go runtime when a nil pointer is dereferenced. -/
def nilDereference : String :=
  "runtime error: invalid memory address or nil pointer dereference"

/-! ## Collaborators of the flush queue -/

/-- Modelled from the spec: `FrozenBufferedDeletes` is declared outside the source
files; it is the immutable snapshot of buffered deletions. `any` is the result of
its method `any()`, `gen` identifies the packet. -/
structure FrozenBufferedDeletes where
  gen : Nat
  any : Bool
  deriving DecidableEq, Repr

/-- Modelled from the spec: `SegmentInfo` is declared outside the source files; only
its identity matters here. -/
structure SegmentInfo where
  name : String
  deriving DecidableEq, Repr

/-- Modelled from the spec: the segment-private deletes of a flushed segment, declared
outside the source files; only their identity matters here. -/
structure BufferedDeletes where
  gen : Nat
  deriving DecidableEq, Repr

/-- Modelled from the spec: `FlushedSegment` is declared outside the source files; the
two fields are the ones flushQueue.go reads, both nullable pointers. -/
structure FlushedSegment where
  segmentInfo : Option SegmentInfo
  segmentDeletes : Option BufferedDeletes
  deriving DecidableEq, Repr

/-- A call received by the index writer, with its arguments. -/
inductive WriterCall where
  | publishFlushedSegment (segmentInfo : SegmentInfo)
      (segmentDeletes : Option BufferedDeletes)
      (globalPacket : Option FrozenBufferedDeletes)
  | publishFrozenDeletes (packet : FrozenBufferedDeletes)
  deriving DecidableEq, Repr

/-- Modelled from the spec: `IndexWriter` is declared outside the source files. It is a
parameter of the embedding: `calls` records the calls it has received, in order, and
`publishFlushedSegmentErr` is the error its `publishFlushedSegment` returns, given
the calls received before and the call itself (`none` is `nil`). Its methods return;
`publishFrozenDeletes` returns nothing. Logging through `infoStream` is not
modelled. -/
structure IndexWriter where
  calls : List WriterCall
  publishFlushedSegmentErr : List WriterCall → WriterCall → Option String

/-- The writer method `publishFlushedSegment`: the call is recorded and the writer
answers with its error value. -/
def IndexWriter.publishFlushedSegment (w : IndexWriter) (segmentInfo : SegmentInfo)
    (segmentDeletes : Option BufferedDeletes)
    (globalPacket : Option FrozenBufferedDeletes) : IndexWriter × Option String :=
  let c := WriterCall.publishFlushedSegment segmentInfo segmentDeletes globalPacket
  ({ w with calls := w.calls ++ [c] }, w.publishFlushedSegmentErr w.calls c)

/-- The writer method `publishFrozenDeletes`: the call is recorded. -/
def IndexWriter.publishFrozenDeletes (w : IndexWriter)
    (packet : FrozenBufferedDeletes) : IndexWriter :=
  { w with calls := w.calls ++ [WriterCall.publishFrozenDeletes packet] }

/-! ## Flush tickets -/

/-- Source type `FlushTicketImpl`. -/
structure FlushTicketImpl where
  frozenDeletes : Option FrozenBufferedDeletes
  published : Bool
  deriving DecidableEq, Repr

/-- Source type `SegmentFlushTicket`; the embedded `*FlushTicketImpl` is held by
value, every ticket having its own. -/
structure SegmentFlushTicket extends FlushTicketImpl where
  segment : Option FlushedSegment
  failed : Bool
  deriving DecidableEq, Repr

/-- Source function `newFlushTicket`. -/
def newFlushTicket (frozenDeletes : Option FrozenBufferedDeletes) : Result FlushTicketImpl :=
  (assert frozenDeletes.isSome).bind fun _ =>
    .ok { frozenDeletes := frozenDeletes, published := false }

/-- Source function `newSegmentFlushTicket`. -/
def newSegmentFlushTicket (frozenDeletes : Option FrozenBufferedDeletes) :
    Result SegmentFlushTicket :=
  (newFlushTicket frozenDeletes).bind fun impl =>
    .ok { toFlushTicketImpl := impl, segment := none, failed := false }

/-- Source method `FlushTicketImpl.publishFlushedSegment`. The `nil` check of
`newSegment` is done by the caller's match. -/
def publishFlushedSegment (indexWriter : IndexWriter) (newSegment : FlushedSegment)
    (globalPacket : Option FrozenBufferedDeletes) : IndexWriter × Result (Option String) :=
  match newSegment.segmentInfo with
  | none => (indexWriter, .panic "assert fail")
  | some segmentInfo =>
    let r := indexWriter.publishFlushedSegment segmentInfo newSegment.segmentDeletes globalPacket
    (r.1, .ok r.2)

/-- Source method `FlushTicketImpl.finishFlush`. -/
def finishFlush (indexWriter : IndexWriter) (newSegment : Option FlushedSegment)
    (bufferedDeletes : Option FrozenBufferedDeletes) : IndexWriter × Result (Option String) :=
  match newSegment with
  | none =>
    match bufferedDeletes with
    | none => (indexWriter, .panic "assert fail")
    | some deletes =>
      if deletes.any then (indexWriter.publishFrozenDeletes deletes, .ok none)
      else (indexWriter, .ok none)
  | some segment => publishFlushedSegment indexWriter segment bufferedDeletes

/-- What a call of `publish` leaves behind: the ticket, the writer and the call's
outcome. -/
structure PublishOutcome where
  ticket : SegmentFlushTicket
  writer : IndexWriter
  result : Result (Option String)

/-- Source method `SegmentFlushTicket.publish`. -/
def SegmentFlushTicket.publish (ticket : SegmentFlushTicket) (writer : IndexWriter) :
    PublishOutcome :=
  match assertn (!ticket.published) "ticket was already publised - can not publish twice" [] with
  | .panic m => { ticket := ticket, writer := writer, result := .panic m }
  | .ok _ =>
    let ticket1 := { ticket with published := true }
    let r := finishFlush writer ticket1.segment ticket1.frozenDeletes
    { ticket := ticket1, writer := r.1, result := r.2 }

/-- Source method `SegmentFlushTicket.setSegment`. -/
def SegmentFlushTicket.setSegment (ticket : SegmentFlushTicket)
    (segment : Option FlushedSegment) : Result SegmentFlushTicket :=
  (assert (!ticket.failed)).bind fun _ => .ok { ticket with segment := segment }

/-- Source method `SegmentFlushTicket.fail`. -/
def SegmentFlushTicket.fail (ticket : SegmentFlushTicket) : Result SegmentFlushTicket :=
  (assert ticket.segment.isNone).bind fun _ => .ok { ticket with failed := true }

/-- Source method `SegmentFlushTicket.canPublish`. -/
def SegmentFlushTicket.canPublish (ticket : SegmentFlushTicket) : Bool :=
  ticket.segment.isSome || ticket.failed

/-! ## The flush queue -/

/-- Source type `DocumentsWriterFlushQueue`, together with the memory its ticket
pointers refer to: `heap` holds the tickets allocated so far, a pointer is an index
into it, `queue` is the `container/list` of ticket pointers from front to back and
`_ticketCount` is the `int32` counter. The two locks are not modelled. -/
structure DocumentsWriterFlushQueue where
  heap : List SegmentFlushTicket
  queue : List Nat
  _ticketCount : Int
  deriving DecidableEq, Repr

/-- Source function `newDocumentsWriterFlushQueue`. -/
def newDocumentsWriterFlushQueue : DocumentsWriterFlushQueue :=
  { heap := [], queue := [], _ticketCount := 0 }

/-- What a queue operation leaves behind: the queue, the outcome of the call and
`trace`, the queue as it was after each update of the counter or of the list, in
order (the states another thread could observe during the call). -/
structure QueueOutcome (α : Type) where
  fq : DocumentsWriterFlushQueue
  result : Result α
  trace : List DocumentsWriterFlushQueue

/-- Source method `incTickets`. -/
def DocumentsWriterFlushQueue.incTickets (fq : DocumentsWriterFlushQueue) :
    DocumentsWriterFlushQueue × Result Unit :=
  let n := wrap32 (fq._ticketCount + 1)
  ({ fq with _ticketCount := n }, assert (decide (n > 0)))

/-- Source method `decTickets`. -/
def DocumentsWriterFlushQueue.decTickets (fq : DocumentsWriterFlushQueue) :
    DocumentsWriterFlushQueue × Result Unit :=
  let n := wrap32 (fq._ticketCount - 1)
  ({ fq with _ticketCount := n }, assert (decide (n >= 0)))

/-- Source method `addFlushTicket`. The producer is outside the source files:
`prepareFlush` is the outcome of the call `dwpt.prepareFlush()`, a panic or the
frozen deletes it returns (possibly nil). A returned ticket is a pointer to a newly
allocated ticket. When the call panics after `incTickets`, the deferred function
runs `decTickets`, whose own panic would replace the first one. -/
def DocumentsWriterFlushQueue.addFlushTicket (fq : DocumentsWriterFlushQueue)
    (prepareFlush : Result (Option FrozenBufferedDeletes)) : QueueOutcome Nat :=
  let inc := fq.incTickets
  match inc.2 with
  | .panic m => { fq := inc.1, result := .panic m, trace := [inc.1] }
  | .ok _ =>
    match prepareFlush.bind newSegmentFlushTicket with
    | .ok ticket =>
      let fq2 : DocumentsWriterFlushQueue :=
        { inc.1 with heap := inc.1.heap ++ [ticket],
                     queue := inc.1.queue ++ [inc.1.heap.length] }
      { fq := fq2, result := .ok inc.1.heap.length, trace := [inc.1, fq2] }
    | .panic m =>
      let dec := inc.1.decTickets
      match dec.2 with
      | .ok _ => { fq := dec.1, result := .panic m, trace := [inc.1, dec.1] }
      | .panic m2 => { fq := dec.1, result := .panic m2, trace := [inc.1, dec.1] }

/-- Update of the ticket a pointer refers to; a pointer that refers to no ticket is
a nil pointer. -/
def DocumentsWriterFlushQueue.updateTicket (fq : DocumentsWriterFlushQueue) (ticket : Nat)
    (f : SegmentFlushTicket → Result SegmentFlushTicket) : QueueOutcome Unit :=
  match fq.heap[ticket]? with
  | none => { fq := fq, result := .panic nilDereference, trace := [] }
  | some t =>
    match f t with
    | .ok t1 => { fq := { fq with heap := fq.heap.set ticket t1 }, result := .ok (), trace := [] }
    | .panic m => { fq := fq, result := .panic m, trace := [] }

/-- Source method `addSegment`. -/
def DocumentsWriterFlushQueue.addSegment (q : DocumentsWriterFlushQueue) (ticket : Nat)
    (segment : Option FlushedSegment) : QueueOutcome Unit :=
  q.updateTicket ticket fun t => t.setSegment segment

/-- Source method `markTicketFailed`. -/
def DocumentsWriterFlushQueue.markTicketFailed (fq : DocumentsWriterFlushQueue)
    (ticket : Nat) : QueueOutcome Unit :=
  fq.updateTicket ticket fun t => t.fail

/-- Source method `hasTickets`. -/
def DocumentsWriterFlushQueue.hasTickets (fq : DocumentsWriterFlushQueue) : Result Bool :=
  let n := fq._ticketCount
  (assertn (decide (n >= 0)) "ticketCount should be >= 0 but was: "
      ["int32=" ++ toString n]).bind fun _ =>
    .ok (decide (n ≠ 0))

/-- Source method `ticketCount`. -/
def DocumentsWriterFlushQueue.ticketCount (fq : DocumentsWriterFlushQueue) : Int :=
  fq._ticketCount

/-- What a purge leaves behind: the queue, the writer, the outcome of the call
(`numPurged` and `err`, or a panic), the tickets on which `publish` was called, in
call order, and the trace of the queue (see `QueueOutcome`). -/
structure PurgeOutcome where
  fq : DocumentsWriterFlushQueue
  writer : IndexWriter
  result : Result (Nat × Option String)
  publishCalls : List Nat
  trace : List DocumentsWriterFlushQueue

/-- The loop of source method `_purge`, by recursion on the list of the queue: every
pass that publishes removes the front element. `numPurged`, `publishCalls` and
`trace` are what the passes before have accumulated. The deferred function of a
pass removes the front element and decrements the counter whether `publish`
returned nil, returned an error or panicked; the element it removes is the head
that was read, which is what its `assert` checks. -/
def _purgeLoop (writer : IndexWriter) (heap : List SegmentFlushTicket) (count : Int)
    (numPurged : Nat) (publishCalls : List Nat) (trace : List DocumentsWriterFlushQueue) :
    List Nat → PurgeOutcome
  | [] =>
    { fq := { heap := heap, queue := [], _ticketCount := count }, writer := writer,
      result := .ok (numPurged, none), publishCalls := publishCalls, trace := trace }
  | head :: rest =>
    match heap[head]? with
    | none =>
      { fq := { heap := heap, queue := head :: rest, _ticketCount := count }, writer := writer,
        result := .panic nilDereference, publishCalls := publishCalls, trace := trace }
    | some ticket =>
      if ticket.canPublish then
        let p := ticket.publish writer
        let heap1 := heap.set head p.ticket
        let removed : DocumentsWriterFlushQueue :=
          { heap := heap1, queue := rest, _ticketCount := count }
        let counted : DocumentsWriterFlushQueue :=
          { heap := heap1, queue := rest, _ticketCount := wrap32 (count - 1) }
        match p.result with
        | .ok none =>
          _purgeLoop p.writer heap1 (wrap32 (count - 1)) (numPurged + 1)
            (publishCalls ++ [head]) (trace ++ [removed, counted]) rest
        | .ok (some e) =>
          { fq := counted, writer := p.writer, result := .ok (numPurged + 1, some e),
            publishCalls := publishCalls ++ [head], trace := trace ++ [removed, counted] }
        | .panic m =>
          { fq := counted, writer := p.writer, result := .panic m,
            publishCalls := publishCalls ++ [head], trace := trace ++ [removed, counted] }
      else
        { fq := { heap := heap, queue := head :: rest, _ticketCount := count }, writer := writer,
          result := .ok (numPurged, none), publishCalls := publishCalls, trace := trace }

/-- Source method `_purge`. -/
def DocumentsWriterFlushQueue._purge (fq : DocumentsWriterFlushQueue) (writer : IndexWriter) :
    PurgeOutcome :=
  _purgeLoop writer fq.heap fq._ticketCount 0 [] [] fq.queue

/-- Source method `forcePurge`. -/
def DocumentsWriterFlushQueue.forcePurge (fq : DocumentsWriterFlushQueue)
    (writer : IndexWriter) : PurgeOutcome :=
  fq._purge writer

/-! ## The flush queue as a state machine -/

/-- The atomic steps of the flush queue: a call of one of its four operations, with
the arguments the caller supplies (for `addFlushTicket`, the outcome of the
producer's `prepareFlush`). -/
inductive QueueOp where
  | addFlushTicket (prepareFlush : Result (Option FrozenBufferedDeletes))
  | addSegment (ticket : Nat) (segment : Option FlushedSegment)
  | markTicketFailed (ticket : Nat)
  | forcePurge
  deriving DecidableEq, Repr

/-- A flush queue with the writer it purges into and two observations of its history:
`created`, the tickets `addFlushTicket` has returned, in order, and `publishCalls`,
the tickets on which `publish` has been called, in order. -/
structure System where
  fq : DocumentsWriterFlushQueue
  writer : IndexWriter
  created : List Nat
  publishCalls : List Nat

/-- The system at start: the queue of `newDocumentsWriterFlushQueue`. -/
def System.init (writer : IndexWriter) : System :=
  { fq := newDocumentsWriterFlushQueue, writer := writer, created := [], publishCalls := [] }

/-- One atomic step of the system. -/
def System.step (s : System) : QueueOp → System
  | .addFlushTicket prepareFlush =>
    let o := s.fq.addFlushTicket prepareFlush
    { s with fq := o.fq,
             created := match o.result with
               | .ok ticket => s.created ++ [ticket]
               | .panic _ => s.created }
  | .addSegment ticket segment => { s with fq := (s.fq.addSegment ticket segment).fq }
  | .markTicketFailed ticket => { s with fq := (s.fq.markTicketFailed ticket).fq }
  | .forcePurge =>
    let o := s.fq.forcePurge s.writer
    { s with fq := o.fq, writer := o.writer, publishCalls := s.publishCalls ++ o.publishCalls }

/-- The queue states visited inside one atomic step (see `QueueOutcome`). -/
def System.stepTrace (s : System) : QueueOp → List DocumentsWriterFlushQueue
  | .addFlushTicket prepareFlush => (s.fq.addFlushTicket prepareFlush).trace
  | .addSegment ticket segment => (s.fq.addSegment ticket segment).trace
  | .markTicketFailed ticket => (s.fq.markTicketFailed ticket).trace
  | .forcePurge => (s.fq.forcePurge s.writer).trace

/-- A run of the system: the steps are taken one after the other. -/
def System.run (s : System) (ops : List QueueOp) : System :=
  ops.foldl System.step s

/-- The observations of a system agree with its queue: the publish calls followed by
the queue are the tickets created, and the tickets created are the pointers in
order of allocation. -/
def System.Consistent (s : System) : Prop :=
  s.publishCalls ++ s.fq.queue = s.created ∧ s.created = List.range s.fq.heap.length

/-- The counter covers the queue, as it has to in every state seen inside an
operation: it is non-negative and at least the number of tickets in the queue. -/
def DocumentsWriterFlushQueue.CounterCovers (fq : DocumentsWriterFlushQueue) : Prop :=
  0 ≤ fq._ticketCount ∧ (fq.queue.length : Int) ≤ fq._ticketCount

/-! ## The vInt tail decoder of the postings reader -/

/-- The value of every `int` computation (64 bits): the result is reduced into the
range from -2^63 to 2^63 - 1. -/
def wrap64 (x : Int) : Int :=
  (x + 9223372036854775808) % 18446744073709551616 - 9223372036854775808

/-- The Go expression `int(uint(code) >> 1)` on a 64-bit `int`. -/
def shiftRightUnsigned1 (code : Int) : Int :=
  wrap64 (code % 18446744073709551616 / 2)

/-- Modelled from the spec: `store.IndexInput` is declared outside the source files.
It is a parameter of the embedding: `reads` lists what the coming calls of
`ReadVInt` return, each an `int32` value and an error (`none` is `nil`). -/
structure IndexInput where
  reads : List (Int × Option String)
  deriving DecidableEq, Repr

/-- What a call of `ReadVInt` leaves behind. -/
structure ReadOutcome where
  n : Int
  err : Option String
  docIn : IndexInput

/-- The stream method `ReadVInt`, followed by the source function `asInt`: the next
outcome of the stream; a stream with nothing left answers with an error. -/
def IndexInput.ReadVInt (docIn : IndexInput) : ReadOutcome :=
  match docIn.reads with
  | [] => { n := 0, err := some "read past EOF", docIn := docIn }
  | (n, err) :: rest => { n := n, err := err, docIn := { reads := rest } }

/-- Message of the Go runtime when a slice is indexed out of range. -/
def indexOutOfRange (i length : Nat) : String :=
  "runtime error: index out of range [" ++ toString i ++ "] with length " ++ toString length

/-- The Go assignment `buffer[i] = v`: it panics when the index is out of range. -/
def setIndex (buffer : List Int) (i : Nat) (v : Int) : Result (List Int) :=
  if i < buffer.length then .ok (buffer.set i v) else .panic (indexOutOfRange i buffer.length)

/-- What a call of `readVIntBlock` leaves behind: the stream, the two buffers and
the returned error, or a panic. -/
structure ReadBlockOutcome where
  docIn : IndexInput
  docBuffer : List Int
  freqBuffer : List Int
  result : Result (Option String)

/-- The first loop of source function `readVIntBlock` (the field indexes
frequencies): `k` passes remain and `i` is the loop variable. -/
def readVIntBlockFreq : Nat → Nat → IndexInput → List Int → List Int → ReadBlockOutcome
  | 0, _, docIn, docBuffer, freqBuffer =>
    { docIn := docIn, docBuffer := docBuffer, freqBuffer := freqBuffer, result := .ok none }
  | k + 1, i, docIn, docBuffer, freqBuffer =>
    let r := docIn.ReadVInt
    match r.err with
    | some e =>
      { docIn := r.docIn, docBuffer := docBuffer, freqBuffer := freqBuffer,
        result := .ok (some e) }
    | none =>
      let code := r.n
      match setIndex docBuffer i (shiftRightUnsigned1 code) with
      | .panic m =>
        { docIn := r.docIn, docBuffer := docBuffer, freqBuffer := freqBuffer,
          result := .panic m }
      | .ok docBuffer1 =>
        if code % 2 ≠ 0 then
          match setIndex freqBuffer i 1 with
          | .panic m =>
            { docIn := r.docIn, docBuffer := docBuffer1, freqBuffer := freqBuffer,
              result := .panic m }
          | .ok freqBuffer1 => readVIntBlockFreq k (i + 1) r.docIn docBuffer1 freqBuffer1
        else
          let r2 := r.docIn.ReadVInt
          match setIndex freqBuffer i r2.n with
          | .panic m =>
            { docIn := r2.docIn, docBuffer := docBuffer1, freqBuffer := freqBuffer,
              result := .panic m }
          | .ok freqBuffer1 =>
            match r2.err with
            | some e =>
              { docIn := r2.docIn, docBuffer := docBuffer1, freqBuffer := freqBuffer1,
                result := .ok (some e) }
            | none => readVIntBlockFreq k (i + 1) r2.docIn docBuffer1 freqBuffer1

/-- The second loop of source function `readVIntBlock` (the field does not index
frequencies): `k` passes remain and `i` is the loop variable. -/
def readVIntBlockDocs : Nat → Nat → IndexInput → List Int → List Int → ReadBlockOutcome
  | 0, _, docIn, docBuffer, freqBuffer =>
    { docIn := docIn, docBuffer := docBuffer, freqBuffer := freqBuffer, result := .ok none }
  | k + 1, i, docIn, docBuffer, freqBuffer =>
    let r := docIn.ReadVInt
    match setIndex docBuffer i r.n with
    | .panic m =>
      { docIn := r.docIn, docBuffer := docBuffer, freqBuffer := freqBuffer, result := .panic m }
    | .ok docBuffer1 =>
      match r.err with
      | some e =>
        { docIn := r.docIn, docBuffer := docBuffer1, freqBuffer := freqBuffer,
          result := .ok (some e) }
      | none => readVIntBlockDocs k (i + 1) r.docIn docBuffer1 freqBuffer

/-- Source function `readVIntBlock`: the loops run for `i` from 0 while `i < num`. -/
def readVIntBlock (docIn : IndexInput) (docBuffer freqBuffer : List Int) (num : Int)
    (indexHasFreq : Bool) : ReadBlockOutcome :=
  if indexHasFreq then readVIntBlockFreq num.toNat 0 docIn docBuffer freqBuffer
  else readVIntBlockDocs num.toNat 0 docIn docBuffer freqBuffer

/-- The tail encoding in the words of the spec, for a field that indexes frequencies:
`num` entries are decoded from a list of vInt values; the document delta of an entry
is its first value shifted right by one, its frequency is 1 when the low bit of that
value is set and the value that follows otherwise. The result is the list of
(delta, frequency) pairs and the values left over, or `none` when values are
missing. -/
def decodeTail : Nat → List Int → Option (List (Int × Int) × List Int)
  | 0, values => some ([], values)
  | _ + 1, [] => none
  | num + 1, code :: values =>
    if code % 2 = 1 then
      (decodeTail num values).map fun r => ((code / 2, 1) :: r.1, r.2)
    else
      match values with
      | [] => none
      | freq :: values1 =>
        (decodeTail num values1).map fun r => ((code / 2, freq) :: r.1, r.2)

/-! ## Sequences of calls on one ticket -/

/-- A call of `setSegment` or of `fail` on a ticket. -/
inductive TicketCall where
  | setSegment (segment : Option FlushedSegment)
  | fail
  deriving DecidableEq, Repr

/-- One call on a ticket. -/
def SegmentFlushTicket.call (ticket : SegmentFlushTicket) : TicketCall → Result SegmentFlushTicket
  | .setSegment segment => ticket.setSegment segment
  | .fail => ticket.fail

/-- A sequence of calls on a ticket, none of which fails: the ticket after the last
call, or the panic of the first call that fails. -/
def SegmentFlushTicket.calls (ticket : SegmentFlushTicket) :
    List TicketCall → Result SegmentFlushTicket
  | [] => .ok ticket
  | c :: cs => (ticket.call c).bind fun t => t.calls cs

/-! ## Readiness of the tickets of a queue -/

/-- Whether the ticket a pointer refers to is Ready (`canPublish`); a pointer that
refers to no ticket is not. -/
def canPublishAt (heap : List SegmentFlushTicket) (ticket : Nat) : Bool :=
  match heap[ticket]? with
  | some t => t.canPublish
  | none => false

/-- The tickets a purge can publish: the longest run of Ready tickets at the front of
the queue. -/
def DocumentsWriterFlushQueue.readyTickets (fq : DocumentsWriterFlushQueue) : List Nat :=
  fq.queue.takeWhile (canPublishAt fq.heap)

/-- The conditions under which `publish` does not fail on a ticket when the writer
returns nil: the ticket is not yet published, its frozen deletes are not nil and
its segment, when it has one, has a segment info. -/
def SegmentFlushTicket.publishable (ticket : SegmentFlushTicket) : Bool :=
  !ticket.published && ticket.frozenDeletes.isSome &&
    (match ticket.segment with
      | some segment => segment.segmentInfo.isSome
      | none => true)

/-- Whether a pointer refers to a ticket that is `publishable`. -/
def publishableAt (heap : List SegmentFlushTicket) (ticket : Nat) : Bool :=
  match heap[ticket]? with
  | some t => t.publishable
  | none => false

/-! ## Sample values -/

/-- A packet of frozen deletes that holds deletes. -/
def sampleDeletes : FrozenBufferedDeletes := { gen := 1, any := true }

/-- A packet of frozen deletes that holds none. -/
def sampleNoDeletes : FrozenBufferedDeletes := { gen := 2, any := false }

/-- A flushed segment. -/
def sampleSegmentA : FlushedSegment :=
  { segmentInfo := some { name := "_a" }, segmentDeletes := some { gen := 7 } }

/-- Another flushed segment. -/
def sampleSegmentB : FlushedSegment :=
  { segmentInfo := some { name := "_b" }, segmentDeletes := none }

/-- A third flushed segment. -/
def sampleSegmentNoDeletes : FlushedSegment :=
  { segmentInfo := some { name := "_c" }, segmentDeletes := none }

/-- A flushed segment without segment info. -/
def sampleSegmentNoInfo : FlushedSegment := { segmentInfo := none, segmentDeletes := none }

/-- A writer that has received no call and whose `publishFlushedSegment` returns
nil. -/
def sampleWriter : IndexWriter := { calls := [], publishFlushedSegmentErr := fun _ _ => none }

/-- A writer that has received no call and whose `publishFlushedSegment` returns an
error. -/
def sampleFailingWriter : IndexWriter :=
  { calls := [], publishFlushedSegmentErr := fun _ _ => some "disk full" }

/-- A pending ticket: unpublished, no segment, not failed. -/
def samplePending : SegmentFlushTicket :=
  { frozenDeletes := some sampleDeletes, published := false, segment := none, failed := false }

/-- A failed ticket, unpublished. -/
def sampleFailed : SegmentFlushTicket :=
  { frozenDeletes := some sampleDeletes, published := false, segment := none, failed := true }

/-- A ticket with a segment attached, unpublished. -/
def sampleReady : SegmentFlushTicket :=
  { frozenDeletes := some sampleDeletes, published := false, segment := some sampleSegmentA,
    failed := false }

/-- A failed ticket that has been published already. -/
def samplePublished : SegmentFlushTicket :=
  { frozenDeletes := some sampleDeletes, published := true, segment := none, failed := true }

/-- An unpublished ticket whose segment has no segment info. -/
def sampleReadyNoInfo : SegmentFlushTicket :=
  { frozenDeletes := some sampleDeletes, published := false,
    segment := some sampleSegmentNoInfo, failed := false }

/-- The queue after one ticket has been registered with `sampleDeletes`. -/
def sampleQueuePending : DocumentsWriterFlushQueue :=
  (newDocumentsWriterFlushQueue.addFlushTicket (.ok (some sampleDeletes))).fq

/-- The queue after one ticket has been registered and `sampleSegmentA` has been
attached to it: its only ticket is Ready. -/
def sampleQueueReady : DocumentsWriterFlushQueue :=
  (sampleQueuePending.addSegment 0 (some sampleSegmentA)).fq

/-- The queue after three tickets T1, T2, T3 (pointers 0, 1, 2) have been registered
in that order and segments have been attached to T2 and T3. -/
def sampleQueueT23 : DocumentsWriterFlushQueue :=
  let q1 := (newDocumentsWriterFlushQueue.addFlushTicket (.ok (some sampleDeletes))).fq
  let q2 := (q1.addFlushTicket (.ok (some sampleNoDeletes))).fq
  let q3 := (q2.addFlushTicket (.ok (some sampleDeletes))).fq
  let q4 := (q3.addSegment 1 (some sampleSegmentA)).fq
  (q4.addSegment 2 (some sampleSegmentB)).fq

/-- The queue `sampleQueueT23` after a segment has been attached to T1 as well. -/
def sampleQueueT123 : DocumentsWriterFlushQueue :=
  (sampleQueueT23.addSegment 0 (some sampleSegmentNoDeletes)).fq

/-- The step that registers a ticket with `sampleDeletes`. -/
def sampleRegister : QueueOp := .addFlushTicket (.ok (some sampleDeletes))

/-- A stream that supplies the vInts 7, 4, 3 and 10, then fails. -/
def sampleStream : IndexInput :=
  { reads := [(7, none), (4, none), (3, none), (10, none), (0, some "read past EOF")] }

/-! ## The postings reader and its docs enumerator -/

/-- Source constant `LUCENE41_BLOCK_SIZE`. -/
def LUCENE41_BLOCK_SIZE : Nat := 128

/-- Modelled from the spec: `NO_MORE_DOCS` is declared outside the source files; it
is the sentinel an enumerator returns when it has no more documents, the largest
int32 in Lucene. -/
def NO_MORE_DOCS : Int := 2147483647

/-- Modelled from the spec: `DOCS_ENUM_FLAG_FREQS` is declared outside the source
files; it is the "needs frequency" bit of the request flags. -/
def DOCS_ENUM_FLAG_FREQS : Nat := 1

/-- Modelled from the spec: the index options are declared outside the source files;
only their order matters: documents only, then frequencies, then positions, then
offsets. -/
def INDEX_OPT_DOCS_ONLY : Nat := 1

/-- Index option: documents and frequencies (see `INDEX_OPT_DOCS_ONLY`). -/
def INDEX_OPT_DOCS_AND_FREQS : Nat := 2

/-- Index option: documents, frequencies and positions (see
`INDEX_OPT_DOCS_ONLY`). -/
def INDEX_OPT_DOCS_AND_FREQS_AND_POSITIONS : Nat := 3

/-- Modelled from the spec: `FieldInfo` is declared outside the source files; the two
fields are the results of its methods `IndexOptions()` and `HasPayloads()`. -/
structure FieldInfo where
  indexOptions : Nat
  hasPayloads : Bool
  deriving DecidableEq, Repr

/-- Modelled from the spec: `intBlockTermState` is declared outside the source files;
it carries the per-term metadata of the spec (document frequency, total term
frequency, start of the term's data in the document stream, skip offset, the
document of a singleton term). -/
structure intBlockTermState where
  DocFreq : Int
  TotalTermFreq : Int
  docStartFP : Int
  skipOffset : Int
  singletonDocID : Int
  deriving DecidableEq, Repr

/-- Modelled from the spec: the handle of the document stream, a `store.IndexInput`
declared outside the source files. It is a parameter of the embedding: `id` is the
identity of the handle, `current` is what a clone reads before any seek, `atFP fp`
is what a clone reads after `Seek(fp)` and `seekErr fp` is the error `Seek(fp)`
returns (`none` is `nil`). -/
structure DocsInput where
  id : Nat
  current : IndexInput
  atFP : Int → IndexInput
  seekErr : Int → Option String

/-- Source type `Lucene41PostingsReader`; only the document stream is kept, the
position and payload streams, `forUtil` and `version` play no part in the docs
enumerator. -/
structure Lucene41PostingsReader where
  docIn : DocsInput

/-- A call an enumerator makes on the document stream. -/
inductive StreamCall where
  | clone
  | seek (fp : Int)
  | readVIntBlock (num : Int)
  deriving DecidableEq, Repr

/-- Source type `blockDocsEnum`. `liveDocs` is nil or the liveness predicate of the
`util.Bits` it holds. `docUpto` and `docBufferUpto` are only ever set to 0 or 128 or
incremented, and are natural numbers. The embedded reader and the `encoded` byte
buffer play no part in the methods below and are left out. `streamCalls` is not a
source field: it records the calls made on the document stream, in order. -/
structure blockDocsEnum where
  docDeltaBuffer : List Int
  freqBuffer : List Int
  docBufferUpto : Nat
  skipped : Bool
  startDocIn : DocsInput
  docIn : Option IndexInput
  indexHasFreq : Bool
  indexHasPos : Bool
  indexHasOffsets : Bool
  indexHasPayloads : Bool
  docFreq : Int
  totalTermFreq : Int
  docUpto : Nat
  doc : Int
  accum : Int
  freq : Int
  docTermStartFP : Int
  skipOffset : Int
  nextSkipDoc : Int
  liveDocs : Option (Int → Bool)
  needsFreq : Bool
  singletonDocID : Int
  streamCalls : List StreamCall

/-- Source function `newBlockDocsEnum`. `maxDataSize` is the constant `MAX_DATA_SIZE`,
declared outside the source files. -/
def newBlockDocsEnum (maxDataSize : Nat) (owner : Lucene41PostingsReader)
    (fieldInfo : FieldInfo) : blockDocsEnum :=
  { docDeltaBuffer := List.replicate maxDataSize 0
    freqBuffer := List.replicate maxDataSize 0
    docBufferUpto := 0
    skipped := false
    startDocIn := owner.docIn
    docIn := none
    indexHasFreq := decide (fieldInfo.indexOptions ≥ INDEX_OPT_DOCS_AND_FREQS)
    indexHasPos := decide (fieldInfo.indexOptions ≥ INDEX_OPT_DOCS_AND_FREQS_AND_POSITIONS)
    indexHasOffsets := decide (fieldInfo.indexOptions ≥ INDEX_OPT_DOCS_AND_FREQS_AND_POSITIONS)
    indexHasPayloads := fieldInfo.hasPayloads
    docFreq := 0
    totalTermFreq := 0
    docUpto := 0
    doc := 0
    accum := 0
    freq := 0
    docTermStartFP := 0
    skipOffset := 0
    nextSkipDoc := 0
    liveDocs := none
    needsFreq := false
    singletonDocID := 0
    streamCalls := [] }

/-- Source method `canReuse`; two handles are the same when their identities are. -/
def blockDocsEnum.canReuse (de : blockDocsEnum) (docIn : DocsInput) (fieldInfo : FieldInfo) :
    Bool :=
  decide (docIn.id = de.startDocIn.id) &&
    (de.indexHasFreq == decide (fieldInfo.indexOptions ≥ INDEX_OPT_DOCS_AND_FREQS)) &&
    (de.indexHasPos ==
      decide (fieldInfo.indexOptions ≥ INDEX_OPT_DOCS_AND_FREQS_AND_POSITIONS)) &&
    (de.indexHasPayloads == fieldInfo.hasPayloads)

/-- Source method `reset`: the enumerator after the call and the returned error;
when the error is not nil the returned enumerator is nil. -/
def blockDocsEnum.reset (de : blockDocsEnum) (liveDocs : Option (Int → Bool))
    (termState : intBlockTermState) (flags : Nat) : blockDocsEnum × Option String :=
  let de1 : blockDocsEnum :=
    { de with liveDocs := liveDocs
              docFreq := termState.DocFreq
              totalTermFreq :=
                if de.indexHasFreq then termState.TotalTermFreq else termState.DocFreq
              docTermStartFP := termState.docStartFP
              skipOffset := termState.skipOffset
              singletonDocID := termState.singletonDocID }
  let finish (d : blockDocsEnum) : blockDocsEnum :=
    { d with doc := -1
             needsFreq := decide (flags &&& DOCS_ENUM_FLAG_FREQS ≠ 0)
             freqBuffer :=
               if d.indexHasFreq then d.freqBuffer else List.replicate d.freqBuffer.length 1
             accum := 0
             docUpto := 0
             nextSkipDoc := (LUCENE41_BLOCK_SIZE : Int) - 1
             docBufferUpto := LUCENE41_BLOCK_SIZE
             skipped := false }
  if de1.docFreq > 1 then
    let de2 : blockDocsEnum :=
      match de1.docIn with
      | none =>
        { de1 with docIn := some de1.startDocIn.current,
                   streamCalls := de1.streamCalls ++ [.clone] }
      | some _ => de1
    let de3 : blockDocsEnum :=
      { de2 with streamCalls := de2.streamCalls ++ [.seek de2.docTermStartFP] }
    match de3.startDocIn.seekErr de3.docTermStartFP with
    | some e => (de3, some e)
    | none => (finish { de3 with docIn := some (de3.startDocIn.atFP de3.docTermStartFP) }, none)
  else
    (finish de1, none)

/-- Source method `Freq`. -/
def blockDocsEnum.Freq (de : blockDocsEnum) : Int × Option String := (de.freq, none)

/-- Source method `DocId`. -/
def blockDocsEnum.DocId (de : blockDocsEnum) : Int := de.doc

/-- The Go expression `buffer[i]`: it panics when the index is out of range. -/
def getIndex (buffer : List Int) (i : Nat) : Result Int :=
  match buffer[i]? with
  | some v => .ok v
  | none => .panic (indexOutOfRange i buffer.length)

/-- Source method `refillDocs`: the enumerator after the call and the returned
error, or a panic. `docBufferUpto` is set to 0 whatever `readVIntBlock` returns. -/
def blockDocsEnum.refillDocs (de : blockDocsEnum) : blockDocsEnum × Result (Option String) :=
  let left := de.docFreq - de.docUpto
  match assert (decide (left > 0)) with
  | .panic m => (de, .panic m)
  | .ok _ =>
    if left ≥ LUCENE41_BLOCK_SIZE then
      match de.docIn with
      | none => (de, .panic nilDereference)
      | some _ => (de, .panic "not implemented yet")
    else if de.docFreq = 1 then
      match setIndex de.docDeltaBuffer 0 de.singletonDocID with
      | .panic m => (de, .panic m)
      | .ok docDeltaBuffer1 =>
        match setIndex de.freqBuffer 0 de.totalTermFreq with
        | .panic m => ({ de with docDeltaBuffer := docDeltaBuffer1 }, .panic m)
        | .ok freqBuffer1 =>
          ({ de with docDeltaBuffer := docDeltaBuffer1, freqBuffer := freqBuffer1,
                     docBufferUpto := 0 }, .ok none)
    else
      match de.docIn with
      | none => (de, .panic nilDereference)
      | some docIn =>
        let r := readVIntBlock docIn de.docDeltaBuffer de.freqBuffer left de.indexHasFreq
        let de1 : blockDocsEnum :=
          { de with docIn := some r.docIn, docDeltaBuffer := r.docBuffer,
                    freqBuffer := r.freqBuffer,
                    streamCalls := de.streamCalls ++ [.readVIntBlock left] }
        match r.result with
        | .panic m => (de1, .panic m)
        | .ok err => ({ de1 with docBufferUpto := 0 }, .ok err)

/-- Source expression `de.liveDocs == nil || de.liveDocs.At(doc)`. -/
def isLive (liveDocs : Option (Int → Bool)) (doc : Int) : Bool :=
  match liveDocs with
  | none => true
  | some bits => bits doc

/-- What a call of `NextDoc` or `Advance` leaves behind: the enumerator and the
returned document and error, or a panic. -/
structure EnumOutcome where
  de : blockDocsEnum
  result : Result (Int × Option String)

/-- The loop of source method `NextDoc`; `none` when the fuel runs out. -/
def blockDocsEnum.nextDocLoop : Nat → blockDocsEnum → Option EnumOutcome
  | 0, _ => none
  | fuel + 1, de =>
    if (de.docUpto : Int) = de.docFreq then
      some { de := { de with doc := NO_MORE_DOCS }, result := .ok (NO_MORE_DOCS, none) }
    else
      let r := if de.docBufferUpto = LUCENE41_BLOCK_SIZE then de.refillDocs else (de, .ok none)
      match r.2 with
      | .panic m => some { de := r.1, result := .panic m }
      | .ok (some e) => some { de := r.1, result := .ok (0, some e) }
      | .ok none =>
        match getIndex r.1.docDeltaBuffer r.1.docBufferUpto with
        | .panic m => some { de := r.1, result := .panic m }
        | .ok delta =>
          let de2 : blockDocsEnum :=
            { r.1 with accum := wrap64 (r.1.accum + delta), docUpto := r.1.docUpto + 1 }
          if isLive de2.liveDocs de2.accum then
            match getIndex de2.freqBuffer de2.docBufferUpto with
            | .panic m => some { de := { de2 with doc := de2.accum }, result := .panic m }
            | .ok f =>
              some { de := { de2 with doc := de2.accum, freq := f,
                                      docBufferUpto := de2.docBufferUpto + 1 },
                     result := .ok (de2.accum, none) }
          else
            blockDocsEnum.nextDocLoop fuel { de2 with docBufferUpto := de2.docBufferUpto + 1 }

/-- The number of passes that suffices for the loops of `NextDoc` and `Advance`: every
pass consumes one of the documents that remain, and one more pass ends the loop. -/
def blockDocsEnum.fuel (de : blockDocsEnum) : Nat :=
  (de.docFreq - de.docUpto).toNat + 1

/-- Source method `NextDoc`. -/
def blockDocsEnum.NextDoc (de : blockDocsEnum) : Option EnumOutcome :=
  de.nextDocLoop de.fuel

/-- How the scan of `Advance` ends: at a document not below the target (the loop
breaks) or at the end of the postings. -/
inductive ScanEnd where
  | landed
  | exhausted
  deriving DecidableEq, Repr

/-- The scan loop of source method `Advance`; `none` when the fuel runs out. -/
def blockDocsEnum.advanceScan (target : Int) :
    Nat → blockDocsEnum → Option (blockDocsEnum × Result ScanEnd)
  | 0, _ => none
  | fuel + 1, de =>
    match getIndex de.docDeltaBuffer de.docBufferUpto with
    | .panic m => some (de, .panic m)
    | .ok delta =>
      let de1 : blockDocsEnum :=
        { de with accum := wrap64 (de.accum + delta), docUpto := de.docUpto + 1 }
      if de1.accum ≥ target then some (de1, .ok .landed)
      else
        let de2 : blockDocsEnum := { de1 with docBufferUpto := de1.docBufferUpto + 1 }
        if (de2.docUpto : Int) = de2.docFreq then
          some ({ de2 with doc := NO_MORE_DOCS }, .ok .exhausted)
        else blockDocsEnum.advanceScan target fuel de2

/-- The part of source method `Advance` that follows its scan loop: at the end of the
postings NO_MORE_DOCS is returned; at a live document the document is returned; at
a document that is not live `NextDoc` goes on from the next entry. -/
def blockDocsEnum.advanceFinish : blockDocsEnum × Result ScanEnd → Option EnumOutcome
  | (de1, .panic m) => some { de := de1, result := .panic m }
  | (de1, .ok .exhausted) => some { de := de1, result := .ok (NO_MORE_DOCS, none) }
  | (de1, .ok .landed) =>
    if isLive de1.liveDocs de1.accum then
      match getIndex de1.freqBuffer de1.docBufferUpto with
      | .panic m => some { de := de1, result := .panic m }
      | .ok f =>
        some { de := { de1 with freq := f, docBufferUpto := de1.docBufferUpto + 1,
                                doc := de1.accum },
               result := .ok (de1.accum, none) }
    else
      blockDocsEnum.NextDoc { de1 with docBufferUpto := de1.docBufferUpto + 1 }

/-- Source method `Advance`. When `refillDocs` returns an error the source returns
`0, nil`. -/
def blockDocsEnum.Advance (de : blockDocsEnum) (target : Int) : Option EnumOutcome :=
  if de.docFreq > LUCENE41_BLOCK_SIZE ∧ target > de.nextSkipDoc then
    some { de := de, result := .panic "not implemented yet" }
  else if (de.docUpto : Int) = de.docFreq then
    some { de := { de with doc := NO_MORE_DOCS }, result := .ok (NO_MORE_DOCS, none) }
  else
    let r := if de.docBufferUpto = LUCENE41_BLOCK_SIZE then de.refillDocs else (de, .ok none)
    match r.2 with
    | .panic m => some { de := r.1, result := .panic m }
    | .ok (some _) => some { de := r.1, result := .ok (0, none) }
    | .ok none =>
      match blockDocsEnum.advanceScan target r.1.fuel r.1 with
      | none => none
      | some scanned => blockDocsEnum.advanceFinish scanned

/-- Source method `Docs`. `reuse` is `none` when the caller passes nil or an
enumerator of another type. The result is the enumerator and the error of
`reset`. -/
def Lucene41PostingsReader.Docs (r : Lucene41PostingsReader) (maxDataSize : Nat)
    (fieldInfo : FieldInfo) (termState : intBlockTermState) (liveDocs : Option (Int → Bool))
    (reuse : Option blockDocsEnum) (flags : Nat) : blockDocsEnum × Option String :=
  let docsEnum : blockDocsEnum :=
    match reuse with
    | some v => if v.canReuse r.docIn fieldInfo then v else newBlockDocsEnum maxDataSize r fieldInfo
    | none => newBlockDocsEnum maxDataSize r fieldInfo
  docsEnum.reset liveDocs termState flags

/-- Source method `Init`. The header check is made by `codec.CheckHeader`, declared
outside the source files: `headerErr` is the error it returns, and `termsIn` is
the stream after the header. A block size other than 128 is a panic. -/
def Lucene41PostingsReader.Init (headerErr : Option String) (termsIn : IndexInput) :
    Result (Option String) :=
  match headerErr with
  | some e => .ok (some e)
  | none =>
    let r := termsIn.ReadVInt
    match r.err with
    | some e => .ok (some e)
    | none =>
      if r.n ≠ (LUCENE41_BLOCK_SIZE : Int) then
        .panic ("index-time BLOCK_SIZE (" ++ toString r.n ++ ") != read-time BLOCK_SIZE ("
          ++ toString LUCENE41_BLOCK_SIZE ++ ")")
      else .ok none

/-! ## Sequences of calls on an enumerator -/

/-- A call of `NextDoc` or of `Advance` on an enumerator. -/
inductive EnumCall where
  | NextDoc
  | Advance (target : Int)
  deriving DecidableEq, Repr

/-- One call on an enumerator. -/
def blockDocsEnum.call (de : blockDocsEnum) : EnumCall → Option EnumOutcome
  | .NextDoc => de.NextDoc
  | .Advance target => de.Advance target

/-- What the caller sees of a call: the returned document and error, or the panic,
and the value of `Freq()` after the call. -/
structure CallRecord where
  result : Result (Int × Option String)
  freq : Int
  deriving DecidableEq, Repr

/-- A sequence of calls on an enumerator: the enumerator after the last call and the
record of every call, in order. A panic ends the sequence. `none` when a loop runs
out of fuel. -/
def blockDocsEnum.calls (de : blockDocsEnum) :
    List EnumCall → Option (blockDocsEnum × List CallRecord)
  | [] => some (de, [])
  | c :: cs =>
    match de.call c with
    | none => none
    | some o =>
      match o.result with
      | .panic m => some (o.de, [{ result := .panic m, freq := o.de.freq }])
      | .ok r =>
        match o.de.calls cs with
        | none => none
        | some p => some (p.1, { result := .ok r, freq := o.de.freq } :: p.2)

/-- The loop of `nextDocUntil`; `none` when the fuel runs out. -/
def blockDocsEnum.nextDocUntilLoop (target : Int) : Nat → blockDocsEnum → Option EnumOutcome
  | 0, _ => none
  | fuel + 1, de =>
    match de.NextDoc with
    | none => none
    | some o =>
      match o.result with
      | .ok (n, none) =>
        if n ≥ target ∨ n = NO_MORE_DOCS then some o
        else blockDocsEnum.nextDocUntilLoop target fuel o.de
      | _ => some o

/-- The reading of `advance(target)` in the words of the spec: `NextDoc` is called
repeatedly until it returns a document not below the target or NO_MORE_DOCS (or
fails); the outcome is that of the last call. -/
def blockDocsEnum.nextDocUntil (de : blockDocsEnum) (target : Int) : Option EnumOutcome :=
  blockDocsEnum.nextDocUntilLoop target de.fuel de

/-- The loop of `iterate`; `none` when the fuel runs out. -/
def blockDocsEnum.iterateLoop : Nat → blockDocsEnum → Option (List Int × Result (Option String))
  | 0, _ => none
  | fuel + 1, de =>
    match de.NextDoc with
    | none => none
    | some o =>
      match o.result with
      | .panic m => some ([], .panic m)
      | .ok (_, some e) => some ([], .ok (some e))
      | .ok (n, none) =>
        if n = NO_MORE_DOCS then some ([], .ok none)
        else
          match blockDocsEnum.iterateLoop fuel o.de with
          | none => none
          | some p => some (n :: p.1, p.2)

/-- The iteration of an enumerator: `NextDoc` is called until it returns
NO_MORE_DOCS; the result is the list of the documents returned before, and how
the iteration ended (nil, an error or a panic). -/
def blockDocsEnum.iterate (de : blockDocsEnum) : Option (List Int × Result (Option String)) :=
  blockDocsEnum.iterateLoop de.fuel de

/-! ## The postings of a term and the moves of an enumerator over them -/

/-- What `readVIntBlock` stores for a list of values read without error: `num`
entries (document delta, frequency) and the values left over. With frequencies, the
delta is the code shifted right and the frequency is 1 when the low bit of the code
is set and the next value otherwise; without, the delta is the value and the
frequency is the 1 that `reset` has put into the frequency buffer. -/
def decodeVInts (indexHasFreq : Bool) : Nat → List Int → Option (List (Int × Int) × List Int)
  | 0, values => some ([], values)
  | _ + 1, [] => none
  | num + 1, code :: values =>
    if indexHasFreq then
      if code % 2 ≠ 0 then
        (decodeVInts indexHasFreq num values).map fun r =>
          ((shiftRightUnsigned1 code, 1) :: r.1, r.2)
      else
        match values with
        | [] => none
        | freq :: values1 =>
          (decodeVInts indexHasFreq num values1).map fun r =>
            ((shiftRightUnsigned1 code, freq) :: r.1, r.2)
    else
      (decodeVInts indexHasFreq num values).map fun r => ((code, 1) :: r.1, r.2)

/-- The postings of a term, as entries (document delta, frequency), are stored for an
enumerator on `docIn`: a singleton term has the one entry of its term state; for
any other term the seek to the start of its data succeeds and the reads that follow
succeed with values that make up exactly the entries. -/
def StoredPostings (docIn : DocsInput) (indexHasFreq : Bool) (termState : intBlockTermState)
    (entries : List (Int × Int)) : Prop :=
  termState.DocFreq = (entries.length : Int) ∧
  if termState.DocFreq = 1 then
    entries = [(termState.singletonDocID,
      if indexHasFreq then termState.TotalTermFreq else 1)]
  else
    docIn.seekErr termState.docStartFP = none ∧
    ∃ values rest,
      (docIn.atFP termState.docStartFP).reads = values.map (fun v => (v, none)) ++ rest ∧
      decodeVInts indexHasFreq entries.length values = some (entries, [])

/-- The document ids of a list of entries, starting from the running id `accum`: every
id is the id before it plus the delta of the entry, as an `int`. -/
def docIds (accum : Int) : List (Int × Int) → List Int
  | [] => []
  | (delta, _) :: rest => wrap64 (accum + delta) :: docIds (wrap64 (accum + delta)) rest

/-- The effect of a call on the cursor of an enumerator: the number of entries it
consumes, the running id and the values of `doc` and `freq` it leaves. -/
structure Move where
  consumed : Nat
  accum : Int
  doc : Int
  freq : Int
  deriving DecidableEq, Repr

/-- The move that consumes one entry more. -/
def Move.shift (m : Move) : Move := { m with consumed := m.consumed + 1 }

/-- The move of `NextDoc` over the entries that remain: it consumes entries up to the
first live document, or all of them. -/
def nextMove (liveDocs : Option (Int → Bool)) (accum freq : Int) : List (Int × Int) → Move
  | [] => { consumed := 0, accum := accum, doc := NO_MORE_DOCS, freq := freq }
  | (delta, f) :: rest =>
    if isLive liveDocs (wrap64 (accum + delta)) then
      { consumed := 1, accum := wrap64 (accum + delta), doc := wrap64 (accum + delta),
        freq := f }
    else (nextMove liveDocs (wrap64 (accum + delta)) freq rest).shift

/-- The move of `Advance` over the entries that remain: it consumes entries up to the
first document not below the target, goes on as `NextDoc` when that document is not
live, and leaves `freq` as it was when it reaches the end. -/
def advanceMove (liveDocs : Option (Int → Bool)) (target : Int) (accum freq : Int) :
    List (Int × Int) → Move
  | [] => { consumed := 0, accum := accum, doc := NO_MORE_DOCS, freq := freq }
  | (delta, f) :: rest =>
    if wrap64 (accum + delta) ≥ target then
      if isLive liveDocs (wrap64 (accum + delta)) then
        { consumed := 1, accum := wrap64 (accum + delta), doc := wrap64 (accum + delta),
          freq := f }
      else (nextMove liveDocs (wrap64 (accum + delta)) freq rest).shift
    else (advanceMove liveDocs target (wrap64 (accum + delta)) freq rest).shift

/-- The move of a call. -/
def callMove (liveDocs : Option (Int → Bool)) (accum freq : Int) (rem : List (Int × Int)) :
    EnumCall → Move
  | .NextDoc => nextMove liveDocs accum freq rem
  | .Advance target => advanceMove liveDocs target accum freq rem

/-- The moves of a sequence of calls, each from where the one before has left the
cursor. -/
def callMoves (liveDocs : Option (Int → Bool)) :
    Int → Int → List (Int × Int) → List EnumCall → List Move
  | _, _, _, [] => []
  | accum, freq, rem, c :: cs =>
    (callMove liveDocs accum freq rem c) ::
      callMoves liveDocs (callMove liveDocs accum freq rem c).accum
        (callMove liveDocs accum freq rem c).freq
        (rem.drop (callMove liveDocs accum freq rem c).consumed) cs

/-- The record of a call that makes a move. -/
def Move.record (m : Move) : CallRecord := { result := .ok (m.doc, none), freq := m.freq }

/-- The enumerator after a move. -/
def blockDocsEnum.moved (de : blockDocsEnum) (m : Move) : blockDocsEnum :=
  { de with accum := m.accum, docUpto := de.docUpto + m.consumed,
            docBufferUpto := de.docBufferUpto + m.consumed, doc := m.doc, freq := m.freq }

/-- The buffers of an enumerator hold the entries `rem` from `docBufferUpto` on, these
are the postings that remain, they end before index 128, and the term has at most
128 documents. -/
structure Loaded (de : blockDocsEnum) (rem : List (Int × Int)) : Prop where
  deltas : ∃ tail, de.docDeltaBuffer.drop de.docBufferUpto = rem.map Prod.fst ++ tail
  freqs : ∃ tail, de.freqBuffer.drop de.docBufferUpto = rem.map Prod.snd ++ tail
  docFreq : de.docFreq = ((de.docUpto + rem.length : Nat) : Int)
  room : de.docBufferUpto + rem.length < 128
  small : de.docFreq ≤ 128

/-- An enumerator as `reset` leaves it for a term whose postings `entries` are stored:
nothing is buffered, and `refillDocs` succeeds and buffers the entries without
touching the cursor. -/
structure Fresh (de : blockDocsEnum) (entries : List (Int × Int)) : Prop where
  docBufferUpto : de.docBufferUpto = 128
  docUpto : de.docUpto = 0
  accum : de.accum = 0
  docFreq : de.docFreq = (entries.length : Int)
  nonempty : 0 < entries.length
  small : entries.length < 128
  refill : de.refillDocs.2 = .ok none
  loaded : Loaded de.refillDocs.1 entries
  refillUpto : de.refillDocs.1.docBufferUpto = 0 ∧ de.refillDocs.1.docUpto = 0
  refillCursor : de.refillDocs.1.accum = 0 ∧ de.refillDocs.1.freq = de.freq ∧
    de.refillDocs.1.doc = de.doc ∧ de.refillDocs.1.liveDocs = de.liveDocs ∧
    de.refillDocs.1.docFreq = de.docFreq ∧ de.refillDocs.1.nextSkipDoc = de.nextSkipDoc

/-- What a move over the entries `rem` from the running id `accum` has to satisfy: it
consumes no more entries than remain, the ids of the entries it leaves are the ids
that followed, and either it has reached the end (every entry is consumed, `doc` is
NO_MORE_DOCS and `freq` is as before) or it stands on the last entry it consumed,
which is live, `doc` being its id and `freq` its frequency. -/
def Move.Ok (liveDocs : Option (Int → Bool)) (accum freq : Int) (rem : List (Int × Int))
    (m : Move) : Prop :=
  m.consumed ≤ rem.length ∧
  docIds m.accum (rem.drop m.consumed) = (docIds accum rem).drop m.consumed ∧
  ((m.doc = NO_MORE_DOCS ∧ m.consumed = rem.length ∧ m.freq = freq) ∨
    (0 < m.consumed ∧ (docIds accum rem)[m.consumed - 1]? = some m.doc ∧
      isLive liveDocs m.doc = true ∧ (rem.map Prod.snd)[m.consumed - 1]? = some m.freq))

/-! ## Sample postings -/

/-- A field that indexes documents and frequencies. -/
def sampleFieldFreqs : FieldInfo :=
  { indexOptions := INDEX_OPT_DOCS_AND_FREQS, hasPayloads := false }

/-- A field that indexes documents only. -/
def sampleFieldDocsOnly : FieldInfo :=
  { indexOptions := INDEX_OPT_DOCS_ONLY, hasPayloads := false }

/-- A handle of the document stream, of identity 1: every seek succeeds, and a
clone reads `reads` after any seek and nothing before. -/
def sampleDocsInput (reads : List (Int × Option String)) : DocsInput :=
  { id := 1, current := { reads := [] }, atFP := fun _ => { reads := reads },
    seekErr := fun _ => none }

/-- A reader on `sampleDocsInput`. -/
def sampleReader (reads : List (Int × Option String)) : Lucene41PostingsReader :=
  { docIn := sampleDocsInput reads }

/-- A term with one document, 7, in which it occurs 5 times. -/
def sampleSingletonTerm : intBlockTermState :=
  { DocFreq := 1, TotalTermFreq := 5, docStartFP := 0, skipOffset := -1, singletonDocID := 7 }

/-- A term with two documents whose data starts at 178. -/
def sampleTerm : intBlockTermState :=
  { DocFreq := 2, TotalTermFreq := 4, docStartFP := 178, skipOffset := -1,
    singletonDocID := -1 }

/-- A term with 128 documents, a full block. -/
def sampleFullBlockTerm : intBlockTermState :=
  { DocFreq := 128, TotalTermFreq := 128, docStartFP := 0, skipOffset := -1,
    singletonDocID := -1 }

/-- A document stream whose first read fails. -/
def sampleFailingReads : List (Int × Option String) := [(0, some "read failed")]

/-- A terms stream whose block size is 64. -/
def sampleTermsIn64 : IndexInput := { reads := [(64, none)] }

/-- A document stream that supplies the codes 7 and 4 and fails at the read of the
frequency that follows the code 4. -/
def samplePartialReads : List (Int × Option String) :=
  [(7, none), (4, none), (0, some "read failed")]

/-- Two moves agree: they consume the same entries and leave the same running id
and the same `doc`, and the same `freq` unless `doc` is NO_MORE_DOCS. -/
def Move.Agree (m1 m2 : Move) : Prop :=
  m1.consumed = m2.consumed ∧ m1.accum = m2.accum ∧ m1.doc = m2.doc ∧
  (m1.doc ≠ NO_MORE_DOCS → m1.freq = m2.freq)

/-- A document stream that supplies the codes of two postings: 7 (delta 3,
frequency 1) and 4 followed by 3 (delta 2, frequency 3). -/
def samplePostingsReads : List (Int × Option String) := [(7, none), (4, none), (3, none)]

/-- The two postings of `samplePostingsReads`: the documents 3 and 5. -/
def sampleEntries : List (Int × Int) := [(3, 1), (2, 3)]

/-- A live-docs mask that excludes the document 3. -/
def sampleLiveDocs : Option (Int → Bool) := some (fun doc => doc != 3)

/-- A document stream that supplies the deltas of two postings of a field without
frequencies: 3 and 2. -/
def sampleDocsOnlyReads : List (Int × Option String) := [(3, none), (2, none)]

/-- The two postings of `sampleDocsOnlyReads`: the documents 3 and 5, each with the
frequency 1. -/
def sampleDocsOnlyEntries : List (Int × Int) := [(3, 1), (2, 1)]

/-- An enumerator left by an earlier term: a new enumerator on a field with
frequencies, after reset for the singleton term and one `NextDoc`, which has
returned the document 7 with the frequency 5. -/
def sampleUsedEnum (reads : List (Int × Option String)) : blockDocsEnum :=
  match ((newBlockDocsEnum 128 (sampleReader reads) sampleFieldFreqs).reset none
      sampleSingletonTerm 0).1.NextDoc with
  | some o => o.de
  | none => newBlockDocsEnum 128 (sampleReader reads) sampleFieldFreqs

/-- The value of `freq` once `NextDoc` has gone through all the entries `rem` from the
running id `accum`: the frequency of the last entry whose document the mask does not
exclude, or `freq`, the value before, when there is none. -/
def lastFreq (liveDocs : Option (Int → Bool)) : Int → Int → List (Int × Int) → Int
  | _, freq, [] => freq
  | accum, freq, (delta, f) :: rest =>
    lastFreq liveDocs (wrap64 (accum + delta))
      (if isLive liveDocs (wrap64 (accum + delta)) then f else freq) rest

/-! ## Theorems -/

/-- C4: for every ticket and every writer, the first call of `publish` leaves
`published` set, and a second call of `publish` on the ticket, with any writer,
panics with the already-published message, leaves the ticket as it was and makes
no call to the writer (the writer, and so the list of calls it has received, is
unchanged). -/
theorem publish_twice_rejected (ticket : SegmentFlushTicket) (writer writer2 : IndexWriter) :
    (ticket.publish writer).ticket.published = true ∧
    ((ticket.publish writer).ticket.publish writer2).result
      = .panic "ticket was already publised - can not publish twice" ∧
    ((ticket.publish writer).ticket.publish writer2).writer = writer2 ∧
    ((ticket.publish writer).ticket.publish writer2).writer.calls = writer2.calls ∧
    ((ticket.publish writer).ticket.publish writer2).ticket = (ticket.publish writer).ticket := by
  have h1 : (ticket.publish writer).ticket.published = true := by
    unfold SegmentFlushTicket.publish assertn
    cases hp : ticket.published <;> simp [hp]
  refine ⟨h1, ?_⟩
  generalize (ticket.publish writer).ticket = t1 at h1 ⊢
  simp [SegmentFlushTicket.publish, assertn, h1]

/-! ### Helper lemmas on lists -/

theorem set_of_getElem? {α : Type} (l : List α) (i : Nat) (a : α) (h : l[i]? = some a) :
    l.set i a = l := by
  induction l generalizing i with
  | nil => simp
  | cons x xs ih =>
    cases i with
    | zero => simp at h; simp [h]
    | succ j => simp at h; simp [ih j h]

/-- C5, counterexample: `publish` on a published ticket that has non-nil frozen
deletes holding deletes and no segment panics and makes no call to the writer, and
`publish` on an unpublished ticket with non-nil frozen deletes and a segment whose
segmentInfo is nil panics and makes no call to the writer. -/
theorem publish_effect_counterexample :
    (samplePublished.frozenDeletes = some sampleDeletes ∧ samplePublished.segment = none ∧
      sampleDeletes.any = true ∧
      (samplePublished.publish sampleWriter).result
        = .panic "ticket was already publised - can not publish twice" ∧
      (samplePublished.publish sampleWriter).writer.calls = []) ∧
    (sampleReadyNoInfo.frozenDeletes = some sampleDeletes ∧
      sampleReadyNoInfo.segment = some sampleSegmentNoInfo ∧
      (sampleReadyNoInfo.publish sampleWriter).result = .panic "assert fail" ∧
      (sampleReadyNoInfo.publish sampleWriter).writer.calls = []) := by
  refine ⟨⟨rfl, rfl, rfl, rfl, rfl⟩, rfl, rfl, rfl, rfl⟩

/-- C5, amended: for every ticket that is not yet published and whose frozenDeletes
is non-nil, `publish` sets `published`; on a ticket with no segment it calls the
writer's publishFrozenDeletes with the ticket's frozen deletes exactly when
`any()` is true, calls nothing otherwise, and returns nil; on a ticket with a
segment whose segmentInfo is non-nil it calls the writer's publishFlushedSegment
exactly once, with the segment's segmentInfo, the segment's private deletes and the
ticket's frozen deletes, and returns its result. -/
theorem publish_effect (ticket : SegmentFlushTicket) (deletes : FrozenBufferedDeletes)
    (writer : IndexWriter) (hd : ticket.frozenDeletes = some deletes)
    (hp : ticket.published = false) :
    (ticket.publish writer).ticket = { ticket with published := true } ∧
    (ticket.segment = none →
      (ticket.publish writer).result = .ok none ∧
      (ticket.publish writer).writer =
        { writer with calls := writer.calls ++
            (if deletes.any then [WriterCall.publishFrozenDeletes deletes] else []) }) ∧
    (∀ segment segmentInfo, ticket.segment = some segment →
      segment.segmentInfo = some segmentInfo →
      (ticket.publish writer).result =
        .ok (writer.publishFlushedSegmentErr writer.calls
          (WriterCall.publishFlushedSegment segmentInfo segment.segmentDeletes (some deletes))) ∧
      (ticket.publish writer).writer =
        { writer with calls := writer.calls ++
            [WriterCall.publishFlushedSegment segmentInfo segment.segmentDeletes
              (some deletes)] }) := by
  refine ⟨?_, ?_, ?_⟩
  · simp [SegmentFlushTicket.publish, assertn, hp]
  · intro hs
    cases ha : deletes.any <;>
      simp [SegmentFlushTicket.publish, assertn, hp, finishFlush, hs, hd, ha,
        IndexWriter.publishFrozenDeletes]
  · intro segment segmentInfo hs hi
    simp [SegmentFlushTicket.publish, assertn, hp, finishFlush, hs, hd, hi,
      publishFlushedSegment, IndexWriter.publishFlushedSegment]

/-- C5, witness: the amended statement at a failed ticket whose frozen deletes hold
deletes and at a ticket with a segment. -/
theorem publish_effect_witness :
    ((sampleFailed.publish sampleWriter).result = .ok none ∧
      (sampleFailed.publish sampleWriter).writer.calls
        = [WriterCall.publishFrozenDeletes sampleDeletes]) ∧
    ((sampleReady.publish sampleFailingWriter).result = .ok (some "disk full") ∧
      (sampleReady.publish sampleFailingWriter).writer.calls
        = [WriterCall.publishFlushedSegment { name := "_a" } (some { gen := 7 })
            (some sampleDeletes)]) := by
  have h1 := (publish_effect sampleFailed sampleDeletes sampleWriter rfl rfl).2.1 rfl
  have h2 := (publish_effect sampleReady sampleDeletes sampleFailingWriter rfl rfl).2.2
    sampleSegmentA { name := "_a" } rfl rfl
  refine ⟨⟨h1.1, ?_⟩, h2.1, ?_⟩
  · rw [h1.2]; rfl
  · rw [h2.2]; rfl

theorem calls_append (ticket : SegmentFlushTicket) (cs1 cs2 : List TicketCall) :
    ticket.calls (cs1 ++ cs2) = (ticket.calls cs1).bind fun t => t.calls cs2 := by
  induction cs1 generalizing ticket with
  | nil => rfl
  | cons c cs ih =>
    simp only [List.cons_append, SegmentFlushTicket.calls]
    cases ticket.call c with
    | panic m => rfl
    | ok t1 => simp only [Result.bind]; exact ih t1

theorem calls_keep_exclusion (cs : List TicketCall) :
    ∀ ticket0 ticket : SegmentFlushTicket,
      ¬ (ticket0.failed = true ∧ ticket0.segment ≠ none) →
      ticket0.calls cs = .ok ticket →
      ¬ (ticket.failed = true ∧ ticket.segment ≠ none) := by
  induction cs with
  | nil =>
    intro ticket0 ticket hinit hcs
    simp [SegmentFlushTicket.calls] at hcs
    subst hcs
    exact hinit
  | cons c cs ih =>
    intro ticket0 ticket hinit hcs
    simp only [SegmentFlushTicket.calls] at hcs
    cases hc : ticket0.call c with
    | panic m => simp [hc, Result.bind] at hcs
    | ok t1 =>
      simp only [hc, Result.bind] at hcs
      refine ih t1 ticket ?_ hcs
      cases c with
      | setSegment segment =>
        cases hf : ticket0.failed <;>
          simp [SegmentFlushTicket.call, SegmentFlushTicket.setSegment, assert, Result.bind,
            hf] at hc
        subst hc
        simp [hf]
      | fail =>
        cases hs : ticket0.segment <;>
          simp [SegmentFlushTicket.call, SegmentFlushTicket.fail, assert, Result.bind, hs] at hc
        subst hc
        simp [hs]

/-- C8: for every ticket created by newSegmentFlushTicket and every sequence of
setSegment and fail calls on it none of which fails, the ticket never has both
`failed` set and a segment attached: neither after the whole sequence nor after
any initial part of it; setSegment on a failed ticket panics and fail on a ticket
with an attached segment panics. -/
theorem failed_excludes_segment (frozenDeletes : Option FrozenBufferedDeletes)
    (ticket0 ticket : SegmentFlushTicket) (cs : List TicketCall)
    (h0 : newSegmentFlushTicket frozenDeletes = .ok ticket0)
    (hcs : ticket0.calls cs = .ok ticket) :
    ¬ (ticket.failed = true ∧ ticket.segment ≠ none) ∧
    (∀ cs1 cs2, cs = cs1 ++ cs2 →
      ∃ t1, ticket0.calls cs1 = .ok t1 ∧ ¬ (t1.failed = true ∧ t1.segment ≠ none)) ∧
    (∀ (t : SegmentFlushTicket) (segment : Option FlushedSegment), t.failed = true →
      t.setSegment segment = .panic "assert fail") ∧
    (∀ t : SegmentFlushTicket, t.segment ≠ none → t.fail = .panic "assert fail") := by
  have hinit : ¬ (ticket0.failed = true ∧ ticket0.segment ≠ none) := by
    cases frozenDeletes with
    | none => simp [newSegmentFlushTicket, newFlushTicket, assert, Result.bind] at h0
    | some d =>
      simp [newSegmentFlushTicket, newFlushTicket, assert, Result.bind] at h0
      subst h0
      simp
  refine ⟨calls_keep_exclusion cs ticket0 ticket hinit hcs, ?_, ?_, ?_⟩
  · intro cs1 cs2 hsplit
    rw [hsplit, calls_append] at hcs
    cases h1 : ticket0.calls cs1 with
    | panic m => simp [h1, Result.bind] at hcs
    | ok t1 => exact ⟨t1, rfl, calls_keep_exclusion cs1 ticket0 t1 hinit h1⟩
  · intro t segment hf
    simp [SegmentFlushTicket.setSegment, assert, Result.bind, hf]
  · intro t hs
    cases hseg : t.segment with
    | none => exact absurd hseg hs
    | some s => simp [SegmentFlushTicket.fail, assert, Result.bind, hseg]

/-- C8, witness: a ticket created with frozen deletes, a segment attached twice. -/
theorem failed_excludes_segment_witness :
    newSegmentFlushTicket (some sampleDeletes) = .ok samplePending ∧
    samplePending.calls [.setSegment (some sampleSegmentA), .setSegment (some sampleSegmentB)]
      = .ok { samplePending with segment := some sampleSegmentB } ∧
    ¬ (({ samplePending with segment := some sampleSegmentB } : SegmentFlushTicket).failed = true ∧
      ({ samplePending with segment := some sampleSegmentB } : SegmentFlushTicket).segment
        ≠ none) :=
  ⟨rfl, rfl,
    (failed_excludes_segment (some sampleDeletes) samplePending
      { samplePending with segment := some sampleSegmentB }
      [.setSegment (some sampleSegmentA), .setSegment (some sampleSegmentB)] rfl rfl).1⟩

/-- C9, counterexample: a ticket is registered and `sampleSegmentA` is attached, so
that it is Ready; a later `addSegment` with `sampleSegmentB` on the same ticket is
accepted and changes the ticket's segment. -/
theorem ready_ticket_frozen_counterexample :
    sampleQueueReady.heap[0]? = some sampleReady ∧
    sampleReady.canPublish = true ∧
    (sampleQueueReady.addSegment 0 (some sampleSegmentB)).result = .ok () ∧
    (sampleQueueReady.addSegment 0 (some sampleSegmentB)).fq.heap[0]?
      = some { sampleReady with segment := some sampleSegmentB } ∧
    ({ sampleReady with segment := some sampleSegmentB } : SegmentFlushTicket).segment
      ≠ sampleReady.segment := by
  refine ⟨by decide, by decide, by decide, by decide, by decide⟩

/-- C9, amended: for a ticket that is Ready at the time of the call,
`markTicketFailed` changes nothing (it panics when a segment is attached and
leaves the ticket as it was when the ticket is failed), and `addSegment` on a
failed ticket panics and changes nothing; `addSegment` on a ticket that is not
failed is accepted and replaces the segment by its argument, also when a segment
was attached before, and changes nothing else. In particular `addSegment` with nil
is accepted on a ticket that has a segment attached: the ticket is then no longer
Ready, and a `markTicketFailed` that follows is accepted and sets `failed`. -/
theorem ready_ticket_calls (fq : DocumentsWriterFlushQueue) (ticket : Nat)
    (t : SegmentFlushTicket) (h : fq.heap[ticket]? = some t) (hr : t.canPublish = true) :
    (t.segment ≠ none →
      (fq.markTicketFailed ticket).result = .panic "assert fail" ∧
      (fq.markTicketFailed ticket).fq = fq) ∧
    (t.segment = none →
      (fq.markTicketFailed ticket).result = .ok () ∧ (fq.markTicketFailed ticket).fq = fq) ∧
    (∀ segment, t.failed = true →
      (fq.addSegment ticket segment).result = .panic "assert fail" ∧
      (fq.addSegment ticket segment).fq = fq) ∧
    (∀ segment, t.failed = false →
      (fq.addSegment ticket segment).result = .ok () ∧
      (fq.addSegment ticket segment).fq
        = { fq with heap := fq.heap.set ticket { t with segment := segment } } ∧
      (fq.addSegment ticket segment).fq.heap[ticket]? = some { t with segment := segment }) ∧
    (t.failed = false →
      ({ t with segment := none } : SegmentFlushTicket).canPublish = false ∧
      ((fq.addSegment ticket none).fq.markTicketFailed ticket).result = .ok () ∧
      ((fq.addSegment ticket none).fq.markTicketFailed ticket).fq.heap[ticket]?
        = some { t with segment := none, failed := true }) := by
  have hlt : ticket < fq.heap.length := by
    rcases Nat.lt_or_ge ticket fq.heap.length with hlt | hge
    · exact hlt
    · rw [List.getElem?_eq_none hge] at h; cases h
  refine ⟨?_, ?_, ?_, ?_, ?_⟩
  · intro hs
    cases hseg : t.segment with
    | none => exact absurd hseg hs
    | some s =>
      simp [DocumentsWriterFlushQueue.markTicketFailed, DocumentsWriterFlushQueue.updateTicket,
        h, SegmentFlushTicket.fail, assert, Result.bind, hseg]
  · intro hs
    have hf : t.failed = true := by
      simpa [SegmentFlushTicket.canPublish, hs] using hr
    have ht : ({ t with failed := true } : SegmentFlushTicket) = t := by
      cases t; simp_all
    have hheap : fq.heap.set ticket { t with failed := true } = fq.heap := by
      rw [ht]; exact set_of_getElem? _ _ _ h
    have hfq : ({ fq with heap := fq.heap } : DocumentsWriterFlushQueue) = fq := by
      cases fq; rfl
    have hres : fq.markTicketFailed ticket =
        { fq := { fq with heap := fq.heap.set ticket { t with failed := true } },
          result := .ok (), trace := [] } := by
      simp [DocumentsWriterFlushQueue.markTicketFailed, DocumentsWriterFlushQueue.updateTicket,
        h, SegmentFlushTicket.fail, assert, Result.bind, hs]
    rw [hres, hheap, hfq]
    exact ⟨rfl, rfl⟩
  · intro segment hf
    simp [DocumentsWriterFlushQueue.addSegment, DocumentsWriterFlushQueue.updateTicket,
      h, SegmentFlushTicket.setSegment, assert, Result.bind, hf]
  · intro segment hf
    simp [DocumentsWriterFlushQueue.addSegment, DocumentsWriterFlushQueue.updateTicket,
      h, SegmentFlushTicket.setSegment, assert, Result.bind, hf, hlt]
  · intro hf
    have hadd : (fq.addSegment ticket none).fq
        = { fq with heap := fq.heap.set ticket { t with segment := none } } := by
      simp [DocumentsWriterFlushQueue.addSegment, DocumentsWriterFlushQueue.updateTicket,
        h, SegmentFlushTicket.setSegment, assert, Result.bind, hf]
    rw [hadd]
    refine ⟨by simp [SegmentFlushTicket.canPublish, hf], ?_, ?_⟩
    · simp [DocumentsWriterFlushQueue.markTicketFailed, DocumentsWriterFlushQueue.updateTicket,
        SegmentFlushTicket.fail, assert, Result.bind, hlt]
    · simp [DocumentsWriterFlushQueue.markTicketFailed, DocumentsWriterFlushQueue.updateTicket,
        SegmentFlushTicket.fail, assert, Result.bind, hlt]

/-- C9, witness: the amended statement at the queue whose only ticket has
`sampleSegmentA` attached: `markTicketFailed` is rejected; `addSegment` with nil is
accepted and detaches the segment, and a `markTicketFailed` that follows is
accepted and sets `failed`. -/
theorem ready_ticket_calls_witness :
    (sampleQueueReady.markTicketFailed 0).result = .panic "assert fail" ∧
    (sampleQueueReady.markTicketFailed 0).fq = sampleQueueReady ∧
    (sampleQueueReady.addSegment 0 none).result = .ok () ∧
    (sampleQueueReady.addSegment 0 none).fq.heap[0]? = some { sampleReady with segment := none } ∧
    ((sampleQueueReady.addSegment 0 none).fq.markTicketFailed 0).result = .ok () ∧
    ((sampleQueueReady.addSegment 0 none).fq.markTicketFailed 0).fq.heap[0]?
      = some { sampleReady with segment := none, failed := true } :=
  have h := ready_ticket_calls sampleQueueReady 0 sampleReady (by decide) (by decide)
  ⟨(h.1 (by decide)).1, (h.1 (by decide)).2, (h.2.2.2.1 none (by decide)).1,
    (h.2.2.2.1 none (by decide)).2.2, (h.2.2.2.2 (by decide)).2.1,
    (h.2.2.2.2 (by decide)).2.2⟩

/-- C7: when the counter is an int32 value and the assertion of incTickets holds
after the increment, a call of addFlushTicket that fails because the producer's
prepareFlush panics, or because prepareFlush returns nil frozen deletes so that the
construction of the ticket panics, leaves the queue (counter, list and tickets) as
it was before the call: the counter is incremented and then decremented back, as
the trace shows; the call panics. -/
theorem addFlushTicket_failure_restores (fq : DocumentsWriterFlushQueue)
    (prepareFlush : Result (Option FrozenBufferedDeletes))
    (hrange : -2147483648 ≤ fq._ticketCount ∧ fq._ticketCount ≤ 2147483647)
    (hinc : fq.incTickets.2 = .ok ())
    (hfail : (∃ m, prepareFlush = .panic m) ∨ prepareFlush = .ok none) :
    (fq.addFlushTicket prepareFlush).fq = fq ∧
    (fq.addFlushTicket prepareFlush).fq._ticketCount = fq._ticketCount ∧
    (fq.addFlushTicket prepareFlush).fq.queue = fq.queue ∧
    (∃ m, (fq.addFlushTicket prepareFlush).result = .panic m) ∧
    (fq.addFlushTicket prepareFlush).trace
      = [{ fq with _ticketCount := fq._ticketCount + 1 }, fq] := by
  obtain ⟨hlo, hhi⟩ := hrange
  have hpos : 0 < wrap32 (fq._ticketCount + 1) := by
    simp only [DocumentsWriterFlushQueue.incTickets, assert] at hinc
    by_contra hcon
    simp [hcon] at hinc
  have h1 : wrap32 (fq._ticketCount + 1) = fq._ticketCount + 1 := by
    unfold wrap32 at hpos ⊢
    omega
  have h0 : 0 ≤ fq._ticketCount := by
    rw [h1] at hpos; omega
  have hpanic : ∃ m, prepareFlush.bind newSegmentFlushTicket = .panic m := by
    rcases hfail with ⟨m, hm⟩ | hnil
    · exact ⟨m, by simp [hm, Result.bind]⟩
    · exact ⟨"assert fail", by
        simp [hnil, Result.bind, newSegmentFlushTicket, newFlushTicket, assert]⟩
  obtain ⟨m, hm⟩ := hpanic
  have hfq : ({ fq with _ticketCount := fq._ticketCount } : DocumentsWriterFlushQueue) = fq := by
    cases fq; rfl
  have hstep : fq.addFlushTicket prepareFlush =
      { fq := fq, result := .panic m,
        trace := [{ fq with _ticketCount := fq._ticketCount + 1 }, fq] } := by
    have h3 : wrap32 fq._ticketCount = fq._ticketCount := by
      unfold wrap32
      omega
    have h4 : 0 < fq._ticketCount + 1 := by omega
    simp [DocumentsWriterFlushQueue.addFlushTicket, DocumentsWriterFlushQueue.incTickets,
      DocumentsWriterFlushQueue.decTickets, assert, hm, h1, h3, h4, h0, hfq]
  rw [hstep]
  exact ⟨rfl, rfl, rfl, ⟨m, rfl⟩, rfl⟩

/-- C7, witness: on the queue with one registered ticket, prepareFlush returns nil
frozen deletes. -/
theorem addFlushTicket_failure_restores_witness :
    (sampleQueuePending.addFlushTicket (.ok none)).fq = sampleQueuePending ∧
    (sampleQueuePending.addFlushTicket (.ok none)).fq._ticketCount = 1 ∧
    (sampleQueuePending.addFlushTicket (.ok none)).fq.queue = [0] :=
  have h := addFlushTicket_failure_restores sampleQueuePending (.ok none)
    (by decide) (by decide) (Or.inr rfl)
  ⟨h.1, h.2.1.trans (by decide), h.2.2.1.trans (by decide)⟩

/-! ### The passes of the purge loop -/

theorem purgeLoop_cons_ok (writer : IndexWriter) (heap : List SegmentFlushTicket) (count : Int)
    (numPurged : Nat) (calls : List Nat) (trace : List DocumentsWriterFlushQueue)
    (head : Nat) (rest : List Nat) (t : SegmentFlushTicket)
    (h : heap[head]? = some t) (hr : t.canPublish = true)
    (hp : (t.publish writer).result = .ok none) :
    _purgeLoop writer heap count numPurged calls trace (head :: rest) =
      _purgeLoop (t.publish writer).writer (heap.set head (t.publish writer).ticket)
        (wrap32 (count - 1)) (numPurged + 1) (calls ++ [head])
        (trace ++ [{ heap := heap.set head (t.publish writer).ticket, queue := rest,
                     _ticketCount := count },
                   { heap := heap.set head (t.publish writer).ticket, queue := rest,
                     _ticketCount := wrap32 (count - 1) }]) rest := by
  rw [_purgeLoop]
  simp only [h, hr, if_true]
  rw [hp]

theorem purgeLoop_cons_err (writer : IndexWriter) (heap : List SegmentFlushTicket) (count : Int)
    (numPurged : Nat) (calls : List Nat) (trace : List DocumentsWriterFlushQueue)
    (head : Nat) (rest : List Nat) (t : SegmentFlushTicket) (e : String)
    (h : heap[head]? = some t) (hr : t.canPublish = true)
    (hp : (t.publish writer).result = .ok (some e)) :
    _purgeLoop writer heap count numPurged calls trace (head :: rest) =
      { fq := { heap := heap.set head (t.publish writer).ticket, queue := rest,
                _ticketCount := wrap32 (count - 1) },
        writer := (t.publish writer).writer, result := .ok (numPurged + 1, some e),
        publishCalls := calls ++ [head],
        trace := trace ++ [{ heap := heap.set head (t.publish writer).ticket, queue := rest,
                             _ticketCount := count },
                           { heap := heap.set head (t.publish writer).ticket, queue := rest,
                             _ticketCount := wrap32 (count - 1) }] } := by
  rw [_purgeLoop]
  simp only [h, hr, if_true]
  rw [hp]

theorem purgeLoop_cons_panic (writer : IndexWriter) (heap : List SegmentFlushTicket)
    (count : Int) (numPurged : Nat) (calls : List Nat) (trace : List DocumentsWriterFlushQueue)
    (head : Nat) (rest : List Nat) (t : SegmentFlushTicket) (m : String)
    (h : heap[head]? = some t) (hr : t.canPublish = true)
    (hp : (t.publish writer).result = .panic m) :
    _purgeLoop writer heap count numPurged calls trace (head :: rest) =
      { fq := { heap := heap.set head (t.publish writer).ticket, queue := rest,
                _ticketCount := wrap32 (count - 1) },
        writer := (t.publish writer).writer, result := .panic m,
        publishCalls := calls ++ [head],
        trace := trace ++ [{ heap := heap.set head (t.publish writer).ticket, queue := rest,
                             _ticketCount := count },
                           { heap := heap.set head (t.publish writer).ticket, queue := rest,
                             _ticketCount := wrap32 (count - 1) }] } := by
  rw [_purgeLoop]
  simp only [h, hr, if_true]
  rw [hp]

theorem purgeLoop_cons_wait (writer : IndexWriter) (heap : List SegmentFlushTicket)
    (count : Int) (numPurged : Nat) (calls : List Nat) (trace : List DocumentsWriterFlushQueue)
    (head : Nat) (rest : List Nat) (t : SegmentFlushTicket)
    (h : heap[head]? = some t) (hr : t.canPublish = false) :
    _purgeLoop writer heap count numPurged calls trace (head :: rest) =
      { fq := { heap := heap, queue := head :: rest, _ticketCount := count }, writer := writer,
        result := .ok (numPurged, none), publishCalls := calls, trace := trace } := by
  rw [_purgeLoop]
  simp [h, hr]

theorem purgeLoop_cons_nil (writer : IndexWriter) (heap : List SegmentFlushTicket)
    (count : Int) (numPurged : Nat) (calls : List Nat) (trace : List DocumentsWriterFlushQueue)
    (head : Nat) (rest : List Nat) (h : heap[head]? = none) :
    _purgeLoop writer heap count numPurged calls trace (head :: rest) =
      { fq := { heap := heap, queue := head :: rest, _ticketCount := count }, writer := writer,
        result := .panic nilDereference, publishCalls := calls, trace := trace } := by
  rw [_purgeLoop]
  simp [h]

/-- C3, counterexample: the only ticket of the queue is Ready and its publish returns
the error "disk full"; forcePurge returns that error, and the ticket is no longer in
the queue and no longer counted, so that the next forcePurge finds nothing to
publish. -/
theorem purge_error_counterexample :
    sampleQueueReady.queue = [0] ∧ sampleQueueReady._ticketCount = 1 ∧
    sampleQueueReady.heap[0]? = some sampleReady ∧
    (sampleReady.publish sampleFailingWriter).result = .ok (some "disk full") ∧
    (sampleQueueReady.forcePurge sampleFailingWriter).result = .ok (1, some "disk full") ∧
    (sampleQueueReady.forcePurge sampleFailingWriter).fq.queue = [] ∧
    (sampleQueueReady.forcePurge sampleFailingWriter).fq._ticketCount = 0 ∧
    ((sampleQueueReady.forcePurge sampleFailingWriter).fq.forcePurge
      (sampleQueueReady.forcePurge sampleFailingWriter).writer).publishCalls = [] ∧
    ((sampleQueueReady.forcePurge sampleFailingWriter).fq.forcePurge
      (sampleQueueReady.forcePurge sampleFailingWriter).writer).result = .ok (0, none) := by
  refine ⟨by decide, by decide, by decide, by decide, by decide, by decide, by decide,
    by decide, by decide⟩

/-- C3, amended: when publish of the head ticket returns an error in a pass of the
purge loop, the loop stops and returns that error, the failed ticket being counted
in numPurged; the ticket whose publish failed has been removed from the queue and
the ticket counter has been decremented, as after a publish that succeeds, and the
tickets behind it stay in their order, so that the next forcePurge starts from the
ticket behind it. The first part is a pass in any state of the loop, the second
forcePurge whose first pass fails. -/
theorem purge_error_removes_head (writer : IndexWriter) (heap : List SegmentFlushTicket)
    (count : Int) (head : Nat) (rest : List Nat) (t : SegmentFlushTicket) (e : String)
    (h : heap[head]? = some t) (hr : t.canPublish = true)
    (hp : (t.publish writer).result = .ok (some e)) :
    (∀ numPurged calls trace,
      (_purgeLoop writer heap count numPurged calls trace (head :: rest)).result
        = .ok (numPurged + 1, some e) ∧
      (_purgeLoop writer heap count numPurged calls trace (head :: rest)).fq
        = { heap := heap.set head (t.publish writer).ticket, queue := rest,
            _ticketCount := wrap32 (count - 1) } ∧
      (_purgeLoop writer heap count numPurged calls trace (head :: rest)).writer
        = (t.publish writer).writer ∧
      (_purgeLoop writer heap count numPurged calls trace (head :: rest)).publishCalls
        = calls ++ [head]) ∧
    ((DocumentsWriterFlushQueue.forcePurge
        { heap := heap, queue := head :: rest, _ticketCount := count } writer).result
        = .ok (1, some e) ∧
      (DocumentsWriterFlushQueue.forcePurge
        { heap := heap, queue := head :: rest, _ticketCount := count } writer).fq.queue = rest ∧
      (DocumentsWriterFlushQueue.forcePurge
        { heap := heap, queue := head :: rest, _ticketCount := count } writer).fq._ticketCount
        = wrap32 (count - 1) ∧
      (DocumentsWriterFlushQueue.forcePurge
        { heap := heap, queue := head :: rest, _ticketCount := count } writer).publishCalls
        = [head]) := by
  constructor
  · intro numPurged calls trace
    rw [purgeLoop_cons_err writer heap count numPurged calls trace head rest t e h hr hp]
    exact ⟨rfl, rfl, rfl, rfl⟩
  · unfold DocumentsWriterFlushQueue.forcePurge DocumentsWriterFlushQueue._purge
    simp only
    rw [purgeLoop_cons_err writer heap count 0 [] [] head rest t e h hr hp]
    exact ⟨rfl, rfl, rfl, rfl⟩

/-- C3, witness: the amended statement at the queue whose only ticket is Ready, with
the writer that returns "disk full". -/
theorem purge_error_removes_head_witness :
    (DocumentsWriterFlushQueue.forcePurge
      { heap := [sampleReady], queue := [0], _ticketCount := 1 } sampleFailingWriter).result
      = .ok (1, some "disk full") ∧
    (DocumentsWriterFlushQueue.forcePurge
      { heap := [sampleReady], queue := [0], _ticketCount := 1 } sampleFailingWriter).fq.queue
      = [] :=
  have h := (purge_error_removes_head sampleFailingWriter [sampleReady] 1 0 [] sampleReady
    "disk full" (by decide) (by decide) (by decide)).2
  ⟨h.1, h.2.1⟩

/-! ### A purge with a writer that returns nil -/

theorem publish_ok_of_publishable (t : SegmentFlushTicket) (writer : IndexWriter)
    (hw : ∀ cs c, writer.publishFlushedSegmentErr cs c = none)
    (ht : t.publishable = true) :
    (t.publish writer).result = .ok none ∧
    (t.publish writer).ticket = { t with published := true } ∧
    (t.publish writer).writer.publishFlushedSegmentErr = writer.publishFlushedSegmentErr := by
  unfold SegmentFlushTicket.publishable at ht
  simp only [Bool.and_eq_true, Bool.not_eq_true', Option.isSome_iff_exists] at ht
  obtain ⟨⟨hp, d, hd⟩, hs⟩ := ht
  cases hseg : t.segment with
  | none =>
    cases ha : d.any <;>
      simp [SegmentFlushTicket.publish, assertn, hp, finishFlush, hseg, hd, ha,
        IndexWriter.publishFrozenDeletes]
  | some seg =>
    rw [hseg] at hs
    simp only [Option.isSome_iff_exists] at hs
    obtain ⟨si, hsi⟩ := hs
    simp [SegmentFlushTicket.publish, assertn, hp, finishFlush, hseg, hd, hsi,
      publishFlushedSegment, IndexWriter.publishFlushedSegment, hw]

theorem canPublishAt_set_published (heap : List SegmentFlushTicket) (head : Nat)
    (t : SegmentFlushTicket) (h : heap[head]? = some t) :
    canPublishAt (heap.set head { t with published := true }) = canPublishAt heap := by
  funext id
  unfold canPublishAt
  by_cases hid : head = id
  · subst hid
    have hlt : head < heap.length := by
      rcases Nat.lt_or_ge head heap.length with hlt | hge
      · exact hlt
      · rw [List.getElem?_eq_none hge] at h; cases h
    rw [List.getElem?_set_self hlt, h]
    rfl
  · rw [List.getElem?_set_ne hid]

theorem purgeLoop_publishes (queue : List Nat) :
    ∀ (writer : IndexWriter) (heap : List SegmentFlushTicket) (count : Int) (numPurged : Nat)
      (calls : List Nat) (trace : List DocumentsWriterFlushQueue),
      (∀ cs c, writer.publishFlushedSegmentErr cs c = none) →
      (∀ id ∈ queue, id < heap.length) →
      (∀ id ∈ queue.takeWhile (canPublishAt heap), publishableAt heap id = true) →
      (queue.takeWhile (canPublishAt heap)).Nodup →
      (_purgeLoop writer heap count numPurged calls trace queue).result
        = .ok (numPurged + (queue.takeWhile (canPublishAt heap)).length, none) ∧
      (_purgeLoop writer heap count numPurged calls trace queue).publishCalls
        = calls ++ queue.takeWhile (canPublishAt heap) ∧
      (_purgeLoop writer heap count numPurged calls trace queue).fq.queue
        = queue.dropWhile (canPublishAt heap) ∧
      (_purgeLoop writer heap count numPurged calls trace queue).fq._ticketCount
        = (fun c => wrap32 (c - 1))^[(queue.takeWhile (canPublishAt heap)).length] count ∧
      (∀ id, (_purgeLoop writer heap count numPurged calls trace queue).fq.heap[id]?
        = (heap[id]?).map fun t =>
            if id ∈ queue.takeWhile (canPublishAt heap) then { t with published := true }
            else t) := by
  induction queue with
  | nil =>
    intro writer heap count numPurged calls trace _ _ _ _
    simp [_purgeLoop]
  | cons head rest ih =>
    intro writer heap count numPurged calls trace hw hvalid hok hnd
    have hlt : head < heap.length := hvalid head (List.mem_cons_self _ _)
    have hget : heap[head]? = some heap[head] := List.getElem?_eq_getElem hlt
    generalize heap[head] = t at hget
    cases hr : t.canPublish with
    | false =>
      have hc : canPublishAt heap head = false := by simp [canPublishAt, hget, hr]
      rw [purgeLoop_cons_wait writer heap count numPurged calls trace head rest t hget hr]
      simp [List.takeWhile_cons, List.dropWhile_cons, hc]
    | true =>
      have hc : canPublishAt heap head = true := by simp [canPublishAt, hget, hr]
      have htw : (head :: rest).takeWhile (canPublishAt heap)
          = head :: rest.takeWhile (canPublishAt heap) := by
        simp [List.takeWhile_cons, hc]
      have hdw : (head :: rest).dropWhile (canPublishAt heap)
          = rest.dropWhile (canPublishAt heap) := by
        simp [List.dropWhile_cons, hc]
      rw [htw] at hok hnd ⊢
      rw [hdw]
      have hpub : t.publishable = true := by
        have := hok head (List.mem_cons_self _ _)
        simpa [publishableAt, hget] using this
      obtain ⟨hres, htk, hwr⟩ := publish_ok_of_publishable t writer hw hpub
      rw [purgeLoop_cons_ok writer heap count numPurged calls trace head rest t hget hr hres]
      rw [htk]
      have hcp := canPublishAt_set_published heap head t hget
      have hnotin : head ∉ rest.takeWhile (canPublishAt heap) := (List.nodup_cons.mp hnd).1
      have hih := ih (t.publish writer).writer (heap.set head { t with published := true })
        (wrap32 (count - 1)) (numPurged + 1) (calls ++ [head])
        (trace ++ [{ heap := heap.set head { t with published := true }, queue := rest,
                     _ticketCount := count },
                   { heap := heap.set head { t with published := true }, queue := rest,
                     _ticketCount := wrap32 (count - 1) }])
        (by intro cs c; rw [hwr]; exact hw cs c)
        (by intro id hid; rw [List.length_set]; exact hvalid id (List.mem_cons_of_mem _ hid))
        (by
          rw [hcp]
          intro id hid
          have hne : head ≠ id := fun heq => hnotin (heq ▸ hid)
          have := hok id (List.mem_cons_of_mem _ hid)
          unfold publishableAt at this ⊢
          rw [List.getElem?_set_ne hne]
          exact this)
        (by rw [hcp]; exact (List.nodup_cons.mp hnd).2)
      rw [hcp] at hih
      obtain ⟨h1, h2, h3, h4, h5⟩ := hih
      refine ⟨?_, ?_, h3, ?_, ?_⟩
      · rw [h1]; simp [Nat.add_assoc, Nat.add_comm 1]
      · rw [h2]; simp
      · rw [h4]; simp [Function.iterate_succ_apply]
      · intro id
        rw [h5 id]
        by_cases hid : head = id
        · subst hid
          rw [List.getElem?_set_self hlt, hget]
          simp [hnotin]
        · rw [List.getElem?_set_ne hid]
          have : (id ∈ head :: rest.takeWhile (canPublishAt heap))
              ↔ id ∈ rest.takeWhile (canPublishAt heap) := by
            simp [List.mem_cons, Ne.symm hid]
          simp only [this]

theorem purgeLoop_nothing_ready (writer : IndexWriter) (heap : List SegmentFlushTicket)
    (count : Int) (queue : List Nat) (hvalid : ∀ id ∈ queue, id < heap.length)
    (hnone : queue.takeWhile (canPublishAt heap) = []) :
    _purgeLoop writer heap count 0 [] [] queue =
      { fq := { heap := heap, queue := queue, _ticketCount := count }, writer := writer,
        result := .ok (0, none), publishCalls := [], trace := [] } := by
  cases queue with
  | nil => rfl
  | cons head rest =>
    have hlt : head < heap.length := hvalid head (List.mem_cons_self _ _)
    have hget : heap[head]? = some heap[head] := List.getElem?_eq_getElem hlt
    generalize heap[head] = t at hget
    cases hr : t.canPublish with
    | false => exact purgeLoop_cons_wait writer heap count 0 [] [] head rest t hget hr
    | true =>
      have hc : canPublishAt heap head = true := by simp [canPublishAt, hget, hr]
      simp [List.takeWhile_cons, hc] at hnone

/-- C2: for every queue whose pointers refer to tickets and every writer whose
publishFlushedSegment returns nil, when the Ready tickets at the front of the queue
are distinct and publishable (so that no publish fails), forcePurge calls publish
on exactly the longest run of Ready tickets at the front of the queue, in queue
order, and removes them: it returns the length of that run with a nil error, the
tickets behind the run stay in their order, the first of them (if any) is not
Ready, the published tickets have `published` set and no other ticket changes, and
the counter is decremented once for each of them. When the queue is empty or its
head is not Ready the run is empty: forcePurge returns 0 and nil and changes
neither the queue nor the writer. -/
theorem forcePurge_publishes_ready (fq : DocumentsWriterFlushQueue) (writer : IndexWriter)
    (hw : ∀ cs c, writer.publishFlushedSegmentErr cs c = none)
    (hvalid : ∀ id ∈ fq.queue, id < fq.heap.length)
    (hok : ∀ id ∈ fq.readyTickets, publishableAt fq.heap id = true)
    (hnd : fq.readyTickets.Nodup) :
    (fq.forcePurge writer).result = .ok (fq.readyTickets.length, none) ∧
    (fq.forcePurge writer).publishCalls = fq.readyTickets ∧
    fq.queue = fq.readyTickets ++ (fq.forcePurge writer).fq.queue ∧
    (∀ id ∈ fq.readyTickets, canPublishAt fq.heap id = true) ∧
    (∀ id ∈ (fq.forcePurge writer).fq.queue.head?, canPublishAt fq.heap id = false) ∧
    (∀ id, (fq.forcePurge writer).fq.heap[id]?
      = (fq.heap[id]?).map fun t =>
          if id ∈ fq.readyTickets then { t with published := true } else t) ∧
    (fq.forcePurge writer).fq._ticketCount
      = (fun c => wrap32 (c - 1))^[fq.readyTickets.length] fq._ticketCount ∧
    (fq.queue = [] ∨ (∃ head rest, fq.queue = head :: rest ∧ canPublishAt fq.heap head = false) →
      fq.readyTickets = []) ∧
    (fq.readyTickets = [] →
      (fq.forcePurge writer).result = .ok (0, none) ∧
      (fq.forcePurge writer).fq = fq ∧ (fq.forcePurge writer).writer = writer) := by
  obtain ⟨h1, h2, h3, h4, h5⟩ :=
    purgeLoop_publishes fq.queue writer fq.heap fq._ticketCount 0 [] [] hw hvalid hok hnd
  unfold DocumentsWriterFlushQueue.forcePurge DocumentsWriterFlushQueue._purge
  unfold DocumentsWriterFlushQueue.readyTickets at *
  refine ⟨?_, ?_, ?_, ?_, ?_, h5, h4, ?_, ?_⟩
  · rw [h1]; simp
  · rw [h2]; simp
  · rw [h3]; exact (List.takeWhile_append_dropWhile _ _).symm
  · intro id hid
    exact List.mem_takeWhile_imp hid
  · intro id hid
    rw [h3] at hid
    cases hq : (List.dropWhile (canPublishAt fq.heap) fq.queue).head? with
    | none => rw [hq] at hid; cases hid
    | some x =>
      rw [hq] at hid
      simp only [Option.mem_def, Option.some.injEq] at hid
      subst hid
      have := List.head?_dropWhile_not (canPublishAt fq.heap) fq.queue
      rw [hq] at this
      simpa using this
  · rintro (hq | ⟨head, rest, hq, hc⟩)
    · rw [hq]; rfl
    · rw [hq]; simp [List.takeWhile_cons, hc]
  · intro hnone
    rw [purgeLoop_nothing_ready writer fq.heap fq._ticketCount fq.queue hvalid hnone]
    exact ⟨rfl, rfl, rfl⟩

/-- C2, witness: T1, T2, T3 are registered in that order. With only T2 and T3
completed, forcePurge returns 0 and changes nothing; once T1 completes, one
forcePurge publishes T1, T2, T3 in that order, returns 3 and leaves the queue
empty: the writer receives the three segments in that order. -/
theorem forcePurge_publishes_ready_witness :
    (sampleQueueT23.queue = [0, 1, 2] ∧
      (sampleQueueT23.forcePurge sampleWriter).result = .ok (0, none) ∧
      (sampleQueueT23.forcePurge sampleWriter).fq = sampleQueueT23) ∧
    ((sampleQueueT123.forcePurge sampleWriter).result = .ok (3, none) ∧
      (sampleQueueT123.forcePurge sampleWriter).publishCalls = [0, 1, 2] ∧
      (sampleQueueT123.forcePurge sampleWriter).fq.queue = []) ∧
    (sampleQueueT123.forcePurge sampleWriter).writer.calls =
      [WriterCall.publishFlushedSegment { name := "_c" } none (some sampleDeletes),
        WriterCall.publishFlushedSegment { name := "_a" } (some { gen := 7 })
          (some sampleNoDeletes),
        WriterCall.publishFlushedSegment { name := "_b" } none (some sampleDeletes)] := by
  have ha := forcePurge_publishes_ready sampleQueueT23 sampleWriter (fun _ _ => rfl)
    (by decide) (by decide) (by decide)
  have hb := forcePurge_publishes_ready sampleQueueT123 sampleWriter (fun _ _ => rfl)
    (by decide) (by decide) (by decide)
  have hq := hb.2.2.1
  have hr : sampleQueueT123.readyTickets = [0, 1, 2] := by decide
  have hq0 : sampleQueueT123.queue = [0, 1, 2] := by decide
  rw [hr, hq0] at hq
  refine ⟨⟨by decide, (ha.2.2.2.2.2.2.2.2 (by decide)).1, (ha.2.2.2.2.2.2.2.2 (by decide)).2.1⟩,
    ⟨hb.1.trans (by decide), hb.2.1.trans (by decide), by simpa using hq⟩, by decide⟩

/-! ### The queue and the publish calls along a run -/

theorem purgeLoop_calls_queue (queue : List Nat) :
    ∀ (writer : IndexWriter) (heap : List SegmentFlushTicket) (count : Int) (numPurged : Nat)
      (calls : List Nat) (trace : List DocumentsWriterFlushQueue),
      (_purgeLoop writer heap count numPurged calls trace queue).publishCalls
          ++ (_purgeLoop writer heap count numPurged calls trace queue).fq.queue
        = calls ++ queue ∧
      (_purgeLoop writer heap count numPurged calls trace queue).fq.heap.length
        = heap.length := by
  induction queue with
  | nil =>
    intro writer heap count numPurged calls trace
    simp [_purgeLoop]
  | cons head rest ih =>
    intro writer heap count numPurged calls trace
    cases hget : heap[head]? with
    | none =>
      rw [purgeLoop_cons_nil writer heap count numPurged calls trace head rest hget]
      exact ⟨rfl, rfl⟩
    | some t =>
      cases hr : t.canPublish with
      | false =>
        rw [purgeLoop_cons_wait writer heap count numPurged calls trace head rest t hget hr]
        exact ⟨rfl, rfl⟩
      | true =>
        cases hp : (t.publish writer).result with
        | panic m =>
          rw [purgeLoop_cons_panic writer heap count numPurged calls trace head rest t m
            hget hr hp]
          simp
        | ok err =>
          cases err with
          | some e =>
            rw [purgeLoop_cons_err writer heap count numPurged calls trace head rest t e
              hget hr hp]
            simp
          | none =>
            rw [purgeLoop_cons_ok writer heap count numPurged calls trace head rest t
              hget hr hp]
            obtain ⟨h1, h2⟩ := ih (t.publish writer).writer
              (heap.set head (t.publish writer).ticket) (wrap32 (count - 1)) (numPurged + 1)
              (calls ++ [head])
              (trace ++ [{ heap := heap.set head (t.publish writer).ticket, queue := rest,
                           _ticketCount := count },
                         { heap := heap.set head (t.publish writer).ticket, queue := rest,
                           _ticketCount := wrap32 (count - 1) }])
            rw [h1, h2]
            simp

theorem updateTicket_queue (fq : DocumentsWriterFlushQueue) (ticket : Nat)
    (f : SegmentFlushTicket → Result SegmentFlushTicket) :
    (fq.updateTicket ticket f).fq.queue = fq.queue ∧
    (fq.updateTicket ticket f).fq._ticketCount = fq._ticketCount ∧
    (fq.updateTicket ticket f).fq.heap.length = fq.heap.length ∧
    (fq.updateTicket ticket f).trace = [] := by
  unfold DocumentsWriterFlushQueue.updateTicket
  split
  · exact ⟨rfl, rfl, rfl, rfl⟩
  · split
    · simp
    · exact ⟨rfl, rfl, rfl, rfl⟩

theorem step_consistent (s : System) (op : QueueOp) (h : s.Consistent) :
    (s.step op).Consistent := by
  obtain ⟨h1, h2⟩ := h
  cases op with
  | addFlushTicket prepareFlush =>
    unfold System.Consistent System.step
    simp only [DocumentsWriterFlushQueue.addFlushTicket, DocumentsWriterFlushQueue.incTickets]
    cases assert (decide (wrap32 (s.fq._ticketCount + 1) > 0)) with
    | panic m => exact ⟨h1, h2⟩
    | ok u =>
      cases prepareFlush.bind newSegmentFlushTicket with
      | ok ticket =>
        simp only [List.length_append, List.length_singleton]
        rw [List.range_succ, ← h2, ← h1]
        simp
      | panic m =>
        simp only [DocumentsWriterFlushQueue.decTickets]
        cases assert (decide (wrap32 (wrap32 (s.fq._ticketCount + 1) - 1) ≥ 0)) with
        | ok u2 => exact ⟨h1, h2⟩
        | panic m2 => exact ⟨h1, h2⟩
  | addSegment ticket segment =>
    obtain ⟨hq, _, hl, _⟩ := updateTicket_queue s.fq ticket fun t => t.setSegment segment
    unfold System.Consistent System.step
    simp only [DocumentsWriterFlushQueue.addSegment]
    rw [hq, hl]
    exact ⟨h1, h2⟩
  | markTicketFailed ticket =>
    obtain ⟨hq, _, hl, _⟩ := updateTicket_queue s.fq ticket fun t => t.fail
    unfold System.Consistent System.step
    simp only [DocumentsWriterFlushQueue.markTicketFailed]
    rw [hq, hl]
    exact ⟨h1, h2⟩
  | forcePurge =>
    obtain ⟨hq, hl⟩ := purgeLoop_calls_queue s.fq.queue s.writer s.fq.heap s.fq._ticketCount
      0 [] []
    unfold System.Consistent System.step
    simp only [DocumentsWriterFlushQueue.forcePurge, DocumentsWriterFlushQueue._purge]
    rw [hl, List.append_assoc, hq]
    exact ⟨h1, h2⟩

theorem run_consistent (ops : List QueueOp) :
    ∀ s : System, s.Consistent → (s.run ops).Consistent := by
  induction ops with
  | nil => intro s h; exact h
  | cons op ops ih =>
    intro s h
    exact ih (s.step op) (step_consistent s op h)

/-- C1: from an empty queue, after every sequence of the atomic steps addFlushTicket,
addSegment, markTicketFailed and forcePurge, whatever the producers and the writer
answer (in particular when no publish fails), the sequence of tickets on which
publish has been called, followed by the tickets still in the queue, is the
sequence of tickets in the order addFlushTicket created them; so the publish calls
are an initial part of the created tickets, and a ticket on which publish has been
called has no ticket created before it on which publish has not been called. -/
theorem publish_order_is_registration_order (writer : IndexWriter) (ops : List QueueOp) :
    ((System.init writer).run ops).publishCalls ++ ((System.init writer).run ops).fq.queue
      = ((System.init writer).run ops).created ∧
    ((System.init writer).run ops).publishCalls <+: ((System.init writer).run ops).created ∧
    ((System.init writer).run ops).created.Nodup ∧
    (∀ (i j : Nat) (hij : i < j) (hj : j < ((System.init writer).run ops).created.length),
      ((System.init writer).run ops).created[j] ∈ ((System.init writer).run ops).publishCalls →
      ((System.init writer).run ops).created[i] ∈ ((System.init writer).run ops).publishCalls) := by
  have hinit : (System.init writer).Consistent := ⟨rfl, rfl⟩
  obtain ⟨h1, h2⟩ := run_consistent ops (System.init writer) hinit
  generalize (System.init writer).run ops = s at h1 h2 ⊢
  refine ⟨h1, ⟨s.fq.queue, h1⟩, ?_, ?_⟩
  · rw [h2]; exact List.nodup_range _
  · intro i j hij hj hmem
    have hk : s.publishCalls = List.range s.publishCalls.length := by
      have h3 : s.publishCalls = (s.created).take s.publishCalls.length := by
        rw [← h1, List.take_left]
      rw [h2, List.take_range] at h3
      have hle : s.publishCalls.length ≤ s.fq.heap.length := by
        have := congrArg List.length h1
        rw [h2] at this
        simp at this
        omega
      rw [Nat.min_eq_left hle] at h3
      exact h3
    have hj2 : j < s.fq.heap.length := by
      rw [h2] at hj; simpa using hj
    have hcj : s.created[j] = j := by
      simp [h2]
    have hci : s.created[i] = i := by
      simp [h2]
    rw [hcj] at hmem
    rw [hci]
    rw [hk] at hmem ⊢
    rw [List.mem_range] at hmem ⊢
    omega

/-! ### The ticket counter along a run -/

theorem wrap32_of_range (x : Int) (h1 : -2147483648 ≤ x) (h2 : x ≤ 2147483647) :
    wrap32 x = x := by
  unfold wrap32
  omega

theorem purgeLoop_counter (queue : List Nat) :
    ∀ (writer : IndexWriter) (heap : List SegmentFlushTicket) (count : Int) (numPurged : Nat)
      (calls : List Nat) (trace : List DocumentsWriterFlushQueue),
      count = (queue.length : Int) → queue.length ≤ 2147483647 →
      (∀ mid ∈ trace, mid.CounterCovers) →
      (_purgeLoop writer heap count numPurged calls trace queue).fq._ticketCount
        = ((_purgeLoop writer heap count numPurged calls trace queue).fq.queue.length : Int) ∧
      (_purgeLoop writer heap count numPurged calls trace queue).fq.queue.length
        ≤ queue.length ∧
      (∀ mid ∈ (_purgeLoop writer heap count numPurged calls trace queue).trace,
        mid.CounterCovers) := by
  induction queue with
  | nil =>
    intro writer heap count numPurged calls trace hc _ htr
    simp only [_purgeLoop]
    exact ⟨hc, Nat.le_refl _, htr⟩
  | cons head rest ih =>
    intro writer heap count numPurged calls trace hc hlen htr
    simp only [List.length_cons] at hc hlen
    have hdec : wrap32 (count - 1) = (rest.length : Int) := by
      rw [hc]
      have : ((rest.length + 1 : Nat) : Int) - 1 = (rest.length : Int) := by
        push_cast; ring
      rw [this]
      exact wrap32_of_range _ (by omega) (by omega)
    have htr2 : ∀ (h1 : List SegmentFlushTicket),
        ∀ mid ∈ trace ++ [({ heap := h1, queue := rest, _ticketCount := count } :
            DocumentsWriterFlushQueue),
          { heap := h1, queue := rest, _ticketCount := wrap32 (count - 1) }],
          mid.CounterCovers := by
      intro h1 mid hmid
      simp only [List.mem_append, List.mem_cons, List.mem_singleton, List.not_mem_nil,
        or_false] at hmid
      rcases hmid with hmid | hmid | hmid
      · exact htr mid hmid
      · subst hmid
        unfold DocumentsWriterFlushQueue.CounterCovers
        simp only
        rw [hc]
        push_cast
        omega
      · subst hmid
        unfold DocumentsWriterFlushQueue.CounterCovers
        simp only
        rw [hdec]
        omega
    cases hget : heap[head]? with
    | none =>
      rw [purgeLoop_cons_nil writer heap count numPurged calls trace head rest hget]
      exact ⟨by simpa using hc, Nat.le_refl _, htr⟩
    | some t =>
      cases hr : t.canPublish with
      | false =>
        rw [purgeLoop_cons_wait writer heap count numPurged calls trace head rest t hget hr]
        exact ⟨by simpa using hc, Nat.le_refl _, htr⟩
      | true =>
        cases hp : (t.publish writer).result with
        | panic m =>
          rw [purgeLoop_cons_panic writer heap count numPurged calls trace head rest t m
            hget hr hp]
          exact ⟨hdec, by simp, htr2 _⟩
        | ok err =>
          cases err with
          | some e =>
            rw [purgeLoop_cons_err writer heap count numPurged calls trace head rest t e
              hget hr hp]
            exact ⟨hdec, by simp, htr2 _⟩
          | none =>
            rw [purgeLoop_cons_ok writer heap count numPurged calls trace head rest t
              hget hr hp]
            obtain ⟨h1, h2, h3⟩ := ih (t.publish writer).writer
              (heap.set head (t.publish writer).ticket) (wrap32 (count - 1)) (numPurged + 1)
              (calls ++ [head])
              (trace ++ [{ heap := heap.set head (t.publish writer).ticket, queue := rest,
                           _ticketCount := count },
                         { heap := heap.set head (t.publish writer).ticket, queue := rest,
                           _ticketCount := wrap32 (count - 1) }])
              hdec (by omega) (htr2 _)
            exact ⟨h1, by simp only [List.length_cons]; omega, h3⟩

theorem step_counter (s : System) (op : QueueOp) (n : Nat)
    (hc : s.fq._ticketCount = (s.fq.queue.length : Int)) (hn : s.fq.queue.length ≤ n)
    (hbound : n < 2147483647) :
    (s.step op).fq._ticketCount = ((s.step op).fq.queue.length : Int) ∧
    (s.step op).fq.queue.length ≤ n + 1 ∧
    (∀ mid ∈ s.stepTrace op, mid.CounterCovers) := by
  cases op with
  | addFlushTicket prepareFlush =>
    have h1 : wrap32 (s.fq._ticketCount + 1) = s.fq._ticketCount + 1 :=
      wrap32_of_range _ (by omega) (by omega)
    have h2 : wrap32 (s.fq._ticketCount + 1 - 1) = s.fq._ticketCount := by
      have : s.fq._ticketCount + 1 - 1 = s.fq._ticketCount := by ring
      rw [this]
      exact wrap32_of_range _ (by omega) (by omega)
    have hpos : decide (s.fq._ticketCount + 1 > 0) = true := by
      simp only [decide_eq_true_eq]; omega
    have hnn : decide (s.fq._ticketCount ≥ 0) = true := by
      simp only [decide_eq_true_eq]; omega
    unfold System.step System.stepTrace
    simp only [DocumentsWriterFlushQueue.addFlushTicket, DocumentsWriterFlushQueue.incTickets,
      DocumentsWriterFlushQueue.decTickets, h1, h2, hpos, hnn, assert, if_true]
    cases prepareFlush.bind newSegmentFlushTicket with
    | ok ticket =>
      simp only [List.length_append, List.length_singleton, List.mem_cons, List.mem_singleton,
        List.not_mem_nil, or_false]
      refine ⟨by push_cast; omega, by omega, ?_⟩
      rintro mid (hmid | hmid) <;> subst hmid <;>
        unfold DocumentsWriterFlushQueue.CounterCovers <;>
        simp only [List.length_append, List.length_singleton] <;>
        (try push_cast) <;> omega
    | panic m =>
      simp only [List.mem_cons, List.mem_singleton, List.not_mem_nil, or_false]
      refine ⟨hc, by omega, ?_⟩
      rintro mid (hmid | hmid) <;> subst hmid <;>
        unfold DocumentsWriterFlushQueue.CounterCovers <;>
        simp only <;> omega
  | addSegment ticket segment =>
    obtain ⟨hq, hcnt, _, htr⟩ := updateTicket_queue s.fq ticket fun t => t.setSegment segment
    unfold System.step System.stepTrace
    simp only [DocumentsWriterFlushQueue.addSegment]
    rw [hq, hcnt, htr]
    exact ⟨hc, by omega, by simp⟩
  | markTicketFailed ticket =>
    obtain ⟨hq, hcnt, _, htr⟩ := updateTicket_queue s.fq ticket fun t => t.fail
    unfold System.step System.stepTrace
    simp only [DocumentsWriterFlushQueue.markTicketFailed]
    rw [hq, hcnt, htr]
    exact ⟨hc, by omega, by simp⟩
  | forcePurge =>
    obtain ⟨h1, h2, h3⟩ := purgeLoop_counter s.fq.queue s.writer s.fq.heap s.fq._ticketCount
      0 [] [] hc (by omega) (by simp)
    unfold System.step System.stepTrace
    simp only [DocumentsWriterFlushQueue.forcePurge, DocumentsWriterFlushQueue._purge]
    exact ⟨h1, by omega, h3⟩

theorem run_counter (ops : List QueueOp) :
    ∀ (s : System) (n : Nat), s.fq._ticketCount = (s.fq.queue.length : Int) →
      s.fq.queue.length ≤ n → n + ops.length ≤ 2147483647 →
      (s.run ops).fq._ticketCount = ((s.run ops).fq.queue.length : Int) ∧
      (s.run ops).fq.queue.length ≤ n + ops.length := by
  induction ops with
  | nil => intro s n hc hn _; exact ⟨hc, hn⟩
  | cons op ops ih =>
    intro s n hc hn hb
    simp only [List.length_cons] at hb
    obtain ⟨h1, h2, _⟩ := step_counter s op n hc hn (by omega)
    have := ih (s.step op) (n + 1) h1 h2 (by omega)
    simp only [List.length_cons]
    have e : n + (ops.length + 1) = n + 1 + ops.length := by omega
    rw [e]
    exact this

theorem run_append (s : System) (ops1 ops2 : List QueueOp) :
    s.run (ops1 ++ ops2) = (s.run ops1).run ops2 := by
  unfold System.run
  exact List.foldl_append _ _ _ _

theorem run_registers (writer : IndexWriter) (n : Nat) (hn : n ≤ 2147483647) :
    ((System.init writer).run (List.replicate n sampleRegister)).fq._ticketCount = (n : Int) ∧
    ((System.init writer).run (List.replicate n sampleRegister)).fq.queue.length = n := by
  induction n with
  | zero => exact ⟨rfl, rfl⟩
  | succ k ih =>
    obtain ⟨h1, h2⟩ := ih (by omega)
    rw [List.replicate_succ', run_append]
    generalize (System.init writer).run (List.replicate k sampleRegister) = s at h1 h2
    have hw : wrap32 (s.fq._ticketCount + 1) = s.fq._ticketCount + 1 :=
      wrap32_of_range _ (by omega) (by omega)
    have hpos : decide (s.fq._ticketCount + 1 > 0) = true := by
      simp only [decide_eq_true_eq]; omega
    simp only [System.run, List.foldl, System.step, sampleRegister,
      DocumentsWriterFlushQueue.addFlushTicket, DocumentsWriterFlushQueue.incTickets, hw, hpos,
      assert, if_true, Result.bind, newSegmentFlushTicket, newFlushTicket, Option.isSome,
      List.length_append, List.length_singleton]
    exact ⟨by rw [h1]; push_cast; ring, by rw [h2]⟩

theorem register_at_max (s : System) (h : s.fq._ticketCount = 2147483647) :
    (s.run [sampleRegister]).fq._ticketCount = -2147483648 ∧
    (s.run [sampleRegister]).fq.queue = s.fq.queue ∧
    s.stepTrace sampleRegister = [(s.run [sampleRegister]).fq] := by
  have hw : wrap32 (s.fq._ticketCount + 1) = -2147483648 := by
    rw [h]; decide
  have hneg : decide ((-2147483648 : Int) > 0) = false := by decide
  simp only [System.run, List.foldl, System.step, System.stepTrace, sampleRegister,
    DocumentsWriterFlushQueue.addFlushTicket, DocumentsWriterFlushQueue.incTickets, hw, hneg,
    assert]
  exact ⟨rfl, rfl, rfl⟩

theorem addFlushTicket_at_max (fq : DocumentsWriterFlushQueue)
    (prepareFlush : Result (Option FrozenBufferedDeletes))
    (h : fq._ticketCount = 2147483647) :
    (fq.addFlushTicket prepareFlush).result = .panic "assert fail" ∧
    (fq.addFlushTicket prepareFlush).fq = { fq with _ticketCount := -2147483648 } := by
  have hw : wrap32 (fq._ticketCount + 1) = -2147483648 := by
    rw [h]; decide
  have hneg : decide ((-2147483648 : Int) > 0) = false := by decide
  simp only [DocumentsWriterFlushQueue.addFlushTicket, DocumentsWriterFlushQueue.incTickets, hw,
    hneg, assert]
  exact ⟨rfl, rfl⟩

theorem run_counter_tight (writer : IndexWriter) (ops : List QueueOp) :
    (∀ k, k ≤ ops.length →
      ((System.init writer).run (ops.take k)).fq.queue.length < 2147483647) →
    ((System.init writer).run ops).fq._ticketCount
      = (((System.init writer).run ops).fq.queue.length : Int) := by
  induction ops using List.reverseRecOn with
  | nil => intro _; rfl
  | append_singleton init last ih =>
    intro h
    have hinit : ∀ k, k ≤ init.length →
        ((System.init writer).run (init.take k)).fq.queue.length < 2147483647 := by
      intro k hk
      have := h k (by simp only [List.length_append, List.length_singleton]; omega)
      rw [List.take_append_of_le_length hk] at this
      exact this
    have hc := ih hinit
    have hb := h init.length (by simp)
    rw [List.take_left'] at hb
    rw [run_append]
    exact (step_counter _ last _ hc (Nat.le_refl _) hb).1
    rfl

set_option maxRecDepth 8000 in
/-- C6 (code): from the new queue, 2^31 - 1 tickets are registered and none is purged,
so that the int32 counter holds its largest value; then one more ticket is
registered. The increment of that call wraps the counter to -2^31 and the
assertion of incTickets panics before the deferred decrement is set up: the call
leaves a negative counter, below the 2^31 - 1 tickets in the queue, and hasTickets
then panics on its own assertion. -/
theorem counter_overflow_breaks_invariant :
    (((System.init sampleWriter).run (List.replicate 2147483647 sampleRegister)).fq._ticketCount
      = 2147483647) ∧
    ((((System.init sampleWriter).run (List.replicate 2147483647 sampleRegister)).fq.addFlushTicket
        (.ok (some sampleDeletes))).result = .panic "assert fail") ∧
    (((System.init sampleWriter).run
        (List.replicate 2147483647 sampleRegister ++ [sampleRegister])).fq._ticketCount
      = -2147483648) ∧
    (((System.init sampleWriter).run
        (List.replicate 2147483647 sampleRegister ++ [sampleRegister])).fq.queue.length
      = 2147483647) ∧
    (((System.init sampleWriter).run
        (List.replicate 2147483647 sampleRegister ++ [sampleRegister])).fq.hasTickets
      = .panic "ticketCount should be >= 0 but was: %!(EXTRA int32=-2147483648)") ∧
    ¬ (((System.init sampleWriter).run
        (List.replicate 2147483647 sampleRegister ++ [sampleRegister])).fq.CounterCovers) := by
  obtain ⟨h1, h2⟩ := run_registers sampleWriter 2147483647 (Nat.le_refl _)
  rw [run_append]
  generalize (System.init sampleWriter).run (List.replicate 2147483647 sampleRegister) = s
    at h1 h2
  have h1z : s.fq._ticketCount = 2147483647 := by
    rw [h1]; rfl
  obtain ⟨h3, h4, _⟩ := register_at_max s h1z
  refine ⟨h1z, (addFlushTicket_at_max s.fq _ h1z).1, h3, by rw [h4]; exact h2, ?_, ?_⟩
  · unfold DocumentsWriterFlushQueue.hasTickets
    rw [h3]
    rfl
  · unfold DocumentsWriterFlushQueue.CounterCovers
    rw [h3]
    intro hcon
    exact absurd hcon.1 (by decide)

/-- Below the overflow: in every state reached from newDocumentsWriterFlushQueue by
calls of addFlushTicket, addSegment, markTicketFailed and forcePurge, as long as
the queue has held fewer than 2^31 - 1 tickets after every call so far, the ticket
counter is non-negative and equals the number of tickets in the queue; in every
state the queue passes through inside a next call the counter is non-negative and
at least the number of tickets in the queue; and hasTickets returns, and returns
false only when the queue holds no ticket. -/
theorem counter_tracks_queue (writer : IndexWriter) (ops : List QueueOp) (op : QueueOp)
    (h : ∀ k, k ≤ ops.length →
      ((System.init writer).run (ops.take k)).fq.queue.length < 2147483647) :
    0 ≤ ((System.init writer).run ops).fq._ticketCount ∧
    ((System.init writer).run ops).fq._ticketCount
      = (((System.init writer).run ops).fq.queue.length : Int) ∧
    (∀ mid ∈ ((System.init writer).run ops).stepTrace op, mid.CounterCovers) ∧
    (∃ b, ((System.init writer).run ops).fq.hasTickets = .ok b) ∧
    (((System.init writer).run ops).fq.hasTickets = .ok false →
      ((System.init writer).run ops).fq.queue = []) := by
  have h1 := run_counter_tight writer ops h
  have hb := h ops.length (Nat.le_refl _)
  rw [List.take_length] at hb
  generalize (System.init writer).run ops = s at h1 hb ⊢
  obtain ⟨_, _, h3⟩ := step_counter s op s.fq.queue.length h1 (Nat.le_refl _) hb
  have h0 : 0 ≤ s.fq._ticketCount := by rw [h1]; exact Int.natCast_nonneg _
  have hd : decide (s.fq._ticketCount ≥ 0) = true := by
    simp only [decide_eq_true_eq]; exact h0
  refine ⟨h0, h1, h3, ?_, ?_⟩
  · exact ⟨decide (s.fq._ticketCount ≠ 0), by
      simp [DocumentsWriterFlushQueue.hasTickets, assertn, hd, Result.bind]⟩
  · intro hf
    simp only [DocumentsWriterFlushQueue.hasTickets, assertn, hd, Result.bind, if_true,
      Result.ok.injEq, decide_eq_false_iff_not, ne_eq, not_not] at hf
    rw [hf] at h1
    have : s.fq.queue.length = 0 := by omega
    exact List.length_eq_zero.mp this

/-- Three tickets are registered, the first is marked failed and the queue is purged;
two tickets remain and the counter is 2. -/
theorem counter_tracks_queue_witness :
    ((System.init sampleWriter).run
      [sampleRegister, sampleRegister, sampleRegister, .markTicketFailed 0,
        .forcePurge]).fq.queue = [1, 2] ∧
    ((System.init sampleWriter).run
      [sampleRegister, sampleRegister, sampleRegister, .markTicketFailed 0,
        .forcePurge]).fq._ticketCount
      = (([1, 2] : List Nat).length : Int) :=
  have hq : ((System.init sampleWriter).run
      [sampleRegister, sampleRegister, sampleRegister, .markTicketFailed 0,
        .forcePurge]).fq.queue = [1, 2] := by decide
  ⟨hq, hq ▸ (counter_tracks_queue sampleWriter
    [sampleRegister, sampleRegister, sampleRegister, .markTicketFailed 0, .forcePurge]
    .forcePurge (by decide)).2.1⟩

/-! ### The vInt tail decoder -/

theorem take_set_succ {α : Type} (l : List α) (i : Nat) (x : α) (h : i < l.length) :
    (l.set i x).take (i + 1) = l.take i ++ [x] := by
  induction l generalizing i with
  | nil => simp at h
  | cons a as ih =>
    cases i with
    | zero => simp
    | succ j =>
      simp only [List.length_cons, Nat.add_lt_add_iff_right] at h
      simp [ih j h]

theorem drop_set_gt {α : Type} (l : List α) (i j : Nat) (x : α) (h : i < j) :
    (l.set i x).drop j = l.drop j := by
  induction l generalizing i j with
  | nil => simp
  | cons a as ih =>
    cases j with
    | zero => omega
    | succ k =>
      cases i with
      | zero => simp
      | succ i1 => simp [ih i1 k (by omega)]

theorem shiftRightUnsigned1_nonneg (code : Int) (h0 : 0 ≤ code) (h1 : code ≤ 2147483647) :
    shiftRightUnsigned1 code = code / 2 := by
  unfold shiftRightUnsigned1 wrap64
  omega

theorem readVIntBlockFreq_decodes (k : Nat) :
    ∀ (i : Nat) (docIn : IndexInput) (docBuffer freqBuffer : List Int) (values : List Int)
      (entries : List (Int × Int)) (rest : List (Int × Option String)),
      i + k ≤ docBuffer.length → i + k ≤ freqBuffer.length →
      docIn.reads = values.map (fun v => (v, none)) ++ rest →
      (∀ v ∈ values, 0 ≤ v ∧ v ≤ 2147483647) →
      decodeTail k values = some (entries, []) →
      readVIntBlockFreq k i docIn docBuffer freqBuffer =
        { docIn := { reads := rest },
          docBuffer := docBuffer.take i ++ entries.map Prod.fst ++ docBuffer.drop (i + k),
          freqBuffer := freqBuffer.take i ++ entries.map Prod.snd ++ freqBuffer.drop (i + k),
          result := .ok none } := by
  induction k with
  | zero =>
    intro i docIn docBuffer freqBuffer values entries rest _ _ hreads _ hdec
    simp only [decodeTail, Option.some.injEq, Prod.mk.injEq] at hdec
    obtain ⟨he, hv⟩ := hdec
    subst he hv
    simp only [List.map_nil, List.nil_append] at hreads
    cases docIn
    simp only at hreads
    subst hreads
    simp [readVIntBlockFreq]
  | succ k ih =>
    intro i docIn docBuffer freqBuffer values entries rest hd hf hreads hnn hdec
    cases values with
    | nil => simp [decodeTail] at hdec
    | cons code values1 =>
      obtain ⟨hc0, hc1⟩ := hnn code (List.mem_cons_self _ _)
      have hnn1 : ∀ v ∈ values1, 0 ≤ v ∧ v ≤ 2147483647 :=
        fun v hv => hnn v (List.mem_cons_of_mem _ hv)
      have hid : i < docBuffer.length := by omega
      have hif : i < freqBuffer.length := by omega
      have hread : docIn.ReadVInt =
          { n := code, err := none,
            docIn := { reads := values1.map (fun v => (v, none)) ++ rest } } := by
        simp [IndexInput.ReadVInt, hreads]
      have hshift := shiftRightUnsigned1_nonneg code hc0 hc1
      by_cases hodd : code % 2 = 1
      · have hne : code % 2 ≠ 0 := by omega
        simp only [decodeTail, hodd, if_true, Option.map_eq_some', Prod.mk.injEq] at hdec
        obtain ⟨⟨entries1, left⟩, hdec1, he, hl⟩ := hdec
        simp only at he hl
        subst he hl
        have hrec := ih (i + 1) { reads := values1.map (fun v => (v, none)) ++ rest }
          (docBuffer.set i (code / 2)) (freqBuffer.set i 1) values1 entries1 rest
          (by rw [List.length_set]; omega) (by rw [List.length_set]; omega) rfl hnn1 hdec1
        rw [readVIntBlockFreq]
        simp only [hread, hshift, setIndex, hid, hif, if_true, hne, ne_eq, not_false_eq_true]
        rw [hrec, take_set_succ _ _ _ hid, take_set_succ _ _ _ hif,
          drop_set_gt _ _ _ _ (by omega), drop_set_gt _ _ _ _ (by omega)]
        have e : i + 1 + k = i + (k + 1) := by omega
        simp [e]
      · have heven : code % 2 = 0 := by omega
        cases values1 with
        | nil => simp [decodeTail, hodd] at hdec
        | cons freq values2 =>
          simp only [decodeTail, hodd, if_false, Option.map_eq_some', Prod.mk.injEq] at hdec
          obtain ⟨⟨entries1, left⟩, hdec1, he, hl⟩ := hdec
          simp only at he hl
          subst he hl
          have hnn2 : ∀ v ∈ values2, 0 ≤ v ∧ v ≤ 2147483647 :=
            fun v hv => hnn1 v (List.mem_cons_of_mem _ hv)
          have hread2 : IndexInput.ReadVInt
              { reads := (freq :: values2).map (fun v => (v, none)) ++ rest } =
              { n := freq, err := none,
                docIn := { reads := values2.map (fun v => (v, none)) ++ rest } } := by
            simp [IndexInput.ReadVInt]
          have hrec := ih (i + 1) { reads := values2.map (fun v => (v, none)) ++ rest }
            (docBuffer.set i (code / 2)) (freqBuffer.set i freq) values2 entries1 rest
            (by rw [List.length_set]; omega) (by rw [List.length_set]; omega) rfl hnn2 hdec1
          rw [readVIntBlockFreq]
          simp only [hread, hshift, setIndex, hid, hif, if_true, heven, ne_eq,
            not_true_eq_false, if_false, hread2]
          rw [hrec, take_set_succ _ _ _ hid, take_set_succ _ _ _ hif,
            drop_set_gt _ _ _ _ (by omega), drop_set_gt _ _ _ _ (by omega)]
          have e : i + 1 + k = i + (k + 1) := by omega
          simp [e]

theorem decodeTail_length (k : Nat) :
    ∀ (values : List Int) (entries : List (Int × Int)) (left : List Int),
      decodeTail k values = some (entries, left) → entries.length = k := by
  induction k with
  | zero =>
    intro values entries left h
    simp only [decodeTail, Option.some.injEq, Prod.mk.injEq] at h
    rw [← h.1]; rfl
  | succ k ih =>
    intro values entries left h
    cases values with
    | nil => simp [decodeTail] at h
    | cons code values1 =>
      by_cases hodd : code % 2 = 1
      · simp only [decodeTail, hodd, if_true, Option.map_eq_some', Prod.mk.injEq] at h
        obtain ⟨⟨entries1, left1⟩, h1, he, _⟩ := h
        rw [← he]
        simp [ih values1 entries1 left1 h1]
      · cases values1 with
        | nil => simp [decodeTail, hodd] at h
        | cons freq values2 =>
          simp only [decodeTail, hodd, if_false, Option.map_eq_some', Prod.mk.injEq] at h
          obtain ⟨⟨entries1, left1⟩, h1, he, _⟩ := h
          rw [← he]
          simp [ih values2 entries1 left1 h1]

/-- C10: for every num not above the lengths of the two buffers and every stream
whose next reads succeed with non-negative int32 values that make up num tail
entries (one code per entry, followed by one more value exactly when the low bit
of the code is 0), readVIntBlock with indexHasFreq = true returns nil, consumes
exactly those values and, for each i < num, sets docBuffer[i] to the code shifted
right by one and freqBuffer[i] to 1 when the low bit of the code is 1 and to the
value that follows the code otherwise; the entries at index >= num of both buffers
are unchanged. -/
theorem readVIntBlock_decodes (num : Int) (docIn : IndexInput) (docBuffer freqBuffer : List Int)
    (values : List Int) (entries : List (Int × Int)) (rest : List (Int × Option String))
    (hnum : 0 ≤ num)
    (hd : num.toNat ≤ docBuffer.length) (hf : num.toNat ≤ freqBuffer.length)
    (hreads : docIn.reads = values.map (fun v => (v, none)) ++ rest)
    (hnn : ∀ v ∈ values, 0 ≤ v ∧ v ≤ 2147483647)
    (hdec : decodeTail num.toNat values = some (entries, [])) :
    readVIntBlock docIn docBuffer freqBuffer num true =
      { docIn := { reads := rest },
        docBuffer := entries.map Prod.fst ++ docBuffer.drop num.toNat,
        freqBuffer := entries.map Prod.snd ++ freqBuffer.drop num.toNat,
        result := .ok none } ∧
    (entries.length : Int) = num := by
  have h := readVIntBlockFreq_decodes num.toNat 0 docIn docBuffer freqBuffer values entries rest
    (by omega) (by omega) hreads hnn hdec
  have hl := decodeTail_length num.toNat values entries [] hdec
  refine ⟨?_, by rw [hl]; exact Int.toNat_of_nonneg hnum⟩
  unfold readVIntBlock
  simp only [if_true]
  rw [h]
  simp

/-- C10, witness: two entries are read from the stream 7, 4, 3, 10 into buffers of
four entries: the code 7 gives delta 3 with frequency 1, the code 4 gives delta 2
with the frequency 3 that follows it; the value 10 is left in the stream. -/
theorem readVIntBlock_decodes_witness :
    readVIntBlock sampleStream [0, 0, 0, 0] [9, 9, 9, 9] 2 true =
      { docIn := { reads := [(10, none), (0, some "read past EOF")] },
        docBuffer := [3, 2, 0, 0], freqBuffer := [1, 3, 9, 9], result := .ok none } :=
  (readVIntBlock_decodes 2 sampleStream [0, 0, 0, 0] [9, 9, 9, 9] [7, 4, 3]
    [(3, 1), (2, 3)] [(10, none), (0, some "read past EOF")]
    (by decide) (by decide) (by decide) (by decide) (by decide) (by decide)).1

/-! ### The docs enumerator over buffered postings -/

theorem getIndex_of_drop (l : List Int) (k : Nat) (x : Int) (xs : List Int)
    (h : l.drop k = x :: xs) : getIndex l k = .ok x ∧ l.drop (k + 1) = xs := by
  induction l generalizing k with
  | nil => simp at h
  | cons a as ih =>
    cases k with
    | zero =>
      simp only [List.drop_zero, List.cons.injEq] at h
      obtain ⟨h1, h2⟩ := h
      subst h1 h2
      exact ⟨by simp [getIndex], rfl⟩
    | succ j =>
      simp only [List.drop_succ_cons] at h
      obtain ⟨h1, h2⟩ := ih j h
      refine ⟨?_, by simpa using h2⟩
      unfold getIndex at h1 ⊢
      cases hj : as[j]? with
      | none => simp [hj] at h1
      | some v => simpa [hj] using h1

theorem moved_shift (de : blockDocsEnum) (a : Int) (m : Move) :
    blockDocsEnum.moved
      { de with accum := a, docUpto := de.docUpto + 1, docBufferUpto := de.docBufferUpto + 1 } m
      = de.moved m.shift := by
  cases de
  simp [blockDocsEnum.moved, Move.shift, Nat.add_assoc, Nat.add_comm 1]

theorem loaded_tail (de : blockDocsEnum) (delta f : Int) (rest : List (Int × Int)) (a : Int)
    (h : Loaded de ((delta, f) :: rest)) :
    getIndex de.docDeltaBuffer de.docBufferUpto = .ok delta ∧
    getIndex de.freqBuffer de.docBufferUpto = .ok f ∧
    (de.docUpto : Int) ≠ de.docFreq ∧ de.docBufferUpto ≠ LUCENE41_BLOCK_SIZE ∧
    Loaded { de with accum := a, docUpto := de.docUpto + 1,
                     docBufferUpto := de.docBufferUpto + 1 } rest := by
  obtain ⟨⟨td, hd⟩, ⟨tf, hf⟩, hq, hroom, hsmall⟩ := h
  simp only [List.map_cons, List.cons_append] at hd hf
  obtain ⟨hd1, hd2⟩ := getIndex_of_drop _ _ _ _ hd
  obtain ⟨hf1, hf2⟩ := getIndex_of_drop _ _ _ _ hf
  simp only [List.length_cons] at hq hroom
  refine ⟨hd1, hf1, ?_, ?_, ⟨⟨td, hd2⟩, ⟨tf, hf2⟩, ?_, ?_, hsmall⟩⟩
  · rw [hq]; push_cast; omega
  · unfold LUCENE41_BLOCK_SIZE; omega
  · simp only; rw [hq]; push_cast; omega
  · simp only; omega

theorem nextDocLoop_step (de : blockDocsEnum) (fuel : Nat) (delta f : Int)
    (h1 : getIndex de.docDeltaBuffer de.docBufferUpto = .ok delta)
    (h2 : getIndex de.freqBuffer de.docBufferUpto = .ok f)
    (h3 : (de.docUpto : Int) ≠ de.docFreq) (h4 : de.docBufferUpto ≠ LUCENE41_BLOCK_SIZE) :
    de.nextDocLoop (fuel + 1) =
      if isLive de.liveDocs (wrap64 (de.accum + delta)) then
        some { de := de.moved { consumed := 1, accum := wrap64 (de.accum + delta),
                                doc := wrap64 (de.accum + delta), freq := f },
               result := .ok (wrap64 (de.accum + delta), none) }
      else
        blockDocsEnum.nextDocLoop fuel
          { de with accum := wrap64 (de.accum + delta), docUpto := de.docUpto + 1,
                    docBufferUpto := de.docBufferUpto + 1 } := by
  rw [blockDocsEnum.nextDocLoop]
  simp only [h3, h4, if_false, h1, h2]
  split
  · cases de; rfl
  · rfl

theorem nextDocLoop_moves (rem : List (Int × Int)) :
    ∀ (de : blockDocsEnum) (fuel : Nat), Loaded de rem → rem.length < fuel →
      de.nextDocLoop fuel =
        some { de := de.moved (nextMove de.liveDocs de.accum de.freq rem),
               result := .ok ((nextMove de.liveDocs de.accum de.freq rem).doc, none) } := by
  induction rem with
  | nil =>
    intro de fuel h hfuel
    obtain ⟨_, _, hq, _, _⟩ := h
    cases fuel with
    | zero => simp at hfuel
    | succ fu =>
      rw [blockDocsEnum.nextDocLoop]
      have : (de.docUpto : Int) = de.docFreq := by rw [hq]; simp
      simp only [this, if_true, nextMove]
      cases de; rfl
  | cons e rest ih =>
    intro de fuel h hfuel
    obtain ⟨delta, f⟩ := e
    cases fuel with
    | zero => simp at hfuel
    | succ fu =>
      obtain ⟨h1, h2, h3, h4, hl⟩ := loaded_tail de delta f rest (wrap64 (de.accum + delta)) h
      rw [nextDocLoop_step de fu delta f h1 h2 h3 h4]
      simp only [List.length_cons, Nat.add_lt_add_iff_right] at hfuel
      by_cases hlive : isLive de.liveDocs (wrap64 (de.accum + delta)) = true
      · simp [hlive, nextMove]
      · simp only [hlive, if_false, nextMove]
        rw [ih _ fu hl hfuel]
        simp only [moved_shift]
        rfl

theorem nextDoc_moves (de : blockDocsEnum) (rem : List (Int × Int)) (h : Loaded de rem) :
    de.NextDoc =
      some { de := de.moved (nextMove de.liveDocs de.accum de.freq rem),
             result := .ok ((nextMove de.liveDocs de.accum de.freq rem).doc, none) } := by
  unfold blockDocsEnum.NextDoc
  apply nextDocLoop_moves rem de _ h
  unfold blockDocsEnum.fuel
  rw [h.docFreq]
  push_cast
  omega

theorem advanceScan_step (de : blockDocsEnum) (target : Int) (fuel : Nat) (delta : Int)
    (h1 : getIndex de.docDeltaBuffer de.docBufferUpto = .ok delta) :
    blockDocsEnum.advanceScan target (fuel + 1) de =
      if wrap64 (de.accum + delta) ≥ target then
        some ({ de with accum := wrap64 (de.accum + delta), docUpto := de.docUpto + 1 },
          .ok .landed)
      else if ((de.docUpto + 1 : Nat) : Int) = de.docFreq then
        some ({ de with accum := wrap64 (de.accum + delta), docUpto := de.docUpto + 1,
                        docBufferUpto := de.docBufferUpto + 1, doc := NO_MORE_DOCS },
          .ok .exhausted)
      else
        blockDocsEnum.advanceScan target fuel
          { de with accum := wrap64 (de.accum + delta), docUpto := de.docUpto + 1,
                    docBufferUpto := de.docBufferUpto + 1 } := by
  rw [blockDocsEnum.advanceScan]
  simp only [h1]

theorem advanceScan_moves (target : Int) (rest : List (Int × Int)) :
    ∀ (e : Int × Int) (de : blockDocsEnum) (fuel : Nat), Loaded de (e :: rest) →
      rest.length < fuel →
      ∃ scanned, blockDocsEnum.advanceScan target fuel de = some scanned ∧
        blockDocsEnum.advanceFinish scanned =
          some { de := de.moved (advanceMove de.liveDocs target de.accum de.freq (e :: rest)),
                 result :=
                   .ok ((advanceMove de.liveDocs target de.accum de.freq (e :: rest)).doc,
                     none) } := by
  induction rest with
  | nil =>
    intro e de fuel h hfuel
    obtain ⟨delta, f⟩ := e
    cases fuel with
    | zero => simp at hfuel
    | succ fu =>
      obtain ⟨h1, h2, h3, h4, hl⟩ := loaded_tail de delta f [] (wrap64 (de.accum + delta)) h
      rw [advanceScan_step de target fu delta h1]
      by_cases hge : wrap64 (de.accum + delta) ≥ target
      · refine ⟨_, by rw [if_pos hge], ?_⟩
        simp only [blockDocsEnum.advanceFinish, advanceMove, hge, if_true]
        by_cases hlive : isLive de.liveDocs (wrap64 (de.accum + delta)) = true
        · simp only [hlive, if_true, h2]
          cases de; rfl
        · simp only [hlive, if_false]
          rw [nextDoc_moves _ [] hl]
          simp only [moved_shift]
          rfl
      · have hq := h.docFreq
        simp only [List.length_cons, List.length_nil] at hq
        have hend : ((de.docUpto + 1 : Nat) : Int) = de.docFreq := by rw [hq]
        refine ⟨_, by rw [if_neg hge, if_pos hend], ?_⟩
        simp only [blockDocsEnum.advanceFinish, advanceMove, hge, if_false]
        cases de; rfl
  | cons e2 rest2 ih =>
    intro e de fuel h hfuel
    obtain ⟨delta, f⟩ := e
    cases fuel with
    | zero => simp at hfuel
    | succ fu =>
      obtain ⟨h1, h2, h3, h4, hl⟩ :=
        loaded_tail de delta f (e2 :: rest2) (wrap64 (de.accum + delta)) h
      rw [advanceScan_step de target fu delta h1]
      by_cases hge : wrap64 (de.accum + delta) ≥ target
      · refine ⟨_, by rw [if_pos hge], ?_⟩
        simp only [blockDocsEnum.advanceFinish, hge, if_true]
        rw [advanceMove]
        simp only [hge, if_true]
        by_cases hlive : isLive de.liveDocs (wrap64 (de.accum + delta)) = true
        · simp only [hlive, if_true, h2]
          cases de; rfl
        · simp only [hlive, if_false]
          rw [nextDoc_moves _ (e2 :: rest2) hl]
          simp only [moved_shift]
          rfl
      · have hq := h.docFreq
        simp only [List.length_cons] at hq hfuel
        have hend : ¬ ((de.docUpto + 1 : Nat) : Int) = de.docFreq := by
          rw [hq]; push_cast; omega
        rw [if_neg hge, if_neg hend]
        obtain ⟨scanned, hs1, hs2⟩ := ih e2 _ fu hl (by omega)
        refine ⟨scanned, hs1, ?_⟩
        have key : advanceMove de.liveDocs target de.accum de.freq ((delta, f) :: e2 :: rest2)
            = (advanceMove de.liveDocs target (wrap64 (de.accum + delta)) de.freq
                (e2 :: rest2)).shift := by
          rw [advanceMove]
          simp only [hge, if_false]
        rw [hs2, key]
        simp only [moved_shift]
        rfl

theorem advance_moves (de : blockDocsEnum) (rem : List (Int × Int)) (target : Int)
    (h : Loaded de rem) :
    de.Advance target =
      some { de := de.moved (advanceMove de.liveDocs target de.accum de.freq rem),
             result := .ok ((advanceMove de.liveDocs target de.accum de.freq rem).doc, none) } := by
  have hsmall : ¬ (de.docFreq > (LUCENE41_BLOCK_SIZE : Int) ∧ target > de.nextSkipDoc) := by
    intro hcon
    have := h.small
    unfold LUCENE41_BLOCK_SIZE at hcon
    omega
  unfold blockDocsEnum.Advance
  rw [if_neg hsmall]
  cases rem with
  | nil =>
    have hq := h.docFreq
    have : (de.docUpto : Int) = de.docFreq := by rw [hq]; simp
    simp only [this, if_true, advanceMove]
    cases de; rfl
  | cons e rest =>
    obtain ⟨delta, f⟩ := e
    obtain ⟨_, _, h3, h4, _⟩ := loaded_tail de delta f rest 0 h
    obtain ⟨scanned, hs1, hs2⟩ := advanceScan_moves target rest (delta, f) de de.fuel h (by
      unfold blockDocsEnum.fuel
      rw [h.docFreq]
      simp only [List.length_cons]
      push_cast
      omega)
    simp only [h3, h4, if_false, hs1, hs2]

/-! ### The moves of an enumerator -/

theorem move_ok_shift (liveDocs : Option (Int → Bool)) (accum freq delta f : Int)
    (rest : List (Int × Int)) (m : Move)
    (h : m.Ok liveDocs (wrap64 (accum + delta)) freq rest) :
    m.shift.Ok liveDocs accum freq ((delta, f) :: rest) := by
  obtain ⟨h1, h2, h3⟩ := h
  refine ⟨by simp only [Move.shift, List.length_cons]; omega, ?_, ?_⟩
  · simp only [Move.shift, List.drop_succ_cons, docIds]
    exact h2
  · rcases h3 with ⟨hd, hc, hf⟩ | ⟨hpos, hid, hlive, hfr⟩
    · left
      exact ⟨hd, by simp only [Move.shift, List.length_cons]; omega, hf⟩
    · right
      obtain ⟨c, hc⟩ : ∃ c, m.consumed = c + 1 := ⟨m.consumed - 1, by omega⟩
      simp only [hc, Nat.add_sub_cancel] at hid hfr
      refine ⟨by simp [Move.shift], ?_, hlive, ?_⟩
      · simp only [Move.shift, hc, Nat.add_sub_cancel, docIds, List.getElem?_cons_succ]
        exact hid
      · simp only [Move.shift, hc, Nat.add_sub_cancel, List.map_cons, List.getElem?_cons_succ]
        exact hfr

theorem move_ok_first (liveDocs : Option (Int → Bool)) (accum freq delta f : Int)
    (rest : List (Int × Int)) (hlive : isLive liveDocs (wrap64 (accum + delta)) = true) :
    Move.Ok liveDocs accum freq ((delta, f) :: rest)
      { consumed := 1, accum := wrap64 (accum + delta), doc := wrap64 (accum + delta),
        freq := f } := by
  refine ⟨by simp, ?_, Or.inr ⟨by simp, ?_, hlive, ?_⟩⟩
  · simp [docIds]
  · simp [docIds]
  · simp

theorem move_ok_end (liveDocs : Option (Int → Bool)) (accum freq : Int) :
    Move.Ok liveDocs accum freq []
      { consumed := 0, accum := accum, doc := NO_MORE_DOCS, freq := freq } := by
  refine ⟨by simp, by simp [docIds], Or.inl ⟨rfl, rfl, rfl⟩⟩

theorem nextMove_ok (liveDocs : Option (Int → Bool)) (freq : Int) (rem : List (Int × Int)) :
    ∀ accum, (nextMove liveDocs accum freq rem).Ok liveDocs accum freq rem := by
  induction rem with
  | nil => intro accum; exact move_ok_end liveDocs accum freq
  | cons e rest ih =>
    intro accum
    obtain ⟨delta, f⟩ := e
    rw [nextMove]
    split
    · next hlive => exact move_ok_first liveDocs accum freq delta f rest hlive
    · exact move_ok_shift liveDocs accum freq delta f rest _ (ih _)

theorem advanceMove_ok (liveDocs : Option (Int → Bool)) (target freq : Int)
    (rem : List (Int × Int)) :
    ∀ accum, (advanceMove liveDocs target accum freq rem).Ok liveDocs accum freq rem := by
  induction rem with
  | nil => intro accum; exact move_ok_end liveDocs accum freq
  | cons e rest ih =>
    intro accum
    obtain ⟨delta, f⟩ := e
    rw [advanceMove]
    split
    · split
      · next hlive => exact move_ok_first liveDocs accum freq delta f rest hlive
      · exact move_ok_shift liveDocs accum freq delta f rest _ (nextMove_ok liveDocs freq rest _)
    · exact move_ok_shift liveDocs accum freq delta f rest _ (ih _)

theorem callMove_ok (liveDocs : Option (Int → Bool)) (accum freq : Int)
    (rem : List (Int × Int)) (c : EnumCall) :
    (callMove liveDocs accum freq rem c).Ok liveDocs accum freq rem := by
  cases c with
  | NextDoc => exact nextMove_ok liveDocs freq rem accum
  | Advance target => exact advanceMove_ok liveDocs target freq rem accum

theorem loaded_moved (de : blockDocsEnum) (rem : List (Int × Int)) (m : Move)
    (h : Loaded de rem) (hm : m.consumed ≤ rem.length) :
    Loaded (de.moved m) (rem.drop m.consumed) := by
  obtain ⟨⟨td, hd⟩, ⟨tf, hf⟩, hq, hroom, hsmall⟩ := h
  refine ⟨⟨td, ?_⟩, ⟨tf, ?_⟩, ?_, ?_, hsmall⟩
  · simp only [blockDocsEnum.moved]
    rw [← List.drop_drop, hd, List.drop_append_of_le_length (by simpa using hm), List.map_drop]
  · simp only [blockDocsEnum.moved]
    rw [← List.drop_drop, hf, List.drop_append_of_le_length (by simpa using hm), List.map_drop]
  · simp only [blockDocsEnum.moved, List.length_drop]
    rw [hq]
    congr 1
    omega
  · simp only [blockDocsEnum.moved, List.length_drop]
    omega

theorem call_moves (de : blockDocsEnum) (rem : List (Int × Int)) (c : EnumCall)
    (h : Loaded de rem) :
    de.call c =
      some { de := de.moved (callMove de.liveDocs de.accum de.freq rem c),
             result := .ok ((callMove de.liveDocs de.accum de.freq rem c).doc, none) } := by
  cases c with
  | NextDoc => exact nextDoc_moves de rem h
  | Advance target => exact advance_moves de rem target h

theorem calls_moves (cs : List EnumCall) :
    ∀ (de : blockDocsEnum) (rem : List (Int × Int)), Loaded de rem →
      ∃ de1 rem1 pre,
        de.calls cs = some (de1,
          (callMoves de.liveDocs de.accum de.freq rem cs).map Move.record) ∧
        Loaded de1 rem1 ∧ docIds de.accum rem = pre ++ docIds de1.accum rem1 ∧
        de1.liveDocs = de.liveDocs ∧ de1.docIn = de.docIn ∧
        de1.streamCalls = de.streamCalls ∧ de1.docDeltaBuffer = de.docDeltaBuffer ∧
        de1.freqBuffer = de.freqBuffer ∧ de1.docFreq = de.docFreq := by
  induction cs with
  | nil =>
    intro de rem h
    exact ⟨de, rem, [], rfl, h, rfl, rfl, rfl, rfl, rfl, rfl, rfl⟩
  | cons c cs ih =>
    intro de rem h
    have hok := callMove_ok de.liveDocs de.accum de.freq rem c
    have hl := loaded_moved de rem _ h hok.1
    obtain ⟨de1, rem1, pre, h1, h2, h3, h4, h5, h6, h7, h8, h9⟩ := ih _ _ hl
    refine ⟨de1, rem1, (docIds de.accum rem).take
      (callMove de.liveDocs de.accum de.freq rem c).consumed ++ pre, ?_, h2, ?_,
      h4, h5, h6, h7, h8, h9⟩
    · rw [blockDocsEnum.calls, call_moves de rem c h]
      simp only [h1]
      rfl
    · rw [List.append_assoc, ← h3]
      have := hok.2.1
      simp only [blockDocsEnum.moved] at this ⊢
      rw [this, List.take_append_drop]

/-! ### What a refill stores -/

theorem decodeVInts_length (indexHasFreq : Bool) (k : Nat) :
    ∀ (values : List Int) (entries : List (Int × Int)) (left : List Int),
      decodeVInts indexHasFreq k values = some (entries, left) → entries.length = k := by
  induction k with
  | zero =>
    intro values entries left h
    simp only [decodeVInts, Option.some.injEq, Prod.mk.injEq] at h
    rw [← h.1]; rfl
  | succ k ih =>
    intro values entries left h
    cases values with
    | nil => simp [decodeVInts] at h
    | cons code values1 =>
      simp only [decodeVInts] at h
      split at h
      · split at h
        · simp only [Option.map_eq_some', Prod.mk.injEq] at h
          obtain ⟨⟨entries1, left1⟩, h1, he, _⟩ := h
          rw [← he]
          simp [ih values1 entries1 left1 h1]
        · cases values1 with
          | nil => simp at h
          | cons freq values2 =>
            simp only [Option.map_eq_some', Prod.mk.injEq] at h
            obtain ⟨⟨entries1, left1⟩, h1, he, _⟩ := h
            rw [← he]
            simp [ih values2 entries1 left1 h1]
      · simp only [Option.map_eq_some', Prod.mk.injEq] at h
        obtain ⟨⟨entries1, left1⟩, h1, he, _⟩ := h
        rw [← he]
        simp [ih values1 entries1 left1 h1]

theorem readVInt_cons (n : Int) (reads : List (Int × Option String)) :
    IndexInput.ReadVInt { reads := (n, none) :: reads } =
      { n := n, err := none, docIn := { reads := reads } } := rfl

theorem readVIntBlockFreq_stores (k : Nat) :
    ∀ (i : Nat) (docIn : IndexInput) (docBuffer freqBuffer : List Int) (values : List Int)
      (entries : List (Int × Int)) (rest : List (Int × Option String)),
      i + k ≤ docBuffer.length → i + k ≤ freqBuffer.length →
      docIn.reads = values.map (fun v => (v, none)) ++ rest →
      decodeVInts true k values = some (entries, []) →
      readVIntBlockFreq k i docIn docBuffer freqBuffer =
        { docIn := { reads := rest },
          docBuffer := docBuffer.take i ++ entries.map Prod.fst ++ docBuffer.drop (i + k),
          freqBuffer := freqBuffer.take i ++ entries.map Prod.snd ++ freqBuffer.drop (i + k),
          result := .ok none } := by
  induction k with
  | zero =>
    intro i docIn docBuffer freqBuffer values entries rest _ _ hreads hdec
    simp only [decodeVInts, Option.some.injEq, Prod.mk.injEq] at hdec
    obtain ⟨he, hv⟩ := hdec
    subst he hv
    simp only [List.map_nil, List.nil_append] at hreads
    cases docIn
    simp only at hreads
    subst hreads
    simp [readVIntBlockFreq]
  | succ k ih =>
    intro i docIn docBuffer freqBuffer values entries rest hd hf hreads hdec
    cases values with
    | nil => simp [decodeVInts] at hdec
    | cons code values1 =>
      have hid : i < docBuffer.length := by omega
      have hif : i < freqBuffer.length := by omega
      obtain ⟨reads⟩ := docIn
      simp only [List.map_cons, List.cons_append] at hreads
      subst hreads
      have e : i + 1 + k = i + (k + 1) := by omega
      simp only [decodeVInts, if_true] at hdec
      by_cases hodd : code % 2 ≠ 0
      · simp only [hodd, if_true, ne_eq, not_false_eq_true, Option.map_eq_some',
          Prod.mk.injEq] at hdec
        obtain ⟨⟨entries1, left⟩, hdec1, he, hl⟩ := hdec
        simp only at he hl
        subst he hl
        have hrec := ih (i + 1) { reads := values1.map (fun v => (v, none)) ++ rest }
          (docBuffer.set i (shiftRightUnsigned1 code)) (freqBuffer.set i 1) values1 entries1 rest
          (by rw [List.length_set]; omega) (by rw [List.length_set]; omega) rfl hdec1
        rw [readVIntBlockFreq]
        simp only [readVInt_cons, setIndex, hid, hif, if_true, hodd, ne_eq, not_false_eq_true]
        rw [hrec, take_set_succ _ _ _ hid, take_set_succ _ _ _ hif,
          drop_set_gt _ _ _ _ (by omega), drop_set_gt _ _ _ _ (by omega)]
        simp [e]
      · have heven : code % 2 = 0 := by omega
        cases values1 with
        | nil => simp [hodd] at hdec
        | cons freq values2 =>
          simp only [hodd, if_false, Option.map_eq_some', Prod.mk.injEq] at hdec
          obtain ⟨⟨entries1, left⟩, hdec1, he, hl⟩ := hdec
          simp only at he hl
          subst he hl
          have hrec := ih (i + 1) { reads := values2.map (fun v => (v, none)) ++ rest }
            (docBuffer.set i (shiftRightUnsigned1 code)) (freqBuffer.set i freq) values2
            entries1 rest
            (by rw [List.length_set]; omega) (by rw [List.length_set]; omega) rfl hdec1
          rw [readVIntBlockFreq]
          simp only [readVInt_cons, setIndex, hid, hif, if_true, heven, ne_eq,
            not_true_eq_false, if_false, List.map_cons, List.cons_append]
          rw [hrec, take_set_succ _ _ _ hid, take_set_succ _ _ _ hif,
            drop_set_gt _ _ _ _ (by omega), drop_set_gt _ _ _ _ (by omega)]
          simp [e]

theorem readVIntBlockDocs_stores (k : Nat) :
    ∀ (i : Nat) (docIn : IndexInput) (docBuffer freqBuffer : List Int) (values : List Int)
      (entries : List (Int × Int)) (rest : List (Int × Option String)),
      i + k ≤ docBuffer.length →
      docIn.reads = values.map (fun v => (v, none)) ++ rest →
      decodeVInts false k values = some (entries, []) →
      readVIntBlockDocs k i docIn docBuffer freqBuffer =
        { docIn := { reads := rest },
          docBuffer := docBuffer.take i ++ entries.map Prod.fst ++ docBuffer.drop (i + k),
          freqBuffer := freqBuffer,
          result := .ok none } ∧
      entries.map Prod.snd = List.replicate k 1 ∧ values.length = k := by
  induction k with
  | zero =>
    intro i docIn docBuffer freqBuffer values entries rest _ hreads hdec
    simp only [decodeVInts, Option.some.injEq, Prod.mk.injEq] at hdec
    obtain ⟨he, hv⟩ := hdec
    subst he hv
    simp only [List.map_nil, List.nil_append] at hreads
    cases docIn
    simp only at hreads
    subst hreads
    simp [readVIntBlockDocs]
  | succ k ih =>
    intro i docIn docBuffer freqBuffer values entries rest hd hreads hdec
    cases values with
    | nil => simp [decodeVInts] at hdec
    | cons code values1 =>
      have hid : i < docBuffer.length := by omega
      obtain ⟨reads⟩ := docIn
      simp only [List.map_cons, List.cons_append] at hreads
      subst hreads
      have e : i + 1 + k = i + (k + 1) := by omega
      simp only [decodeVInts, Bool.false_eq_true, if_false, Option.map_eq_some',
        Prod.mk.injEq] at hdec
      obtain ⟨⟨entries1, left⟩, hdec1, he, hl⟩ := hdec
      simp only at he hl
      subst he hl
      obtain ⟨hrec, hsnd, hlen⟩ := ih (i + 1) { reads := values1.map (fun v => (v, none)) ++ rest }
        (docBuffer.set i code) freqBuffer values1 entries1 rest
        (by rw [List.length_set]; omega) rfl hdec1
      refine ⟨?_, by simp [hsnd, List.replicate_succ], by simp [hlen]⟩
      rw [readVIntBlockDocs]
      simp only [readVInt_cons, setIndex, hid, if_true]
      rw [hrec, take_set_succ _ _ _ hid, drop_set_gt _ _ _ _ (by omega)]
      simp [e]

theorem set_zero_drop (l : List Int) (x : Int) (h : 0 < l.length) :
    ∃ tail, (l.set 0 x).drop 0 = [x] ++ tail := by
  cases l with
  | nil => simp at h
  | cons a as => exact ⟨as, rfl⟩

theorem reset_singleton (de0 : blockDocsEnum) (liveDocs : Option (Int → Bool))
    (ts : intBlockTermState) (flags : Nat)
    (hd : 128 ≤ de0.docDeltaBuffer.length) (hf : 128 ≤ de0.freqBuffer.length)
    (h1 : ts.DocFreq = 1) :
    (de0.reset liveDocs ts flags).2 = none ∧
    Fresh (de0.reset liveDocs ts flags).1
      [(ts.singletonDocID, if de0.indexHasFreq then ts.TotalTermFreq else 1)] ∧
    (de0.reset liveDocs ts flags).1.docIn = de0.docIn ∧
    (de0.reset liveDocs ts flags).1.streamCalls = de0.streamCalls ∧
    (de0.reset liveDocs ts flags).1.refillDocs.1.docIn = de0.docIn ∧
    (de0.reset liveDocs ts flags).1.refillDocs.1.streamCalls = de0.streamCalls := by
  have hd0 : 0 < de0.docDeltaBuffer.length := by omega
  have hf0 : 0 < de0.freqBuffer.length := by omega
  have hfr : 0 < (if de0.indexHasFreq then de0.freqBuffer
      else List.replicate de0.freqBuffer.length 1).length := by
    split
    · exact hf0
    · simp only [List.length_replicate]; exact hf0
  have hreset : de0.reset liveDocs ts flags =
      ({ de0 with liveDocs := liveDocs, docFreq := 1,
                  totalTermFreq := if de0.indexHasFreq then ts.TotalTermFreq else 1,
                  docTermStartFP := ts.docStartFP, skipOffset := ts.skipOffset,
                  singletonDocID := ts.singletonDocID, doc := -1,
                  needsFreq := decide (flags &&& DOCS_ENUM_FLAG_FREQS ≠ 0),
                  freqBuffer := if de0.indexHasFreq then de0.freqBuffer
                    else List.replicate de0.freqBuffer.length 1,
                  accum := 0, docUpto := 0, nextSkipDoc := (LUCENE41_BLOCK_SIZE : Int) - 1,
                  docBufferUpto := LUCENE41_BLOCK_SIZE, skipped := false }, none) := by
    simp [blockDocsEnum.reset, h1]
  rw [hreset]
  have hrefill : blockDocsEnum.refillDocs
      { de0 with liveDocs := liveDocs, docFreq := 1,
                  totalTermFreq := if de0.indexHasFreq then ts.TotalTermFreq else 1,
                  docTermStartFP := ts.docStartFP, skipOffset := ts.skipOffset,
                  singletonDocID := ts.singletonDocID, doc := -1,
                  needsFreq := decide (flags &&& DOCS_ENUM_FLAG_FREQS ≠ 0),
                  freqBuffer := if de0.indexHasFreq then de0.freqBuffer
                    else List.replicate de0.freqBuffer.length 1,
                  accum := 0, docUpto := 0, nextSkipDoc := (LUCENE41_BLOCK_SIZE : Int) - 1,
                  docBufferUpto := LUCENE41_BLOCK_SIZE, skipped := false } =
      ({ de0 with liveDocs := liveDocs, docFreq := 1,
                  totalTermFreq := if de0.indexHasFreq then ts.TotalTermFreq else 1,
                  docTermStartFP := ts.docStartFP, skipOffset := ts.skipOffset,
                  singletonDocID := ts.singletonDocID, doc := -1,
                  needsFreq := decide (flags &&& DOCS_ENUM_FLAG_FREQS ≠ 0),
                  freqBuffer := (if de0.indexHasFreq then de0.freqBuffer
                    else List.replicate de0.freqBuffer.length 1).set 0
                      (if de0.indexHasFreq then ts.TotalTermFreq else 1),
                  docDeltaBuffer := de0.docDeltaBuffer.set 0 ts.singletonDocID,
                  accum := 0, docUpto := 0, nextSkipDoc := (LUCENE41_BLOCK_SIZE : Int) - 1,
                  docBufferUpto := 0, skipped := false }, .ok none) := by
    simp [blockDocsEnum.refillDocs, assert, LUCENE41_BLOCK_SIZE, setIndex, hd0, hfr]
  refine ⟨rfl, ?_, rfl, rfl, ?_, ?_⟩
  · refine ⟨rfl, rfl, rfl, rfl, by simp, by simp, ?_, ?_, ?_, ?_⟩
    · rw [hrefill]
    · rw [hrefill]
      refine ⟨?_, ?_, ?_, ?_, ?_⟩
      · exact set_zero_drop _ _ hd0
      · exact set_zero_drop _ _ hfr
      · simp
      · simp
      · simp
    · rw [hrefill]; exact ⟨rfl, rfl⟩
    · rw [hrefill]; exact ⟨rfl, rfl, rfl, rfl, rfl, rfl⟩
  · rw [hrefill]
  · rw [hrefill]

theorem refillDocs_stores (de : blockDocsEnum) (docIn : IndexInput)
    (entries : List (Int × Int)) (values : List Int) (rest : List (Int × Option String))
    (hupto : de.docUpto = 0) (hq : de.docFreq = (entries.length : Int))
    (h2 : 2 ≤ entries.length) (hsmall : entries.length < 128)
    (hin : de.docIn = some docIn)
    (hreads : docIn.reads = values.map (fun v => (v, none)) ++ rest)
    (hdec : decodeVInts de.indexHasFreq entries.length values = some (entries, []))
    (hd : 128 ≤ de.docDeltaBuffer.length) (hf : 128 ≤ de.freqBuffer.length)
    (hones : de.indexHasFreq = false →
      de.freqBuffer = List.replicate de.freqBuffer.length 1) :
    de.refillDocs =
      ({ de with docIn := some { reads := rest },
                 docDeltaBuffer := entries.map Prod.fst ++ de.docDeltaBuffer.drop entries.length,
                 freqBuffer := entries.map Prod.snd ++ de.freqBuffer.drop entries.length,
                 streamCalls := de.streamCalls ++ [.readVIntBlock entries.length],
                 docBufferUpto := 0 }, .ok none) := by
  have hleft : de.docFreq - (de.docUpto : Int) = (entries.length : Int) := by
    rw [hq, hupto]; simp
  have hpos : decide ((entries.length : Int) > 0) = true := by
    simp only [decide_eq_true_eq]; omega
  have hnot : ¬ ((entries.length : Int) ≥ ((128 : Nat) : Int)) := by push_cast; omega
  have hne : ¬ (de.docFreq = 1) := by omega
  have hblock : readVIntBlock docIn de.docDeltaBuffer de.freqBuffer (entries.length : Int)
      de.indexHasFreq =
      { docIn := { reads := rest },
        docBuffer := entries.map Prod.fst ++ de.docDeltaBuffer.drop entries.length,
        freqBuffer := entries.map Prod.snd ++ de.freqBuffer.drop entries.length,
        result := .ok none } := by
    unfold readVIntBlock
    simp only [Int.toNat_ofNat]
    cases hfreq : de.indexHasFreq with
    | true =>
      rw [hfreq] at hdec
      simp only [if_true]
      rw [readVIntBlockFreq_stores entries.length 0 docIn _ _ values entries rest
        (by omega) (by omega) hreads hdec]
      simp
    | false =>
      rw [hfreq] at hdec
      obtain ⟨hrec, hsnd, _⟩ := readVIntBlockDocs_stores entries.length 0 docIn
        de.docDeltaBuffer de.freqBuffer values entries rest (by omega) hreads hdec
      simp only [Bool.false_eq_true, if_false]
      rw [hrec, hsnd]
      have hfb := hones hfreq
      have : List.replicate entries.length (1 : Int) ++ de.freqBuffer.drop entries.length
          = de.freqBuffer := by
        rw [hfb]
        simp only [List.drop_replicate, List.length_replicate, List.append_replicate_replicate]
        congr 1
        omega
      rw [this]
      simp
  unfold blockDocsEnum.refillDocs
  simp only [hleft, hpos, assert, if_true, LUCENE41_BLOCK_SIZE, hnot, if_false, hne, hin,
    hblock]

theorem reset_stored (de0 : blockDocsEnum) (liveDocs : Option (Int → Bool))
    (ts : intBlockTermState) (flags : Nat) (entries : List (Int × Int)) (values : List Int)
    (rest : List (Int × Option String))
    (hd : 128 ≤ de0.docDeltaBuffer.length) (hf : 128 ≤ de0.freqBuffer.length)
    (hq : ts.DocFreq = (entries.length : Int)) (h2 : 2 ≤ entries.length)
    (hsmall : entries.length < 128)
    (hseek : de0.startDocIn.seekErr ts.docStartFP = none)
    (hreads : (de0.startDocIn.atFP ts.docStartFP).reads = values.map (fun v => (v, none)) ++ rest)
    (hdec : decodeVInts de0.indexHasFreq entries.length values = some (entries, [])) :
    (de0.reset liveDocs ts flags).2 = none ∧
    Fresh (de0.reset liveDocs ts flags).1 entries ∧
    (de0.reset liveDocs ts flags).1.docIn = some (de0.startDocIn.atFP ts.docStartFP) ∧
    (de0.reset liveDocs ts flags).1.refillDocs.1.docIn = some { reads := rest } ∧
    (de0.reset liveDocs ts flags).1.refillDocs.1.streamCalls =
      (de0.reset liveDocs ts flags).1.streamCalls ++ [.readVIntBlock entries.length] ∧
    (de0.reset liveDocs ts flags).1.refillDocs.1.freqBuffer =
      entries.map Prod.snd ++ (de0.reset liveDocs ts flags).1.freqBuffer.drop entries.length := by
  have hgt : ts.DocFreq > 1 := by omega
  have hfr : 128 ≤ (if de0.indexHasFreq then de0.freqBuffer
      else List.replicate de0.freqBuffer.length 1).length := by
    split
    · exact hf
    · simp only [List.length_replicate]; exact hf
  have hreset : de0.reset liveDocs ts flags =
      ({ de0 with liveDocs := liveDocs, docFreq := ts.DocFreq,
                  totalTermFreq := if de0.indexHasFreq then ts.TotalTermFreq else ts.DocFreq,
                  docTermStartFP := ts.docStartFP, skipOffset := ts.skipOffset,
                  singletonDocID := ts.singletonDocID,
                  docIn := some (de0.startDocIn.atFP ts.docStartFP),
                  streamCalls := (match de0.docIn with
                    | none => de0.streamCalls ++ [.clone]
                    | some _ => de0.streamCalls) ++ [.seek ts.docStartFP],
                  doc := -1,
                  needsFreq := decide (flags &&& DOCS_ENUM_FLAG_FREQS ≠ 0),
                  freqBuffer := if de0.indexHasFreq then de0.freqBuffer
                    else List.replicate de0.freqBuffer.length 1,
                  accum := 0, docUpto := 0, nextSkipDoc := (LUCENE41_BLOCK_SIZE : Int) - 1,
                  docBufferUpto := LUCENE41_BLOCK_SIZE, skipped := false }, none) := by
    cases hdi : de0.docIn <;> simp [blockDocsEnum.reset, hgt, hseek, hdi]
  rw [hreset]
  simp only
  have hrefill := refillDocs_stores
    { de0 with liveDocs := liveDocs, docFreq := ts.DocFreq,
                  totalTermFreq := if de0.indexHasFreq then ts.TotalTermFreq else ts.DocFreq,
                  docTermStartFP := ts.docStartFP, skipOffset := ts.skipOffset,
                  singletonDocID := ts.singletonDocID,
                  docIn := some (de0.startDocIn.atFP ts.docStartFP),
                  streamCalls := (match de0.docIn with
                    | none => de0.streamCalls ++ [.clone]
                    | some _ => de0.streamCalls) ++ [.seek ts.docStartFP],
                  doc := -1,
                  needsFreq := decide (flags &&& DOCS_ENUM_FLAG_FREQS ≠ 0),
                  freqBuffer := if de0.indexHasFreq then de0.freqBuffer
                    else List.replicate de0.freqBuffer.length 1,
                  accum := 0, docUpto := 0, nextSkipDoc := (LUCENE41_BLOCK_SIZE : Int) - 1,
                  docBufferUpto := LUCENE41_BLOCK_SIZE, skipped := false }
    (de0.startDocIn.atFP ts.docStartFP) entries values rest rfl hq h2 hsmall rfl hreads hdec
    hd hfr (by
      intro hno
      simp only at hno
      simp [hno])
  rw [hrefill]
  refine ⟨by trivial, ?_, by trivial, by trivial, by trivial, by trivial⟩
  refine ⟨rfl, rfl, rfl, hq, by omega, hsmall, ?_, ?_, ?_, ?_⟩
  · rw [hrefill]
  · rw [hrefill]
    refine ⟨⟨_, rfl⟩, ⟨_, rfl⟩, ?_, ?_, ?_⟩
    · simp only; rw [hq]; simp
    · simp only; omega
    · simp only; rw [hq]; omega
  · rw [hrefill]; exact ⟨rfl, rfl⟩
  · rw [hrefill]; exact ⟨rfl, rfl, rfl, rfl, rfl, rfl⟩

/-! ### The first call after a reset -/

theorem fresh_fuel (de : blockDocsEnum) (entries : List (Int × Int)) (h : Fresh de entries) :
    de.fuel = entries.length + 1 ∧ de.refillDocs.1.fuel = entries.length + 1 := by
  obtain ⟨_, hu, _, hq, _, _, _, _, ⟨_, hu1⟩, ⟨_, _, _, _, hq1, _⟩⟩ := h
  unfold blockDocsEnum.fuel
  rw [hq1, hu1, hq, hu]
  simp

theorem fresh_guards (de : blockDocsEnum) (entries : List (Int × Int)) (h : Fresh de entries) :
    ¬ ((de.docUpto : Int) = de.docFreq) ∧
    ¬ ((de.refillDocs.1.docUpto : Int) = de.refillDocs.1.docFreq) ∧
    de.docBufferUpto = LUCENE41_BLOCK_SIZE ∧
    ¬ (de.refillDocs.1.docBufferUpto = LUCENE41_BLOCK_SIZE) ∧
    (∀ target : Int, ¬ (de.docFreq > (LUCENE41_BLOCK_SIZE : Int) ∧ target > de.nextSkipDoc)) ∧
    (∀ target : Int, ¬ (de.refillDocs.1.docFreq > (LUCENE41_BLOCK_SIZE : Int) ∧
      target > de.refillDocs.1.nextSkipDoc)) := by
  obtain ⟨hb, hu, _, hq, hpos, hsm, _, _, ⟨hb1, hu1⟩, ⟨_, _, _, _, hq1, _⟩⟩ := h
  unfold LUCENE41_BLOCK_SIZE
  refine ⟨?_, ?_, hb, ?_, ?_, ?_⟩
  · rw [hu, hq]; push_cast; omega
  · rw [hu1, hq1, hq]; push_cast; omega
  · rw [hb1]; omega
  · intro target hcon; rw [hq] at hcon; push_cast at hcon; omega
  · intro target hcon; rw [hq1, hq] at hcon; push_cast at hcon; omega

theorem fresh_nextDoc (de : blockDocsEnum) (entries : List (Int × Int)) (h : Fresh de entries) :
    de.NextDoc = de.refillDocs.1.NextDoc := by
  obtain ⟨hf1, hf2⟩ := fresh_fuel de entries h
  obtain ⟨g1, g2, g3, g4, _, _⟩ := fresh_guards de entries h
  unfold blockDocsEnum.NextDoc
  rw [hf1, hf2, blockDocsEnum.nextDocLoop, blockDocsEnum.nextDocLoop]
  simp only [g1, g2, g3, g4, if_true, if_false, h.refill]

theorem fresh_advance (de : blockDocsEnum) (entries : List (Int × Int)) (target : Int)
    (h : Fresh de entries) : de.Advance target = de.refillDocs.1.Advance target := by
  obtain ⟨hf1, hf2⟩ := fresh_fuel de entries h
  obtain ⟨g1, g2, g3, g4, g5, g6⟩ := fresh_guards de entries h
  unfold blockDocsEnum.Advance
  simp only [g1, g2, g3, g4, g5 target, g6 target, if_true, if_false, h.refill]

theorem fresh_call (de : blockDocsEnum) (entries : List (Int × Int)) (c : EnumCall)
    (h : Fresh de entries) : de.call c = de.refillDocs.1.call c := by
  cases c with
  | NextDoc => exact fresh_nextDoc de entries h
  | Advance target => exact fresh_advance de entries target h

theorem fresh_calls_cons (de : blockDocsEnum) (entries : List (Int × Int)) (c : EnumCall)
    (cs : List EnumCall) (h : Fresh de entries) :
    de.calls (c :: cs) = de.refillDocs.1.calls (c :: cs) := by
  rw [blockDocsEnum.calls, blockDocsEnum.calls, fresh_call de entries c h]

theorem fresh_calls (de : blockDocsEnum) (entries : List (Int × Int)) (c : EnumCall)
    (cs : List EnumCall) (h : Fresh de entries) :
    ∃ de1 rem1 pre,
      de.calls (c :: cs) = some (de1,
        (callMoves de.liveDocs 0 de.freq entries (c :: cs)).map Move.record) ∧
      Loaded de1 rem1 ∧ docIds 0 entries = pre ++ docIds de1.accum rem1 ∧
      de1.liveDocs = de.liveDocs ∧ de1.docIn = de.refillDocs.1.docIn ∧
      de1.streamCalls = de.refillDocs.1.streamCalls ∧
      de1.docDeltaBuffer = de.refillDocs.1.docDeltaBuffer ∧
      de1.freqBuffer = de.refillDocs.1.freqBuffer ∧ de1.docFreq = de.docFreq := by
  obtain ⟨de1, rem1, pre, h1, h2, h3, h4, h5, h6, h7, h8, h9⟩ :=
    calls_moves (c :: cs) de.refillDocs.1 entries h.loaded
  obtain ⟨ha, hfq, _, hl, hq, _⟩ := h.refillCursor
  rw [ha, hfq, hl] at h1
  rw [ha] at h3
  exact ⟨de1, rem1, pre, by rw [fresh_calls_cons de entries c cs h, h1], h2, h3,
    h4.trans hl, h5, h6, h7, h8, h9.trans hq⟩

theorem fresh_records (de : blockDocsEnum) (entries : List (Int × Int)) (cs : List EnumCall)
    (h : Fresh de entries) :
    ∃ de1, de.calls cs = some (de1,
      (callMoves de.liveDocs 0 de.freq entries cs).map Move.record) := by
  cases cs with
  | nil => exact ⟨de, rfl⟩
  | cons c cs =>
    obtain ⟨de1, _, _, h1, _⟩ := fresh_calls de entries c cs h
    exact ⟨de1, h1⟩

theorem reset_fields (de0 : blockDocsEnum) (liveDocs : Option (Int → Bool))
    (ts : intBlockTermState) (flags : Nat) :
    (de0.reset liveDocs ts flags).1.liveDocs = liveDocs ∧
    (de0.reset liveDocs ts flags).1.freq = de0.freq ∧
    (de0.reset liveDocs ts flags).1.indexHasFreq = de0.indexHasFreq ∧
    (de0.reset liveDocs ts flags).1.startDocIn = de0.startDocIn := by
  unfold blockDocsEnum.reset
  simp only
  split
  · split
    · cases de0.docIn <;> exact ⟨rfl, rfl, rfl, rfl⟩
    · cases de0.docIn <;> exact ⟨rfl, rfl, rfl, rfl⟩
  · exact ⟨rfl, rfl, rfl, rfl⟩

theorem reset_fresh (de0 : blockDocsEnum) (liveDocs : Option (Int → Bool))
    (ts : intBlockTermState) (flags : Nat) (entries : List (Int × Int))
    (hd : 128 ≤ de0.docDeltaBuffer.length) (hf : 128 ≤ de0.freqBuffer.length)
    (hn : 1 ≤ entries.length) (hsmall : entries.length < 128)
    (hst : StoredPostings de0.startDocIn de0.indexHasFreq ts entries) :
    (de0.reset liveDocs ts flags).2 = none ∧ Fresh (de0.reset liveDocs ts flags).1 entries := by
  obtain ⟨hq, hrest⟩ := hst
  by_cases h1 : ts.DocFreq = 1
  · rw [if_pos h1] at hrest
    obtain ⟨r1, r2, _⟩ := reset_singleton de0 liveDocs ts flags hd hf h1
    rw [hrest]
    exact ⟨r1, r2⟩
  · rw [if_neg h1] at hrest
    obtain ⟨hseek, values, rest, hreads, hdec⟩ := hrest
    obtain ⟨r1, r2, _⟩ := reset_stored de0 liveDocs ts flags entries values rest hd hf hq
      (by omega) hsmall hseek hreads hdec
    exact ⟨r1, r2⟩

/-! ### The block size check of Init -/

/-- C18, counterexample: on a terms stream whose header check succeeds and whose
block size reads as 64, `Init` returns no error to its caller: it panics. -/
theorem init_mismatch_counterexample :
    Lucene41PostingsReader.Init none sampleTermsIn64 =
      .panic "index-time BLOCK_SIZE (64) != read-time BLOCK_SIZE (128)" := by
  rfl

/-- C18 (amended): for every terms stream whose header check succeeds, `Init`
returns nil exactly when the read of the block size succeeds with the value 128;
when the read succeeds with any other value `Init` returns nothing to its caller:
it panics with the message that names the two block sizes; a failure of the read,
or of the header check, is returned to the caller as the error. -/
theorem init_block_size (termsIn : IndexInput) :
    (Lucene41PostingsReader.Init none termsIn = .ok none ↔
      termsIn.ReadVInt.err = none ∧ termsIn.ReadVInt.n = 128) ∧
    (termsIn.ReadVInt.err = none → termsIn.ReadVInt.n ≠ 128 →
      Lucene41PostingsReader.Init none termsIn =
        .panic ("index-time BLOCK_SIZE (" ++ toString termsIn.ReadVInt.n ++
          ") != read-time BLOCK_SIZE (" ++ toString LUCENE41_BLOCK_SIZE ++ ")")) ∧
    (∀ e, termsIn.ReadVInt.err = some e →
      Lucene41PostingsReader.Init none termsIn = .ok (some e)) ∧
    (∀ e, Lucene41PostingsReader.Init (some e) termsIn = .ok (some e)) := by
  unfold Lucene41PostingsReader.Init LUCENE41_BLOCK_SIZE
  refine ⟨?_, ?_, ?_, ?_⟩
  · cases herr : termsIn.ReadVInt.err with
    | some e => simp [herr]
    | none =>
      by_cases hn : termsIn.ReadVInt.n = 128
      · simp [herr, hn]
      · simp [herr, hn]
  · intro herr hn
    simp [herr, hn]
  · intro e herr
    simp [herr]
  · intro e
    rfl

/-! ### The unfinished paths of the enumerator -/

/-- C16 (code): for every enumerator with a cloned stream on which at least 128
documents remain, `refillDocs` decodes nothing: it panics with "not implemented
yet" and leaves the enumerator as it was; so does `NextDoc` when the buffer is
empty. -/
theorem refillDocs_full_block_panics (de : blockDocsEnum) (docIn : IndexInput)
    (hleft : de.docFreq - (de.docUpto : Int) ≥ 128) (hin : de.docIn = some docIn)
    (hempty : de.docBufferUpto = 128) :
    de.refillDocs = (de, .panic "not implemented yet") ∧
    de.NextDoc = some { de := de, result := .panic "not implemented yet" } := by
  have hpos : decide (de.docFreq - (de.docUpto : Int) > 0) = true := by
    simp only [decide_eq_true_eq]; omega
  have hge : de.docFreq - (de.docUpto : Int) ≥ ((LUCENE41_BLOCK_SIZE : Nat) : Int) := by
    unfold LUCENE41_BLOCK_SIZE; push_cast; omega
  have hrefill : de.refillDocs = (de, .panic "not implemented yet") := by
    unfold blockDocsEnum.refillDocs
    simp only [hpos, assert, if_true, hge, hin]
  refine ⟨hrefill, ?_⟩
  have hne : ¬ ((de.docUpto : Int) = de.docFreq) := by omega
  unfold blockDocsEnum.NextDoc blockDocsEnum.fuel
  rw [blockDocsEnum.nextDocLoop]
  simp only [hne, if_false, hempty, LUCENE41_BLOCK_SIZE, if_true, hrefill]

/-- C16, witness: a new enumerator reset for a term with 128 documents panics at the
first `NextDoc`: no document is returned. -/
theorem refillDocs_full_block_panics_witness :
    (Lucene41PostingsReader.Docs (sampleReader []) 128 sampleFieldFreqs sampleFullBlockTerm
      none none 0).1.NextDoc =
    some { result := .panic "not implemented yet",
           de := (Lucene41PostingsReader.Docs (sampleReader []) 128 sampleFieldFreqs
             sampleFullBlockTerm none none 0).1 } :=
  (refillDocs_full_block_panics
    (Lucene41PostingsReader.Docs (sampleReader []) 128 sampleFieldFreqs sampleFullBlockTerm
      none none 0).1 { reads := [] } (by decide) rfl rfl).2

/-- C17 (code): for every enumerator of a term of at most 128 documents, with
documents left and an empty buffer, when `refillDocs` returns an error `Advance`
returns the document 0 with a nil error, where `NextDoc` returns the error. -/
theorem advance_swallows_refill_error (de : blockDocsEnum) (target : Int) (e : String)
    (hsmall : de.docFreq ≤ 128) (hmore : (de.docUpto : Int) ≠ de.docFreq)
    (hempty : de.docBufferUpto = 128) (herr : de.refillDocs.2 = .ok (some e)) :
    de.Advance target = some { de := de.refillDocs.1, result := .ok (0, none) } ∧
    de.NextDoc = some { de := de.refillDocs.1, result := .ok (0, some e) } := by
  have hskip : ¬ (de.docFreq > ((128 : Nat) : Int) ∧ target > de.nextSkipDoc) := by
    push_cast; omega
  constructor
  · unfold blockDocsEnum.Advance
    simp only [hskip, hmore, if_false, hempty, LUCENE41_BLOCK_SIZE, if_true, herr]
  · unfold blockDocsEnum.NextDoc blockDocsEnum.fuel
    rw [blockDocsEnum.nextDocLoop]
    simp only [hmore, if_false, hempty, LUCENE41_BLOCK_SIZE, if_true, herr]

/-- C17, witness: on a stream whose first read fails with "read failed", the first
`Advance(5)` of a new enumerator for a term with two documents returns 0 and nil,
and the first `NextDoc` returns 0 and "read failed". -/
theorem advance_swallows_refill_error_witness :
    ((Lucene41PostingsReader.Docs (sampleReader sampleFailingReads) 128 sampleFieldFreqs
      sampleTerm none none 0).1.Advance 5).map (fun o => o.result) = some (.ok (0, none)) ∧
    ((Lucene41PostingsReader.Docs (sampleReader sampleFailingReads) 128 sampleFieldFreqs
      sampleTerm none none 0).1.NextDoc).map (fun o => o.result)
        = some (.ok (0, some "read failed")) := by
  have h := advance_swallows_refill_error
    (Lucene41PostingsReader.Docs (sampleReader sampleFailingReads) 128 sampleFieldFreqs
      sampleTerm none none 0).1 5 "read failed" (by decide) (by decide) rfl rfl
  rw [h.1, h.2]
  exact ⟨rfl, rfl⟩

/-! ### The singleton term -/

/-- C12: for every enumerator (new or left by earlier terms) and every term state
with docFreq = 1, reset with no live-docs mask returns nil and, followed by two
calls of `NextDoc`, makes no call on the document stream (the calls recorded and
the cloned stream are, after each step, those from before the reset); the first
`NextDoc` returns singletonDocID, after which `Freq()` is totalTermFreq, which is
the term's total term frequency when the field indexes frequencies and 1 when it
does not; the second `NextDoc` returns NO_MORE_DOCS. The buffers hold at least
128 entries and singletonDocID is an `int`. -/
theorem singleton_reads_nothing (de0 : blockDocsEnum) (ts : intBlockTermState) (flags : Nat)
    (hd : 128 ≤ de0.docDeltaBuffer.length) (hf : 128 ≤ de0.freqBuffer.length)
    (h1 : ts.DocFreq = 1) (hid : wrap64 ts.singletonDocID = ts.singletonDocID) :
    ∃ de1 de2,
      (de0.reset none ts flags).2 = none ∧
      (de0.reset none ts flags).1.NextDoc =
        some { de := de1, result := .ok (ts.singletonDocID, none) } ∧
      de1.Freq = ((de0.reset none ts flags).1.totalTermFreq, none) ∧
      (de0.reset none ts flags).1.totalTermFreq =
        (if de0.indexHasFreq then ts.TotalTermFreq else 1) ∧
      de1.NextDoc = some { de := de2, result := .ok (NO_MORE_DOCS, none) } ∧
      (de0.reset none ts flags).1.streamCalls = de0.streamCalls ∧
      (de0.reset none ts flags).1.docIn = de0.docIn ∧
      de1.streamCalls = de0.streamCalls ∧ de1.docIn = de0.docIn ∧
      de2.streamCalls = de0.streamCalls ∧ de2.docIn = de0.docIn := by
  obtain ⟨r1, hfresh, r3, r4, r5, r6⟩ := reset_singleton de0 none ts flags hd hf h1
  obtain ⟨hlive, _, _, _⟩ := reset_fields de0 none ts flags
  obtain ⟨ha, _, _, hl, _, _⟩ := hfresh.refillCursor
  have htf : (de0.reset none ts flags).1.totalTermFreq =
      (if de0.indexHasFreq then ts.TotalTermFreq else 1) := by
    simp [blockDocsEnum.reset, h1]
  have hnext := nextDoc_moves _ _ hfresh.loaded
  rw [← fresh_nextDoc _ _ hfresh, hl, hlive, ha] at hnext
  have hmove : nextMove none 0 (de0.reset none ts flags).1.refillDocs.1.freq
      [(ts.singletonDocID, if de0.indexHasFreq then ts.TotalTermFreq else 1)] =
      { consumed := 1, accum := ts.singletonDocID, doc := ts.singletonDocID,
        freq := if de0.indexHasFreq then ts.TotalTermFreq else 1 } := by
    simp [nextMove, isLive, hid]
  rw [hmove] at hnext
  have hl1 := loaded_moved _ _
    { consumed := 1, accum := ts.singletonDocID, doc := ts.singletonDocID,
      freq := if de0.indexHasFreq then ts.TotalTermFreq else 1 } hfresh.loaded (by simp)
  have hnext2 := nextDoc_moves _ _ hl1
  simp only [List.drop_succ_cons, List.drop_zero, nextMove] at hnext2
  refine ⟨_, _, r1, hnext, ?_, htf, hnext2, r4, r3, r6, r5, r6, r5⟩
  rw [htf]
  rfl

/-- C12, witness: a new enumerator on a field with frequencies, reset for the term
whose one document is 7 with total term frequency 5. -/
theorem singleton_reads_nothing_witness :
    ∃ de1 de2,
      ((newBlockDocsEnum 128 (sampleReader []) sampleFieldFreqs).reset none
        sampleSingletonTerm 0).2 = none ∧
      ((newBlockDocsEnum 128 (sampleReader []) sampleFieldFreqs).reset none
        sampleSingletonTerm 0).1.NextDoc = some { de := de1, result := .ok (7, none) } ∧
      de1.Freq = (5, none) ∧
      de1.NextDoc = some { de := de2, result := .ok (NO_MORE_DOCS, none) } ∧
      de2.streamCalls = [] ∧ de2.docIn = none := by
  obtain ⟨de1, de2, h1, h2, h3, h4, h5, _, _, _, _, h10, h11⟩ :=
    singleton_reads_nothing (newBlockDocsEnum 128 (sampleReader []) sampleFieldFreqs)
      sampleSingletonTerm 0 (by simp [newBlockDocsEnum]) (by simp [newBlockDocsEnum]) rfl
      (by decide)
  exact ⟨de1, de2, h1, h2, by rw [h3, h4]; rfl, h5, h10, h11⟩

/-! ### A read that fails during a refill -/

theorem readVIntBlockFreq_keeps (k : Nat) :
    ∀ (i : Nat) (docIn : IndexInput) (docBuffer freqBuffer : List Int),
      (readVIntBlockFreq k i docIn docBuffer freqBuffer).docBuffer.length = docBuffer.length ∧
      (readVIntBlockFreq k i docIn docBuffer freqBuffer).freqBuffer.length = freqBuffer.length ∧
      (readVIntBlockFreq k i docIn docBuffer freqBuffer).docBuffer.drop (i + k)
        = docBuffer.drop (i + k) ∧
      (readVIntBlockFreq k i docIn docBuffer freqBuffer).freqBuffer.drop (i + k)
        = freqBuffer.drop (i + k) := by
  induction k with
  | zero =>
    intro i docIn docBuffer freqBuffer
    exact ⟨rfl, rfl, rfl, rfl⟩
  | succ k ih =>
    intro i docIn docBuffer freqBuffer
    have hstep : ∀ (s : IndexInput) (x y : Int),
        (readVIntBlockFreq k (i + 1) s (docBuffer.set i x) (freqBuffer.set i y)).docBuffer.length
          = docBuffer.length ∧
        (readVIntBlockFreq k (i + 1) s (docBuffer.set i x) (freqBuffer.set i y)).freqBuffer.length
          = freqBuffer.length ∧
        (readVIntBlockFreq k (i + 1) s (docBuffer.set i x) (freqBuffer.set i y)).docBuffer.drop
          (i + (k + 1)) = docBuffer.drop (i + (k + 1)) ∧
        (readVIntBlockFreq k (i + 1) s (docBuffer.set i x) (freqBuffer.set i y)).freqBuffer.drop
          (i + (k + 1)) = freqBuffer.drop (i + (k + 1)) := by
      intro s x y
      obtain ⟨h1, h2, h3, h4⟩ := ih (i + 1) s (docBuffer.set i x) (freqBuffer.set i y)
      have e : i + 1 + k = i + (k + 1) := by omega
      rw [e] at h3 h4
      refine ⟨by rw [h1, List.length_set], by rw [h2, List.length_set], ?_, ?_⟩
      · rw [h3, drop_set_gt _ _ _ _ (by omega)]
      · rw [h4, drop_set_gt _ _ _ _ (by omega)]
    rw [readVIntBlockFreq]
    simp only [setIndex]
    split
    · exact ⟨rfl, rfl, rfl, rfl⟩
    · split
      · exact ⟨rfl, rfl, rfl, rfl⟩
      · next db1 hdb =>
        split at hdb
        · simp only [Result.ok.injEq] at hdb
          subst hdb
          split
          · split
            · exact ⟨List.length_set _ _ _, rfl, drop_set_gt _ _ _ _ (by omega), rfl⟩
            · next fb1 hfb =>
              split at hfb
              · simp only [Result.ok.injEq] at hfb
                subst hfb
                exact hstep _ _ _
              · simp at hfb
          · split
            · exact ⟨List.length_set _ _ _, rfl, drop_set_gt _ _ _ _ (by omega), rfl⟩
            · next fb1 hfb =>
              split at hfb
              · simp only [Result.ok.injEq] at hfb
                subst hfb
                split
                · exact ⟨List.length_set _ _ _, List.length_set _ _ _,
                    drop_set_gt _ _ _ _ (by omega), drop_set_gt _ _ _ _ (by omega)⟩
                · exact hstep _ _ _
              · simp at hfb
        · simp at hdb

theorem readVIntBlockDocs_keeps (k : Nat) :
    ∀ (i : Nat) (docIn : IndexInput) (docBuffer freqBuffer : List Int),
      (readVIntBlockDocs k i docIn docBuffer freqBuffer).docBuffer.length = docBuffer.length ∧
      (readVIntBlockDocs k i docIn docBuffer freqBuffer).freqBuffer = freqBuffer ∧
      (readVIntBlockDocs k i docIn docBuffer freqBuffer).docBuffer.drop (i + k)
        = docBuffer.drop (i + k) := by
  induction k with
  | zero =>
    intro i docIn docBuffer freqBuffer
    exact ⟨rfl, rfl, rfl⟩
  | succ k ih =>
    intro i docIn docBuffer freqBuffer
    rw [readVIntBlockDocs]
    simp only [setIndex]
    split
    · exact ⟨rfl, rfl, rfl⟩
    · next db1 hdb =>
      split at hdb
      · simp only [Result.ok.injEq] at hdb
        subst hdb
        split
        · exact ⟨List.length_set _ _ _, rfl, drop_set_gt _ _ _ _ (by omega)⟩
        · obtain ⟨h1, h2, h3⟩ := ih (i + 1) docIn.ReadVInt.docIn
            (docBuffer.set i docIn.ReadVInt.n) freqBuffer
          have e : i + 1 + k = i + (k + 1) := by omega
          rw [e] at h3
          exact ⟨by rw [h1, List.length_set], h2, by rw [h3, drop_set_gt _ _ _ _ (by omega)]⟩
      · simp at hdb

theorem readVIntBlock_keeps (docIn : IndexInput) (docBuffer freqBuffer : List Int) (num : Int)
    (indexHasFreq : Bool) :
    (readVIntBlock docIn docBuffer freqBuffer num indexHasFreq).docBuffer.length
      = docBuffer.length ∧
    (readVIntBlock docIn docBuffer freqBuffer num indexHasFreq).freqBuffer.length
      = freqBuffer.length ∧
    (readVIntBlock docIn docBuffer freqBuffer num indexHasFreq).docBuffer.drop num.toNat
      = docBuffer.drop num.toNat ∧
    (readVIntBlock docIn docBuffer freqBuffer num indexHasFreq).freqBuffer.drop num.toNat
      = freqBuffer.drop num.toNat := by
  unfold readVIntBlock
  cases indexHasFreq with
  | true =>
    simp only [if_true]
    have h := readVIntBlockFreq_keeps num.toNat 0 docIn docBuffer freqBuffer
    simpa using h
  | false =>
    simp only [Bool.false_eq_true, if_false]
    obtain ⟨h1, h2, h3⟩ := readVIntBlockDocs_keeps num.toNat 0 docIn docBuffer freqBuffer
    rw [h2]
    exact ⟨h1, rfl, by simpa using h3, rfl⟩

theorem refillDocs_error_keeps (de : blockDocsEnum) (e : String)
    (herr : de.refillDocs.2 = .ok (some e)) :
    de.refillDocs.1.docUpto = de.docUpto ∧ de.refillDocs.1.accum = de.accum ∧
    de.refillDocs.1.doc = de.doc ∧ de.refillDocs.1.freq = de.freq ∧
    de.refillDocs.1.docDeltaBuffer.length = de.docDeltaBuffer.length ∧
    de.refillDocs.1.freqBuffer.length = de.freqBuffer.length ∧
    de.refillDocs.1.docDeltaBuffer.drop (de.docFreq - (de.docUpto : Int)).toNat
      = de.docDeltaBuffer.drop (de.docFreq - (de.docUpto : Int)).toNat ∧
    de.refillDocs.1.freqBuffer.drop (de.docFreq - (de.docUpto : Int)).toNat
      = de.freqBuffer.drop (de.docFreq - (de.docUpto : Int)).toNat ∧
    de.refillDocs.1.docBufferUpto = 0 := by
  have hpos : de.docFreq - (de.docUpto : Int) > 0 := by
    by_contra hpos
    simp [blockDocsEnum.refillDocs, assert, hpos] at herr
  have hdec : decide (de.docFreq - (de.docUpto : Int) > 0) = true := by
    simp only [decide_eq_true_eq]; exact hpos
  have hleft : ¬ (de.docFreq - (de.docUpto : Int) ≥ ((LUCENE41_BLOCK_SIZE : Nat) : Int)) := by
    intro hleft
    cases hin : de.docIn <;> simp [blockDocsEnum.refillDocs, assert, hpos, hleft, hin] at herr
  have h1 : ¬ (de.docFreq = 1) := by
    intro h1
    simp only [blockDocsEnum.refillDocs, assert, hdec, hleft, if_true, if_false] at herr
    rw [if_pos h1] at herr
    split at herr
    · simp at herr
    · split at herr <;> simp at herr
  cases hin : de.docIn with
  | none =>
    simp only [blockDocsEnum.refillDocs, assert, hdec, hleft, h1, hin, if_true, if_false,
      reduceCtorEq] at herr
  | some docIn =>
    obtain ⟨k1, k2, k3, k4⟩ := readVIntBlock_keeps docIn de.docDeltaBuffer de.freqBuffer
      (de.docFreq - (de.docUpto : Int)) de.indexHasFreq
    simp only [blockDocsEnum.refillDocs, assert, hdec, hleft, h1, hin, if_true,
      if_false] at herr ⊢
    split at herr
    · simp at herr
    · next err hres =>
      simp only [hres]
      refine ⟨?_, ?_, ?_, ?_, ?_, ?_, ?_, ?_, ?_⟩ <;> trivial

theorem nextDoc_of_refill_error (de : blockDocsEnum) (e : String)
    (hmore : (de.docUpto : Int) ≠ de.docFreq) (hempty : de.docBufferUpto = 128)
    (herr : de.refillDocs.2 = .ok (some e)) :
    de.NextDoc = some { de := de.refillDocs.1, result := .ok (0, some e) } := by
  unfold blockDocsEnum.NextDoc blockDocsEnum.fuel
  rw [blockDocsEnum.nextDocLoop]
  simp only [hmore, if_false, hempty, LUCENE41_BLOCK_SIZE, if_true, herr]

set_option maxRecDepth 8000 in
/-- C19, counterexample: a new enumerator is reset for a term with two documents on
a stream that supplies the codes 7 and 4 and then fails. Before the first `NextDoc`
the buffer cursor is 128 and the buffers hold zeros; the call returns the error,
and after it the delta buffer starts with 3, 2 and the frequency buffer with 1, 0,
and the buffer cursor is 0. -/
theorem failed_read_counterexample :
    ((Lucene41PostingsReader.Docs (sampleReader samplePartialReads) 128 sampleFieldFreqs
        sampleTerm none none 0).1.docBufferUpto,
      (Lucene41PostingsReader.Docs (sampleReader samplePartialReads) 128 sampleFieldFreqs
        sampleTerm none none 0).1.docDeltaBuffer.take 2,
      (Lucene41PostingsReader.Docs (sampleReader samplePartialReads) 128 sampleFieldFreqs
        sampleTerm none none 0).1.freqBuffer.take 2) = (128, [0, 0], [0, 0]) ∧
    ((Lucene41PostingsReader.Docs (sampleReader samplePartialReads) 128 sampleFieldFreqs
        sampleTerm none none 0).1.NextDoc).map
      (fun o => (o.result, o.de.docBufferUpto, o.de.docDeltaBuffer.take 2,
        o.de.freqBuffer.take 2))
      = some (.ok (0, some "read failed"), 0, [3, 2], [1, 0]) := by
  constructor
  · rfl
  · rfl

/-- C19 (amended): when a read of the stream fails while `NextDoc` refills the
empty buffer of an enumerator that has documents left, the call returns 0 and the
error, and `docUpto`, `accum`, `doc` and `freq` are after the call what they were
before it; the two buffers keep their lengths and their entries from index
docFreq - docUpto on, the entries below that index being those that were decoded
before the failure. -/
theorem failed_read_keeps_cursor (de : blockDocsEnum) (e : String)
    (hmore : (de.docUpto : Int) ≠ de.docFreq) (hempty : de.docBufferUpto = 128)
    (herr : de.refillDocs.2 = .ok (some e)) :
    ∃ de1, de.NextDoc = some { de := de1, result := .ok (0, some e) } ∧
      de1.docUpto = de.docUpto ∧ de1.accum = de.accum ∧ de1.doc = de.doc ∧
      de1.freq = de.freq ∧
      de1.docDeltaBuffer.length = de.docDeltaBuffer.length ∧
      de1.freqBuffer.length = de.freqBuffer.length ∧
      de1.docDeltaBuffer.drop (de.docFreq - (de.docUpto : Int)).toNat
        = de.docDeltaBuffer.drop (de.docFreq - (de.docUpto : Int)).toNat ∧
      de1.freqBuffer.drop (de.docFreq - (de.docUpto : Int)).toNat
        = de.freqBuffer.drop (de.docFreq - (de.docUpto : Int)).toNat := by
  obtain ⟨h1, h2, h3, h4, h5, h6, h7, h8, _⟩ := refillDocs_error_keeps de e herr
  exact ⟨_, nextDoc_of_refill_error de e hmore hempty herr, h1, h2, h3, h4, h5, h6, h7, h8⟩

set_option maxRecDepth 8000 in
/-- C19, witness: the enumerator of the counterexample: the failed `NextDoc` returns
0 and "read failed" and leaves `docUpto`, `accum`, `doc` and `freq` at 0, 0, -1
and 0, where reset has put them. -/
theorem failed_read_keeps_cursor_witness :
    ∃ de1, (Lucene41PostingsReader.Docs (sampleReader samplePartialReads) 128 sampleFieldFreqs
        sampleTerm none none 0).1.NextDoc
        = some { de := de1, result := .ok (0, some "read failed") } ∧
      de1.docUpto = 0 ∧ de1.accum = 0 ∧ de1.doc = -1 ∧ de1.freq = 0 := by
  obtain ⟨de1, h, h1, h2, h3, h4, _⟩ := failed_read_keeps_cursor
    (Lucene41PostingsReader.Docs (sampleReader samplePartialReads) 128 sampleFieldFreqs
      sampleTerm none none 0).1 "read failed" (by decide) rfl rfl
  exact ⟨de1, h, h1, h2, h3, h4⟩

/-! ### Moves that differ in the frequency they start from -/

theorem agree_refl (m : Move) : m.Agree m := ⟨rfl, rfl, rfl, fun _ => rfl⟩

theorem agree_shift (m1 m2 : Move) (h : m1.Agree m2) : m1.shift.Agree m2.shift := by
  obtain ⟨h1, h2, h3, h4⟩ := h
  exact ⟨by simp only [Move.shift, h1], h2, h3, h4⟩

theorem agree_trans (m1 m2 m3 : Move) (h : m1.Agree m2) (k : m2.Agree m3) : m1.Agree m3 := by
  obtain ⟨h1, h2, h3, h4⟩ := h
  obtain ⟨k1, k2, k3, k4⟩ := k
  exact ⟨h1.trans k1, h2.trans k2, h3.trans k3,
    fun hne => (h4 hne).trans (k4 (by rw [← h3]; exact hne))⟩

theorem agree_symm (m1 m2 : Move) (h : m1.Agree m2) : m2.Agree m1 := by
  obtain ⟨h1, h2, h3, h4⟩ := h
  exact ⟨h1.symm, h2.symm, h3.symm, fun hne => (h4 (by rw [h3]; exact hne)).symm⟩

theorem nextMove_agree (liveDocs : Option (Int → Bool)) (f1 f2 : Int) (rem : List (Int × Int)) :
    ∀ accum, (nextMove liveDocs accum f1 rem).Agree (nextMove liveDocs accum f2 rem) := by
  induction rem with
  | nil => intro accum; exact ⟨rfl, rfl, rfl, fun h => absurd rfl h⟩
  | cons e rest ih =>
    intro accum
    obtain ⟨delta, f⟩ := e
    simp only [nextMove]
    split
    · exact agree_refl _
    · exact agree_shift _ _ (ih _)

theorem advanceMove_agree (liveDocs : Option (Int → Bool)) (target f1 f2 : Int)
    (rem : List (Int × Int)) :
    ∀ accum, (advanceMove liveDocs target accum f1 rem).Agree
      (advanceMove liveDocs target accum f2 rem) := by
  induction rem with
  | nil => intro accum; exact ⟨rfl, rfl, rfl, fun h => absurd rfl h⟩
  | cons e rest ih =>
    intro accum
    obtain ⟨delta, f⟩ := e
    simp only [advanceMove]
    split
    · split
      · exact agree_refl _
      · exact agree_shift _ _ (nextMove_agree liveDocs f1 f2 rest _)
    · exact agree_shift _ _ (ih _)

theorem callMove_agree (liveDocs : Option (Int → Bool)) (accum f1 f2 : Int)
    (rem : List (Int × Int)) (c : EnumCall) :
    (callMove liveDocs accum f1 rem c).Agree (callMove liveDocs accum f2 rem c) := by
  cases c with
  | NextDoc => exact nextMove_agree liveDocs f1 f2 rem accum
  | Advance target => exact advanceMove_agree liveDocs target f1 f2 rem accum

theorem callMoves_agree (liveDocs : Option (Int → Bool)) (cs : List EnumCall) :
    ∀ (accum f1 f2 : Int) (rem : List (Int × Int)),
      List.Forall₂ Move.Agree (callMoves liveDocs accum f1 rem cs)
        (callMoves liveDocs accum f2 rem cs) := by
  induction cs with
  | nil => intro accum f1 f2 rem; exact List.Forall₂.nil
  | cons c cs ih =>
    intro accum f1 f2 rem
    have h := callMove_agree liveDocs accum f1 f2 rem c
    simp only [callMoves]
    refine List.Forall₂.cons h ?_
    rw [h.1, h.2.1]
    exact ih _ _ _ _

/-! ### What the moves of a sequence of calls return -/

theorem callMoves_forall (liveDocs : Option (Int → Bool)) (P : Move → Prop)
    (Q : List (Int × Int) → Prop) (hQ : ∀ rem n, Q rem → Q (rem.drop n))
    (hP : ∀ accum freq rem m, Q rem → Move.Ok liveDocs accum freq rem m → P m)
    (cs : List EnumCall) :
    ∀ (accum freq : Int) (rem : List (Int × Int)), Q rem →
      ∀ m ∈ callMoves liveDocs accum freq rem cs, P m := by
  induction cs with
  | nil => intro accum freq rem _ m hm; simp [callMoves] at hm
  | cons c cs ih =>
    intro accum freq rem hq m hm
    simp only [callMoves, List.mem_cons] at hm
    rcases hm with hm | hm
    · rw [hm]
      exact hP accum freq rem _ hq (callMove_ok liveDocs accum freq rem c)
    · exact ih _ _ _ (hQ _ _ hq) m hm

theorem callMoves_nil (liveDocs : Option (Int → Bool)) (cs : List EnumCall) :
    ∀ (accum freq : Int),
      (callMoves liveDocs accum freq [] cs).map Move.doc
        = List.replicate cs.length NO_MORE_DOCS := by
  induction cs with
  | nil => intro accum freq; rfl
  | cons c cs ih =>
    intro accum freq
    have hm : callMove liveDocs accum freq [] c
        = { consumed := 0, accum := accum, doc := NO_MORE_DOCS, freq := freq } := by
      cases c <;> rfl
    simp only [callMoves, hm, List.map_cons, List.drop_nil, List.length_cons,
      List.replicate_succ, ih]

theorem sublist_of_getElem? (l ys : List Int) (i : Nat) (x : Int) (h : l[i]? = some x)
    (hs : ys.Sublist (l.drop (i + 1))) : (x :: ys).Sublist l := by
  induction l generalizing i with
  | nil => simp at h
  | cons a as ih =>
    cases i with
    | zero =>
      simp only [List.getElem?_cons_zero, Option.some.injEq] at h
      subst h
      simpa using hs
    | succ j =>
      simp only [List.getElem?_cons_succ] at h
      simp only [List.drop_succ_cons] at hs
      exact (ih j h hs).cons a

theorem callMoves_docs (liveDocs : Option (Int → Bool)) (cs : List EnumCall) :
    ∀ (accum freq : Int) (rem : List (Int × Int)),
      ∃ yielded k,
        (callMoves liveDocs accum freq rem cs).map Move.doc
          = yielded ++ List.replicate k NO_MORE_DOCS ∧
        yielded.Sublist (docIds accum rem) := by
  induction cs with
  | nil => intro accum freq rem; exact ⟨[], 0, rfl, List.nil_sublist _⟩
  | cons c cs ih =>
    intro accum freq rem
    obtain ⟨hle, hids, hcase⟩ := callMove_ok liveDocs accum freq rem c
    rcases hcase with ⟨hdoc, hcons, _⟩ | ⟨hpos, hid, _, _⟩
    · refine ⟨[], cs.length + 1, ?_, List.nil_sublist _⟩
      simp only [callMoves, List.map_cons, hcons, List.drop_length, callMoves_nil, hdoc,
        List.nil_append, List.replicate_succ]
    · obtain ⟨yielded, k, h1, h2⟩ := ih (callMove liveDocs accum freq rem c).accum
        (callMove liveDocs accum freq rem c).freq
        (rem.drop (callMove liveDocs accum freq rem c).consumed)
      refine ⟨(callMove liveDocs accum freq rem c).doc :: yielded, k, ?_, ?_⟩
      · simp only [callMoves, List.map_cons, h1, List.cons_append]
      · rw [hids] at h2
        apply sublist_of_getElem? _ _ _ _ hid
        have e : (callMove liveDocs accum freq rem c).consumed - 1 + 1
            = (callMove liveDocs accum freq rem c).consumed := by omega
        rw [e]
        exact h2

/-! ### The iteration of an enumerator -/

theorem docIds_length (rem : List (Int × Int)) : ∀ accum, (docIds accum rem).length = rem.length := by
  induction rem with
  | nil => intro accum; rfl
  | cons e rest ih =>
    intro accum
    obtain ⟨delta, f⟩ := e
    simp only [docIds, List.length_cons, ih]

theorem nextDoc_dead_step (de : blockDocsEnum) (delta f : Int) (rest : List (Int × Int))
    (h : Loaded de ((delta, f) :: rest))
    (hdead : ¬ isLive de.liveDocs (wrap64 (de.accum + delta)) = true) :
    de.NextDoc = blockDocsEnum.NextDoc
      { de with accum := wrap64 (de.accum + delta), docUpto := de.docUpto + 1,
                docBufferUpto := de.docBufferUpto + 1 } := by
  obtain ⟨_, _, _, _, hl⟩ := loaded_tail de delta f rest (wrap64 (de.accum + delta)) h
  rw [nextDoc_moves de _ h, nextDoc_moves _ _ hl]
  simp only [nextMove, hdead, if_false, moved_shift]
  rfl

theorem nextDoc_live_step (de : blockDocsEnum) (delta f : Int) (rest : List (Int × Int))
    (h : Loaded de ((delta, f) :: rest))
    (hlive : isLive de.liveDocs (wrap64 (de.accum + delta)) = true) :
    de.NextDoc =
      some { de := de.moved { consumed := 1, accum := wrap64 (de.accum + delta),
                              doc := wrap64 (de.accum + delta), freq := f },
             result := .ok (wrap64 (de.accum + delta), none) } ∧
    Loaded (de.moved { consumed := 1, accum := wrap64 (de.accum + delta),
                       doc := wrap64 (de.accum + delta), freq := f }) rest := by
  constructor
  · rw [nextDoc_moves de _ h]
    simp only [nextMove, hlive, if_true]
  · have := loaded_moved de _
      { consumed := 1, accum := wrap64 (de.accum + delta), doc := wrap64 (de.accum + delta),
        freq := f } h (by simp)
    simpa using this

theorem iterateLoop_loaded (rem : List (Int × Int)) :
    ∀ (de : blockDocsEnum) (fuel : Nat), Loaded de rem → rem.length < fuel →
      (∀ d ∈ docIds de.accum rem, d ≠ NO_MORE_DOCS) →
      de.iterateLoop fuel =
        some ((docIds de.accum rem).filter (isLive de.liveDocs), .ok none) := by
  induction rem with
  | nil =>
    intro de fuel h hfuel _
    cases fuel with
    | zero => simp at hfuel
    | succ fu =>
      rw [blockDocsEnum.iterateLoop, nextDoc_moves de [] h]
      simp [nextMove, docIds]
  | cons e rest ih =>
    intro de fuel h hfuel hids
    obtain ⟨delta, f⟩ := e
    cases fuel with
    | zero => simp at hfuel
    | succ fu =>
      simp only [List.length_cons, Nat.add_lt_add_iff_right] at hfuel
      have hne : wrap64 (de.accum + delta) ≠ NO_MORE_DOCS :=
        hids _ (by simp [docIds])
      have htail : ∀ d ∈ docIds (wrap64 (de.accum + delta)) rest, d ≠ NO_MORE_DOCS :=
        fun d hd => hids d (by simp [docIds, hd])
      by_cases hlive : isLive de.liveDocs (wrap64 (de.accum + delta)) = true
      · obtain ⟨hnext, hl⟩ := nextDoc_live_step de delta f rest h hlive
        rw [blockDocsEnum.iterateLoop, hnext]
        simp only [hne, if_false]
        rw [ih _ fu hl hfuel htail]
        simp [docIds, hlive, blockDocsEnum.moved]
      · obtain ⟨_, _, _, _, hl⟩ := loaded_tail de delta f rest (wrap64 (de.accum + delta)) h
        have hstep : de.iterateLoop (fu + 1) = blockDocsEnum.iterateLoop (fu + 1)
            { de with accum := wrap64 (de.accum + delta), docUpto := de.docUpto + 1,
                      docBufferUpto := de.docBufferUpto + 1 } := by
          rw [blockDocsEnum.iterateLoop, blockDocsEnum.iterateLoop,
            nextDoc_dead_step de delta f rest h hlive]
        rw [hstep, ih _ (fu + 1) hl (by omega) htail]
        simp [docIds, hlive]

theorem fresh_iterate (de : blockDocsEnum) (entries : List (Int × Int)) (h : Fresh de entries)
    (hids : ∀ d ∈ docIds 0 entries, d ≠ NO_MORE_DOCS) :
    de.iterate = some ((docIds 0 entries).filter (isLive de.liveDocs), .ok none) := by
  obtain ⟨hf1, _⟩ := fresh_fuel de entries h
  obtain ⟨ha, _, _, hl, _, _⟩ := h.refillCursor
  have hloaded := iterateLoop_loaded entries de.refillDocs.1 (entries.length + 1) h.loaded
    (by omega) (by rw [ha]; exact hids)
  rw [ha, hl] at hloaded
  unfold blockDocsEnum.iterate
  rw [hf1, ← hloaded, blockDocsEnum.iterateLoop, blockDocsEnum.iterateLoop,
    fresh_nextDoc de entries h]

theorem sample_stored :
    StoredPostings (sampleDocsInput samplePostingsReads) true sampleTerm sampleEntries := by
  unfold StoredPostings
  refine ⟨rfl, ?_⟩
  rw [if_neg (by decide)]
  exact ⟨rfl, [7, 4, 3], [], rfl, by decide⟩

/-- C13: for every enumerator (new or left by earlier terms) and every term with
1 <= docFreq < 128 whose postings are stored (the seek and the reads succeed),
with any live-docs mask: reset returns nil; every call of every sequence of
`NextDoc` and `Advance` calls returns a document and a nil error, and a document
other than NO_MORE_DOCS is never one the mask excludes; and calling `NextDoc`
until it returns NO_MORE_DOCS yields exactly the term's documents that the mask
does not exclude, in order, which are docFreq minus the number of excluded
documents. The buffers hold at least 128 entries and no document of the term is
NO_MORE_DOCS. -/
theorem live_docs_only (de0 : blockDocsEnum) (liveDocs : Option (Int → Bool))
    (ts : intBlockTermState) (flags : Nat) (entries : List (Int × Int)) (cs : List EnumCall)
    (hd : 128 ≤ de0.docDeltaBuffer.length) (hf : 128 ≤ de0.freqBuffer.length)
    (hn : 1 ≤ entries.length) (hsmall : entries.length < 128)
    (hst : StoredPostings de0.startDocIn de0.indexHasFreq ts entries)
    (hids : ∀ d ∈ docIds 0 entries, d ≠ NO_MORE_DOCS) :
    (de0.reset liveDocs ts flags).2 = none ∧
    (∃ de1 records, (de0.reset liveDocs ts flags).1.calls cs = some (de1, records) ∧
      ∀ r ∈ records, ∃ doc, r.result = .ok (doc, none) ∧
        (doc ≠ NO_MORE_DOCS → isLive liveDocs doc = true)) ∧
    (de0.reset liveDocs ts flags).1.iterate
      = some ((docIds 0 entries).filter (isLive liveDocs), .ok none) ∧
    (((docIds 0 entries).filter (isLive liveDocs)).length : Int)
      = ts.DocFreq - ((docIds 0 entries).countP (fun d => !isLive liveDocs d) : Nat) := by
  obtain ⟨hnil, hfresh⟩ := reset_fresh de0 liveDocs ts flags entries hd hf hn hsmall hst
  obtain ⟨hlive, _, _, _⟩ := reset_fields de0 liveDocs ts flags
  refine ⟨hnil, ?_, ?_, ?_⟩
  · obtain ⟨de1, hcalls⟩ := fresh_records _ entries cs hfresh
    rw [hlive] at hcalls
    refine ⟨de1, _, hcalls, ?_⟩
    intro r hr
    obtain ⟨m, hm, rfl⟩ := List.mem_map.1 hr
    refine ⟨m.doc, rfl, ?_⟩
    have := callMoves_forall liveDocs
      (fun m => m.doc ≠ NO_MORE_DOCS → isLive liveDocs m.doc = true) (fun _ => True)
      (fun _ _ _ => trivial)
      (fun accum freq rem m _ hok => by
        rcases hok.2.2 with ⟨hdoc, _, _⟩ | ⟨_, _, hl, _⟩
        · intro hne; exact absurd hdoc hne
        · intro _; exact hl)
      cs 0 _ entries trivial m hm
    exact this
  · have := fresh_iterate _ entries hfresh hids
    rw [hlive] at this
    exact this
  · have hlen := docIds_length entries 0
    have hsum := List.length_eq_countP_add_countP (isLive liveDocs) (docIds 0 entries)
    rw [hst.1, ← List.countP_eq_length_filter]
    have hc : List.countP (fun d => !isLive liveDocs d) (docIds 0 entries)
        = List.countP (fun a => decide ¬isLive liveDocs a = true) (docIds 0 entries) := by
      congr 1
      funext d
      simp
    rw [hc]
    omega

set_option maxRecDepth 8000 in
/-- C13, witness: a new enumerator on a field with frequencies, reset for the term
with the documents 3 and 5 under the mask that excludes 3: the iteration yields
the one document 5. -/
theorem live_docs_only_witness :
    ((newBlockDocsEnum 128 (sampleReader samplePostingsReads) sampleFieldFreqs).reset
      sampleLiveDocs sampleTerm 0).1.iterate = some ([5], .ok none) :=
  (live_docs_only (newBlockDocsEnum 128 (sampleReader samplePostingsReads) sampleFieldFreqs)
    sampleLiveDocs sampleTerm 0 sampleEntries [.NextDoc, .Advance 4]
    (by simp [newBlockDocsEnum]) (by simp [newBlockDocsEnum]) (by decide) (by decide)
    sample_stored (by decide)).2.2.1

/-! ### The order of the documents returned -/

/-- C14: for every enumerator (new or left by earlier terms) and every term with
1 <= docFreq < 128 whose postings are stored, with document ids that are strictly
increasing and none of which is NO_MORE_DOCS, with any live-docs mask: reset
returns nil, and the results of every sequence of `NextDoc` and `Advance` calls
(with any targets) are documents of the term, in the order of the term and
strictly increasing, none of them NO_MORE_DOCS, followed by NO_MORE_DOCS at every
later call; every call returns a nil error. The buffers hold at least 128
entries. -/
theorem yielded_strictly_increasing (de0 : blockDocsEnum) (liveDocs : Option (Int → Bool))
    (ts : intBlockTermState) (flags : Nat) (entries : List (Int × Int)) (cs : List EnumCall)
    (hd : 128 ≤ de0.docDeltaBuffer.length) (hf : 128 ≤ de0.freqBuffer.length)
    (hn : 1 ≤ entries.length) (hsmall : entries.length < 128)
    (hst : StoredPostings de0.startDocIn de0.indexHasFreq ts entries)
    (hinc : (docIds 0 entries).Pairwise (· < ·))
    (hids : ∀ d ∈ docIds 0 entries, d ≠ NO_MORE_DOCS) :
    (de0.reset liveDocs ts flags).2 = none ∧
    ∃ (de1 : blockDocsEnum) (records : List CallRecord) (yielded : List Int) (k : Nat),
      (de0.reset liveDocs ts flags).1.calls cs = some (de1, records) ∧
      records.map (fun r => r.result) =
        yielded.map (fun d => Result.ok (d, none))
          ++ List.replicate k (Result.ok (NO_MORE_DOCS, none)) ∧
      yielded.Sublist (docIds 0 entries) ∧ yielded.Pairwise (· < ·) ∧
      ∀ d ∈ yielded, d ≠ NO_MORE_DOCS := by
  obtain ⟨hnil, hfresh⟩ := reset_fresh de0 liveDocs ts flags entries hd hf hn hsmall hst
  obtain ⟨de1, hcalls⟩ := fresh_records _ entries cs hfresh
  obtain ⟨yielded, k, hdocs, hsub⟩ := callMoves_docs (de0.reset liveDocs ts flags).1.liveDocs cs 0
    (de0.reset liveDocs ts flags).1.freq entries
  refine ⟨hnil, de1, _, yielded, k, hcalls, ?_, hsub, hinc.sublist hsub,
    fun d hmem => hids d (hsub.subset hmem)⟩
  have h := congrArg (List.map (fun d : Int => (Result.ok (d, none) :
    Result (Int × Option String)))) hdocs
  simp only [List.map_map, List.map_append, List.map_replicate] at h ⊢
  exact h

set_option maxRecDepth 8000 in
/-- C14, witness: a new enumerator on a field with frequencies, reset for the term
with the documents 3 and 5, with no mask: the calls `NextDoc`, `Advance(4)`,
`NextDoc`, `Advance(9)` return 3, 5, NO_MORE_DOCS, NO_MORE_DOCS. -/
theorem yielded_strictly_increasing_witness :
    (∃ (de1 : blockDocsEnum) (records : List CallRecord) (yielded : List Int) (k : Nat),
      ((newBlockDocsEnum 128 (sampleReader samplePostingsReads) sampleFieldFreqs).reset
        none sampleTerm 0).1.calls [.NextDoc, .Advance 4, .NextDoc, .Advance 9]
          = some (de1, records) ∧
      records.map (fun r => r.result) =
        yielded.map (fun d => Result.ok (d, none))
          ++ List.replicate k (Result.ok (NO_MORE_DOCS, none)) ∧
      yielded.Sublist (docIds 0 sampleEntries) ∧ yielded.Pairwise (· < ·) ∧
      ∀ d ∈ yielded, d ≠ NO_MORE_DOCS) ∧
    (((newBlockDocsEnum 128 (sampleReader samplePostingsReads) sampleFieldFreqs).reset
        none sampleTerm 0).1.calls [.NextDoc, .Advance 4, .NextDoc, .Advance 9]).map
      (fun p => p.2.map (fun r => r.result))
      = some [.ok (3, none), .ok (5, none), .ok (NO_MORE_DOCS, none),
          .ok (NO_MORE_DOCS, none)] :=
  ⟨(yielded_strictly_increasing
    (newBlockDocsEnum 128 (sampleReader samplePostingsReads) sampleFieldFreqs)
    none sampleTerm 0 sampleEntries [.NextDoc, .Advance 4, .NextDoc, .Advance 9]
    (by simp [newBlockDocsEnum]) (by simp [newBlockDocsEnum]) (by decide) (by decide)
    sample_stored (by decide) (by decide)).2, rfl⟩

/-! ### A field without frequencies -/

theorem decodeVInts_noFreq (k : Nat) :
    ∀ (values : List Int) (entries : List (Int × Int)) (left : List Int),
      decodeVInts false k values = some (entries, left) →
      values = entries.map Prod.fst ++ left ∧ ∀ e ∈ entries, e.2 = 1 := by
  induction k with
  | zero =>
    intro values entries left h
    simp only [decodeVInts, Option.some.injEq, Prod.mk.injEq] at h
    obtain ⟨h1, h2⟩ := h
    subst h1 h2
    simp
  | succ k ih =>
    intro values entries left h
    cases values with
    | nil => simp [decodeVInts] at h
    | cons code values =>
      simp only [decodeVInts, Bool.false_eq_true, if_false] at h
      cases hrec : decodeVInts false k values with
      | none => simp [hrec] at h
      | some r =>
      obtain ⟨es, lf⟩ := r
      simp only [hrec, Option.map_some', Option.some.injEq, Prod.mk.injEq] at h
      obtain ⟨h1, h2⟩ := h
      subst h1 h2
      obtain ⟨hv, hones⟩ := ih values es lf hrec
      refine ⟨by simp [hv], ?_⟩
      intro e he
      simp only [List.mem_cons] at he
      rcases he with he | he
      · rw [he]
      · exact hones e he

theorem map_snd_of_ones (entries : List (Int × Int)) (h : ∀ e ∈ entries, e.2 = 1) :
    entries.map Prod.snd = List.replicate entries.length 1 := by
  induction entries with
  | nil => rfl
  | cons e rest ih =>
    simp only [List.map_cons, List.length_cons, List.replicate_succ]
    rw [h e (by simp), ih (fun e he => h e (by simp [he]))]

theorem reset_freqBuffer (de0 : blockDocsEnum) (liveDocs : Option (Int → Bool))
    (ts : intBlockTermState) (flags : Nat) (hnil : (de0.reset liveDocs ts flags).2 = none) :
    (de0.reset liveDocs ts flags).1.freqBuffer =
      if de0.indexHasFreq then de0.freqBuffer else List.replicate de0.freqBuffer.length 1 := by
  unfold blockDocsEnum.reset at hnil ⊢
  simp only at hnil ⊢
  split
  · rw [if_pos (by assumption)] at hnil
    split
    · next heq => rw [heq] at hnil; simp at hnil
    · cases de0.docIn <;> rfl
  · rfl

set_option maxRecDepth 8000 in
/-- C11, counterexample: a new enumerator on a field without frequencies is reset for
the term whose one document is 7 (docFreq = 1) on a stream that holds values:
`NextDoc` twice returns 7 and then NO_MORE_DOCS, and no value has been read: no
call was made on the stream, which was not even cloned. -/
theorem noFreq_singleton_counterexample :
    ((Lucene41PostingsReader.Docs (sampleReader samplePostingsReads) 128 sampleFieldDocsOnly
      sampleSingletonTerm none none 0).1.calls [.NextDoc, .NextDoc]).map
      (fun p => (p.2.map (fun r => r.result), p.1.streamCalls, p.1.docIn))
      = some ([.ok (7, none), .ok (NO_MORE_DOCS, none)], [], none) := by
  rfl

theorem sample_stored_docsOnly :
    StoredPostings (sampleDocsInput sampleDocsOnlyReads) false sampleTerm
      sampleDocsOnlyEntries := by
  unfold StoredPostings
  refine ⟨rfl, ?_⟩
  rw [if_neg (by decide)]
  exact ⟨rfl, [3, 2], [], rfl, by decide⟩

theorem stored_noFreq_ones (docIn : DocsInput) (ts : intBlockTermState)
    (entries : List (Int × Int)) (hst : StoredPostings docIn false ts entries) :
    ∀ e ∈ entries, e.2 = 1 := by
  obtain ⟨_, hrest⟩ := hst
  by_cases h1 : ts.DocFreq = 1
  · rw [if_pos h1] at hrest
    rw [hrest]
    simp
  · rw [if_neg h1] at hrest
    obtain ⟨_, values, rest, _, hdec⟩ := hrest
    exact (decodeVInts_noFreq _ _ _ _ hdec).2

/-- C11 (amended): for every enumerator of a field that does not index frequencies
(new or left by earlier terms), every term with 1 <= docFreq < 128 whose postings
are stored, every mask and flags (with or without the needs-frequency flag), and
every non-empty sequence of `NextDoc` and `Advance` calls after reset: every call
returns a document and a nil error, and `Freq()` is 1 after every call that
returns a document other than NO_MORE_DOCS. When docFreq = 1 nothing is read: the
stream is as before the reset and no call was made on it. When docFreq >= 2 the
calls read exactly the docFreq values of the term, in one `readVIntBlock`, all of
them as document deltas: the stream is left right behind them and the frequency
buffer holds nothing but the ones reset has put there. The buffers hold at least
128 entries. -/
theorem noFreq_reads_deltas_only (de0 : blockDocsEnum) (liveDocs : Option (Int → Bool))
    (ts : intBlockTermState) (flags : Nat) (entries : List (Int × Int)) (c : EnumCall)
    (cs : List EnumCall) (hno : de0.indexHasFreq = false)
    (hd : 128 ≤ de0.docDeltaBuffer.length) (hf : 128 ≤ de0.freqBuffer.length)
    (hn : 1 ≤ entries.length) (hsmall : entries.length < 128)
    (hst : StoredPostings de0.startDocIn de0.indexHasFreq ts entries) :
    (de0.reset liveDocs ts flags).2 = none ∧
    ∃ (de1 : blockDocsEnum) (records : List CallRecord),
      (de0.reset liveDocs ts flags).1.calls (c :: cs) = some (de1, records) ∧
      (∀ r ∈ records, ∃ doc, r.result = .ok (doc, none) ∧
        (doc ≠ NO_MORE_DOCS → r.freq = 1)) ∧
      (ts.DocFreq = 1 → de1.docIn = de0.docIn ∧ de1.streamCalls = de0.streamCalls) ∧
      (ts.DocFreq ≠ 1 → ∀ (values : List Int) (rest : List (Int × Option String)),
        (de0.startDocIn.atFP ts.docStartFP).reads = values.map (fun v => (v, none)) ++ rest →
        decodeVInts false entries.length values = some (entries, []) →
        (values.length : Int) = ts.DocFreq ∧ de1.docIn = some { reads := rest } ∧
        de1.streamCalls =
          (de0.reset liveDocs ts flags).1.streamCalls ++ [.readVIntBlock ts.DocFreq] ∧
        de1.freqBuffer = List.replicate de0.freqBuffer.length 1) := by
  obtain ⟨hnil, hfresh⟩ := reset_fresh de0 liveDocs ts flags entries hd hf hn hsmall hst
  obtain ⟨de1, rem1, pre, hcalls, _, _, _, hdocIn, hsc, _, hfb, _⟩ :=
    fresh_calls _ entries c cs hfresh
  have hones : ∀ e ∈ entries, e.2 = 1 :=
    stored_noFreq_ones de0.startDocIn ts entries (by rw [← hno]; exact hst)
  refine ⟨hnil, de1, _, hcalls, ?_, ?_, ?_⟩
  · intro r hr
    obtain ⟨m, hm, rfl⟩ := List.mem_map.1 hr
    refine ⟨m.doc, rfl, ?_⟩
    exact callMoves_forall (de0.reset liveDocs ts flags).1.liveDocs
      (fun m => m.doc ≠ NO_MORE_DOCS → m.freq = 1) (fun rem => ∀ e ∈ rem, e.2 = 1)
      (fun rem n hq e he => hq e (List.mem_of_mem_drop he))
      (fun accum freq rem m hq hok => by
        rcases hok.2.2 with ⟨hdoc, _, _⟩ | ⟨_, _, _, hfr⟩
        · intro hne; exact absurd hdoc hne
        · intro _
          have hmem := List.getElem?_mem hfr
          obtain ⟨e, he, hes⟩ := List.mem_map.1 hmem
          rw [← hes]
          exact hq e he)
      (c :: cs) 0 _ entries hones m hm
  · intro h1
    obtain ⟨_, _, _, _, r5, r6⟩ := reset_singleton de0 liveDocs ts flags hd hf h1
    exact ⟨hdocIn.trans r5, hsc.trans r6⟩
  · intro h1 values rest hreads hdec
    have hq := hst.1
    obtain ⟨hv, _⟩ := decodeVInts_noFreq _ _ _ _ hdec
    have hseek := hst.2
    rw [if_neg h1] at hseek
    obtain ⟨_, _, _, r4, r5, r6⟩ := reset_stored de0 liveDocs ts flags entries values rest
      hd hf hq (by omega) hsmall hseek.1 hreads (by rw [hno]; exact hdec)
    refine ⟨?_, hdocIn.trans r4, ?_, ?_⟩
    · rw [hv, hq]
      simp
    · rw [hsc, r5, hq]
    · rw [hfb, r6, reset_freqBuffer de0 liveDocs ts flags hnil, hno, map_snd_of_ones entries hones]
      simp only [Bool.false_eq_true, if_false, List.drop_replicate,
        List.append_replicate_replicate]
      congr 1
      omega

set_option maxRecDepth 8000 in
/-- C11, witness: a new enumerator on a field without frequencies, reset with the
needs-frequency flag for the term with the documents 3 and 5: after `NextDoc`,
`NextDoc`, `NextDoc` the stream has been cloned, positioned at 178 and read once,
for two values, and nothing is left in it. -/
theorem noFreq_reads_deltas_only_witness :
    ∃ (de1 : blockDocsEnum) (records : List CallRecord),
      ((newBlockDocsEnum 128 (sampleReader sampleDocsOnlyReads) sampleFieldDocsOnly).reset
        none sampleTerm DOCS_ENUM_FLAG_FREQS).1.calls [.NextDoc, .NextDoc, .NextDoc]
          = some (de1, records) ∧
      records.map (fun r => r.freq) = [1, 1, 1] ∧
      de1.docIn = some { reads := [] } ∧
      de1.streamCalls = [.clone, .seek 178, .readVIntBlock 2] := by
  obtain ⟨_, de1, records, h1, _, _, h4⟩ := noFreq_reads_deltas_only
    (newBlockDocsEnum 128 (sampleReader sampleDocsOnlyReads) sampleFieldDocsOnly)
    none sampleTerm DOCS_ENUM_FLAG_FREQS sampleDocsOnlyEntries .NextDoc [.NextDoc, .NextDoc]
    rfl (by simp [newBlockDocsEnum]) (by simp [newBlockDocsEnum]) (by decide) (by decide)
    sample_stored_docsOnly
  obtain ⟨_, h5, h6, _⟩ := h4 (by decide) [3, 2] [] rfl (by decide)
  refine ⟨de1, records, h1, ?_, h5, h6⟩
  have h2 : ((newBlockDocsEnum 128 (sampleReader sampleDocsOnlyReads)
      sampleFieldDocsOnly).reset none sampleTerm DOCS_ENUM_FLAG_FREQS).1.calls
        [.NextDoc, .NextDoc, .NextDoc] = some (de1, records) := h1
  have h3 : (((newBlockDocsEnum 128 (sampleReader sampleDocsOnlyReads)
      sampleFieldDocsOnly).reset none sampleTerm DOCS_ENUM_FLAG_FREQS).1.calls
        [.NextDoc, .NextDoc, .NextDoc]).map (fun p => p.2.map (fun r => r.freq))
        = some [1, 1, 1] := rfl
  rw [h2] at h3
  simpa using h3

/-! ### Advance and repeated NextDoc -/

theorem moved_one (de : blockDocsEnum) (a d f : Int) (m : Move) :
    (de.moved { consumed := 1, accum := a, doc := d, freq := f }).moved m = de.moved m.shift := by
  cases de
  simp [blockDocsEnum.moved, Move.shift, Nat.add_assoc, Nat.add_comm 1]

theorem advanceMove_eq_nextMove (liveDocs : Option (Int → Bool)) (target accum freq : Int)
    (rem : List (Int × Int)) (h : ∀ d ∈ docIds accum rem, d ≥ target) :
    advanceMove liveDocs target accum freq rem = nextMove liveDocs accum freq rem := by
  cases rem with
  | nil => rfl
  | cons e rest =>
    obtain ⟨delta, f⟩ := e
    have hge : wrap64 (accum + delta) ≥ target := h _ (by simp [docIds])
    simp only [advanceMove, nextMove, hge, if_true]

theorem advanceMove_cons_skip (liveDocs : Option (Int → Bool)) (target accum freq delta f : Int)
    (rest : List (Int × Int))
    (hinc : (docIds accum ((delta, f) :: rest)).Pairwise (· ≤ ·))
    (h : ¬ (wrap64 (accum + delta) ≥ target) ∨
      ¬ isLive liveDocs (wrap64 (accum + delta)) = true) :
    advanceMove liveDocs target accum freq ((delta, f) :: rest) =
      (advanceMove liveDocs target (wrap64 (accum + delta)) freq rest).shift := by
  by_cases hge : wrap64 (accum + delta) ≥ target
  · have hdead : ¬ isLive liveDocs (wrap64 (accum + delta)) = true := by
      rcases h with h | h
      · exact absurd hge h
      · exact h
    simp only [docIds, List.pairwise_cons] at hinc
    have hall : ∀ d ∈ docIds (wrap64 (accum + delta)) rest, d ≥ target :=
      fun d hmem => le_trans hge (hinc.1 d hmem)
    rw [advanceMove_eq_nextMove liveDocs target _ freq rest hall]
    simp [advanceMove, hge, hdead]
  · simp only [advanceMove, hge, if_false]

theorem nextDocUntilLoop_agrees (target : Int) (htarget : target ≤ NO_MORE_DOCS)
    (rem : List (Int × Int)) :
    ∀ (de : blockDocsEnum) (fuel : Nat), Loaded de rem → rem.length < fuel →
      (docIds de.accum rem).Pairwise (· ≤ ·) →
      ∃ m : Move,
        blockDocsEnum.nextDocUntilLoop target fuel de =
          some { de := de.moved m, result := .ok (m.doc, none) } ∧
        m.Agree (advanceMove de.liveDocs target de.accum de.freq rem) := by
  induction rem with
  | nil =>
    intro de fuel h hfuel _
    cases fuel with
    | zero => simp at hfuel
    | succ fu =>
      refine ⟨nextMove de.liveDocs de.accum de.freq [], ?_, agree_refl _⟩
      rw [blockDocsEnum.nextDocUntilLoop, nextDoc_moves de [] h]
      simp [nextMove]
  | cons e rest ih =>
    intro de fuel h hfuel hinc
    obtain ⟨delta, f⟩ := e
    cases fuel with
    | zero => simp at hfuel
    | succ fu =>
      simp only [List.length_cons, Nat.add_lt_add_iff_right] at hfuel
      have htail : (docIds (wrap64 (de.accum + delta)) rest).Pairwise (· ≤ ·) := by
        simp only [docIds, List.pairwise_cons] at hinc
        exact hinc.2
      by_cases hlive : isLive de.liveDocs (wrap64 (de.accum + delta)) = true
      · obtain ⟨hnext, hl⟩ := nextDoc_live_step de delta f rest h hlive
        by_cases hstop : wrap64 (de.accum + delta) ≥ target ∨
            wrap64 (de.accum + delta) = NO_MORE_DOCS
        · have hge : wrap64 (de.accum + delta) ≥ target := by
            rcases hstop with hs | hs
            · exact hs
            · rw [hs]; exact htarget
          refine ⟨{ consumed := 1, accum := wrap64 (de.accum + delta),
                    doc := wrap64 (de.accum + delta), freq := f }, ?_, ?_⟩
          · rw [blockDocsEnum.nextDocUntilLoop, hnext]
            simp only [hstop, if_true]
          · simp only [advanceMove, hge, hlive, if_true]
            exact agree_refl _
        · have hlt : ¬ (wrap64 (de.accum + delta) ≥ target) := fun hge => hstop (Or.inl hge)
          obtain ⟨m, hm1, hm2⟩ := ih _ fu hl hfuel htail
          refine ⟨m.shift, ?_, ?_⟩
          · rw [blockDocsEnum.nextDocUntilLoop, hnext]
            simp only [hstop, if_false]
            rw [hm1, moved_one]
            rfl
          · rw [advanceMove_cons_skip de.liveDocs target de.accum de.freq delta f rest hinc
              (Or.inl hlt)]
            exact agree_shift _ _ (agree_trans _ _ _ hm2
              (advanceMove_agree de.liveDocs target f de.freq rest _))
      · obtain ⟨_, _, _, _, hl⟩ := loaded_tail de delta f rest (wrap64 (de.accum + delta)) h
        obtain ⟨m, hm1, hm2⟩ := ih _ (fu + 1) hl (by omega) htail
        refine ⟨m.shift, ?_, ?_⟩
        · have hstep : blockDocsEnum.nextDocUntilLoop target (fu + 1) de =
              blockDocsEnum.nextDocUntilLoop target (fu + 1)
                { de with accum := wrap64 (de.accum + delta), docUpto := de.docUpto + 1,
                          docBufferUpto := de.docBufferUpto + 1 } := by
            rw [blockDocsEnum.nextDocUntilLoop, blockDocsEnum.nextDocUntilLoop,
              nextDoc_dead_step de delta f rest h hlive]
          rw [hstep, hm1, moved_shift]
          rfl
        · rw [advanceMove_cons_skip de.liveDocs target de.accum de.freq delta f rest hinc
            (Or.inr hlive)]
          exact agree_shift _ _ hm2

theorem find?_congr_mem (p q : Int → Bool) (l : List Int) (h : ∀ d ∈ l, p d = q d) :
    l.find? p = l.find? q := by
  induction l with
  | nil => rfl
  | cons a as ih =>
    simp only [List.find?_cons, h a (by simp)]
    rw [ih (fun d hmem => h d (by simp [hmem]))]

theorem nextMove_doc (liveDocs : Option (Int → Bool)) (freq : Int) (rem : List (Int × Int)) :
    ∀ accum, (nextMove liveDocs accum freq rem).doc
      = ((docIds accum rem).find? (isLive liveDocs)).getD NO_MORE_DOCS := by
  induction rem with
  | nil => intro accum; rfl
  | cons e rest ih =>
    intro accum
    obtain ⟨delta, f⟩ := e
    by_cases hlive : isLive liveDocs (wrap64 (accum + delta)) = true
    · simp [nextMove, docIds, hlive]
    · have hdead : isLive liveDocs (wrap64 (accum + delta)) = false := by simpa using hlive
      simp only [nextMove, docIds, hdead, List.find?_cons, Bool.false_eq_true, if_false]
      exact ih _

theorem advanceMove_doc (liveDocs : Option (Int → Bool)) (target freq : Int)
    (rem : List (Int × Int)) :
    ∀ accum, (docIds accum rem).Pairwise (· ≤ ·) →
      (advanceMove liveDocs target accum freq rem).doc
        = ((docIds accum rem).find? (fun d => decide (d ≥ target) && isLive liveDocs d)).getD
            NO_MORE_DOCS := by
  induction rem with
  | nil => intro accum _; rfl
  | cons e rest ih =>
    intro accum hinc
    obtain ⟨delta, f⟩ := e
    have hinc2 := hinc
    simp only [docIds, List.pairwise_cons] at hinc2
    by_cases hge : wrap64 (accum + delta) ≥ target
    · by_cases hlive : isLive liveDocs (wrap64 (accum + delta)) = true
      · simp [advanceMove, docIds, hge, hlive]
      · have hdead : isLive liveDocs (wrap64 (accum + delta)) = false := by simpa using hlive
        have hall : ∀ d ∈ docIds (wrap64 (accum + delta)) rest,
            (decide (d ≥ target) && isLive liveDocs d) = isLive liveDocs d := by
          intro d hmem
          have : d ≥ target := le_trans hge (hinc2.1 d hmem)
          simp [this]
        simp only [advanceMove, docIds, hge, hdead, List.find?_cons, Bool.and_false,
          Bool.false_eq_true, if_true, if_false]
        rw [find?_congr_mem _ _ _ hall]
        exact nextMove_doc liveDocs freq rest _
    · have hnot : decide (wrap64 (accum + delta) ≥ target) = false := by simpa using hge
      simp only [advanceMove, docIds, hge, hnot, List.find?_cons, Bool.false_and,
        Bool.false_eq_true, if_false]
      exact ih _ hinc2.2

theorem fresh_nextDocUntil (de : blockDocsEnum) (entries : List (Int × Int)) (target : Int)
    (h : Fresh de entries) : de.nextDocUntil target = de.refillDocs.1.nextDocUntil target := by
  obtain ⟨hf1, hf2⟩ := fresh_fuel de entries h
  unfold blockDocsEnum.nextDocUntil
  rw [hf1, hf2, blockDocsEnum.nextDocUntilLoop, blockDocsEnum.nextDocUntilLoop,
    fresh_nextDoc de entries h]

theorem calls_loaded_drop (cs : List EnumCall) :
    ∀ (de : blockDocsEnum) (rem : List (Int × Int)), Loaded de rem →
      ∃ (de1 : blockDocsEnum) (records : List CallRecord) (k : Nat),
        de.calls cs = some (de1, records) ∧ Loaded de1 (rem.drop k) ∧
        de1.docUpto = de.docUpto + k ∧
        docIds de1.accum (rem.drop k) = (docIds de.accum rem).drop k ∧
        de1.liveDocs = de.liveDocs := by
  induction cs with
  | nil =>
    intro de rem h
    exact ⟨de, [], 0, rfl, by simpa using h, rfl, by simp, rfl⟩
  | cons c cs ih =>
    intro de rem h
    have hok := callMove_ok de.liveDocs de.accum de.freq rem c
    have hl := loaded_moved de rem _ h hok.1
    obtain ⟨de1, records, k, h1, h2, h3, h4, h5⟩ := ih _ _ hl
    refine ⟨de1, (callMove de.liveDocs de.accum de.freq rem c).record :: records,
      (callMove de.liveDocs de.accum de.freq rem c).consumed + k, ?_, ?_, ?_, ?_, h5⟩
    · rw [blockDocsEnum.calls, call_moves de rem c h]
      simp only [h1]
      rfl
    · rw [← List.drop_drop]
      exact h2
    · rw [h3]
      simp only [blockDocsEnum.moved]
      omega
    · rw [← List.drop_drop, ← List.drop_drop, h4]
      have := hok.2.1
      simp only [blockDocsEnum.moved] at this ⊢
      rw [this]

theorem reached_loaded (de0 : blockDocsEnum) (entries : List (Int × Int)) (cs : List EnumCall)
    (h : Fresh de0 entries) :
    ∃ (de : blockDocsEnum) (records : List CallRecord) (de1 : blockDocsEnum),
      de0.calls cs = some (de, records) ∧ Loaded de1 (entries.drop de.docUpto) ∧
      (∀ target, de.Advance target = de1.Advance target) ∧
      (∀ target, de.nextDocUntil target = de1.nextDocUntil target) ∧
      de1.liveDocs = de0.liveDocs ∧ de1.docUpto = de.docUpto ∧ de1.accum = de.accum ∧
      de1.freq = de.freq ∧
      docIds de1.accum (entries.drop de.docUpto) = (docIds 0 entries).drop de.docUpto := by
  obtain ⟨ha, hfq, _, hl, _, _⟩ := h.refillCursor
  cases cs with
  | nil =>
    refine ⟨de0, [], de0.refillDocs.1, rfl, ?_,
      fun target => (fresh_advance de0 entries target h).symm ▸ rfl,
      fun target => (fresh_nextDocUntil de0 entries target h).symm ▸ rfl, hl,
      by rw [h.docUpto, h.refillUpto.2], by rw [ha, h.accum], hfq, ?_⟩
    · rw [h.docUpto, List.drop_zero]
      exact h.loaded
    · rw [ha, h.docUpto, List.drop_zero, List.drop_zero]
  | cons c cs =>
    obtain ⟨de1, records, k, h1, h2, h3, h4, h5⟩ :=
      calls_loaded_drop (c :: cs) de0.refillDocs.1 entries h.loaded
    rw [h.refillUpto.2, Nat.zero_add] at h3
    rw [ha] at h4
    rw [← h3] at h2 h4
    exact ⟨de1, records, de1, by rw [fresh_calls_cons de0 entries c cs h, h1], h2,
      fun _ => rfl, fun _ => rfl, h5.trans hl, rfl, rfl, rfl, h4⟩

theorem nextMove_exhausts (liveDocs : Option (Int → Bool)) (freq : Int)
    (rem : List (Int × Int)) :
    ∀ accum, (∀ d ∈ docIds accum rem, isLive liveDocs d = false) →
      (nextMove liveDocs accum freq rem).freq = freq := by
  induction rem with
  | nil => intro accum _; rfl
  | cons e rest ih =>
    intro accum hdead
    obtain ⟨delta, f⟩ := e
    have h1 : isLive liveDocs (wrap64 (accum + delta)) = false := hdead _ (by simp [docIds])
    simp only [nextMove, h1, Bool.false_eq_true, if_false]
    exact ih _ (fun d hmem => hdead d (by simp [docIds, hmem]))

theorem advanceMove_exhausts (liveDocs : Option (Int → Bool)) (target freq : Int)
    (rem : List (Int × Int)) :
    ∀ accum, (docIds accum rem).Pairwise (· ≤ ·) →
      (∀ d ∈ docIds accum rem, ¬ (d ≥ target ∧ isLive liveDocs d = true)) →
      (advanceMove liveDocs target accum freq rem).freq = freq := by
  induction rem with
  | nil => intro accum _ _; rfl
  | cons e rest ih =>
    intro accum hinc hnone
    obtain ⟨delta, f⟩ := e
    have hinc2 := hinc
    simp only [docIds, List.pairwise_cons] at hinc2
    have htail : ∀ d ∈ docIds (wrap64 (accum + delta)) rest,
        ¬ (d ≥ target ∧ isLive liveDocs d = true) :=
      fun d hmem => hnone d (by simp [docIds, hmem])
    by_cases hge : wrap64 (accum + delta) ≥ target
    · have hdead : isLive liveDocs (wrap64 (accum + delta)) = false := by
        have := hnone (wrap64 (accum + delta)) (by simp [docIds])
        simpa [hge] using this
      have hall : ∀ d ∈ docIds (wrap64 (accum + delta)) rest, isLive liveDocs d = false := by
        intro d hmem
        have hd : d ≥ target := le_trans hge (hinc2.1 d hmem)
        have := htail d hmem
        simpa [hd] using this
      simp only [advanceMove, hge, hdead, if_true, Bool.false_eq_true, if_false]
      exact nextMove_exhausts liveDocs freq rest _ hall
    · simp only [advanceMove, hge, if_false]
      exact ih _ hinc2.2 htail

theorem nextDocUntilLoop_exhausts (target : Int) (htarget : target ≤ NO_MORE_DOCS)
    (rem : List (Int × Int)) :
    ∀ (de : blockDocsEnum) (fuel : Nat), Loaded de rem → rem.length < fuel →
      (∀ d ∈ docIds de.accum rem, isLive de.liveDocs d = true → d < target) →
      ∃ m : Move,
        blockDocsEnum.nextDocUntilLoop target fuel de =
          some { de := de.moved m, result := .ok (m.doc, none) } ∧
        m.freq = lastFreq de.liveDocs de.accum de.freq rem := by
  induction rem with
  | nil =>
    intro de fuel h hfuel _
    cases fuel with
    | zero => simp at hfuel
    | succ fu =>
      refine ⟨nextMove de.liveDocs de.accum de.freq [], ?_, rfl⟩
      rw [blockDocsEnum.nextDocUntilLoop, nextDoc_moves de [] h]
      simp [nextMove]
  | cons e rest ih =>
    intro de fuel h hfuel hbelow
    obtain ⟨delta, f⟩ := e
    cases fuel with
    | zero => simp at hfuel
    | succ fu =>
      simp only [List.length_cons, Nat.add_lt_add_iff_right] at hfuel
      have htail : ∀ d ∈ docIds (wrap64 (de.accum + delta)) rest,
          isLive de.liveDocs d = true → d < target :=
        fun d hmem => hbelow d (by simp [docIds, hmem])
      by_cases hlive : isLive de.liveDocs (wrap64 (de.accum + delta)) = true
      · obtain ⟨hnext, hl⟩ := nextDoc_live_step de delta f rest h hlive
        have hlt : wrap64 (de.accum + delta) < target := hbelow _ (by simp [docIds]) hlive
        have hstop : ¬ (wrap64 (de.accum + delta) ≥ target ∨
            wrap64 (de.accum + delta) = NO_MORE_DOCS) := by
          intro hcon
          rcases hcon with hc | hc
          · omega
          · rw [hc] at hlt; omega
        obtain ⟨m, hm1, hm2⟩ := ih _ fu hl hfuel htail
        refine ⟨m.shift, ?_, ?_⟩
        · rw [blockDocsEnum.nextDocUntilLoop, hnext]
          simp only [hstop, if_false]
          rw [hm1, moved_one]
          rfl
        · simp only [lastFreq, hlive, if_true]
          exact hm2
      · obtain ⟨_, _, _, _, hl⟩ := loaded_tail de delta f rest (wrap64 (de.accum + delta)) h
        obtain ⟨m, hm1, hm2⟩ := ih _ (fu + 1) hl (by omega) htail
        refine ⟨m.shift, ?_, ?_⟩
        · have hstep : blockDocsEnum.nextDocUntilLoop target (fu + 1) de =
              blockDocsEnum.nextDocUntilLoop target (fu + 1)
                { de with accum := wrap64 (de.accum + delta), docUpto := de.docUpto + 1,
                          docBufferUpto := de.docBufferUpto + 1 } := by
            rw [blockDocsEnum.nextDocUntilLoop, blockDocsEnum.nextDocUntilLoop,
              nextDoc_dead_step de delta f rest h hlive]
          rw [hstep, hm1, moved_shift]
          rfl
        · simp only [lastFreq, hlive, if_false]
          exact hm2

set_option maxRecDepth 8000 in
/-- C15, counterexample: a new enumerator is reset, with no mask, for the stored term
with the documents 3 and 5, of frequencies 1 and 3. `Advance(10)` right after the
reset and `NextDoc` repeated until it returns NO_MORE_DOCS both return
NO_MORE_DOCS and leave doc, accum, docUpto and docBufferUpto at NO_MORE_DOCS, 5, 2
and 2, but `Advance` leaves `freq` at 0, as it was, where the repeated `NextDoc`
leaves it at 3, the frequency of the last document it went through. -/
theorem advance_freq_counterexample :
    ((Lucene41PostingsReader.Docs (sampleReader samplePostingsReads) 128 sampleFieldFreqs
        sampleTerm none none 0).1.Advance 10).map
      (fun o => (o.result, o.de.doc, o.de.freq, o.de.accum, o.de.docUpto, o.de.docBufferUpto))
      = some (.ok (NO_MORE_DOCS, none), NO_MORE_DOCS, 0, 5, 2, 2) ∧
    ((Lucene41PostingsReader.Docs (sampleReader samplePostingsReads) 128 sampleFieldFreqs
        sampleTerm none none 0).1.nextDocUntil 10).map
      (fun o => (o.result, o.de.doc, o.de.freq, o.de.accum, o.de.docUpto, o.de.docBufferUpto))
      = some (.ok (NO_MORE_DOCS, none), NO_MORE_DOCS, 3, 5, 2, 2) :=
  ⟨rfl, rfl⟩

/-- C15 (amended): for every enumerator (new or left by earlier terms), every term
with 1 <= docFreq < 128 whose postings are stored with document ids that do not
decrease, every mask, every state reached from reset by a sequence of `NextDoc`
and `Advance` calls and every target that is at most NO_MORE_DOCS:
`Advance(target)` and `NextDoc` repeated until it returns a document that is not
below the target, or NO_MORE_DOCS, both return, return the same document and nil
error, and leave the same doc, accum, docUpto and docBufferUpto, and the same
`freq` when the document they return is not NO_MORE_DOCS; the document returned
is the first one, among those of the term not yet passed, that is not below the
target and that the mask does not exclude, or NO_MORE_DOCS when there is none.
When there is none, `Advance` leaves `freq` as it was before the call, and the
repeated `NextDoc` leaves in `freq` the frequency of the last document not yet
passed that the mask does not exclude, or `freq` as it was when every such
document is excluded. The buffers hold at least 128 entries. -/
theorem advance_as_repeated_nextDoc (de0 : blockDocsEnum) (liveDocs : Option (Int → Bool))
    (ts : intBlockTermState) (flags : Nat) (entries : List (Int × Int)) (cs : List EnumCall)
    (target : Int)
    (hd : 128 ≤ de0.docDeltaBuffer.length) (hf : 128 ≤ de0.freqBuffer.length)
    (hn : 1 ≤ entries.length) (hsmall : entries.length < 128)
    (hst : StoredPostings de0.startDocIn de0.indexHasFreq ts entries)
    (hinc : (docIds 0 entries).Pairwise (· ≤ ·)) (htarget : target ≤ NO_MORE_DOCS) :
    ∃ (de : blockDocsEnum) (records : List CallRecord) (o1 o2 : EnumOutcome),
      (de0.reset liveDocs ts flags).1.calls cs = some (de, records) ∧
      de.Advance target = some o1 ∧ de.nextDocUntil target = some o2 ∧
      o1.result = o2.result ∧ o1.de.doc = o2.de.doc ∧ o1.de.accum = o2.de.accum ∧
      o1.de.docUpto = o2.de.docUpto ∧ o1.de.docBufferUpto = o2.de.docBufferUpto ∧
      (o1.de.doc ≠ NO_MORE_DOCS → o1.de.freq = o2.de.freq) ∧
      o1.result = .ok (o1.de.doc, none) ∧
      o1.de.doc = (((docIds 0 entries).drop de.docUpto).find?
        (fun d => decide (d ≥ target) && isLive liveDocs d)).getD NO_MORE_DOCS ∧
      (((docIds 0 entries).drop de.docUpto).find?
          (fun d => decide (d ≥ target) && isLive liveDocs d) = none →
        o1.de.freq = de.freq ∧
        o2.de.freq = lastFreq liveDocs de.accum de.freq (entries.drop de.docUpto)) := by
  obtain ⟨_, hfresh⟩ := reset_fresh de0 liveDocs ts flags entries hd hf hn hsmall hst
  obtain ⟨hlive, _, _, _⟩ := reset_fields de0 liveDocs ts flags
  obtain ⟨de, records, de1, hcalls, hl, hadv, huntil, hl1, hupto, hacc, hfreq, hrem⟩ :=
    reached_loaded _ entries cs hfresh
  have hll : de1.liveDocs = liveDocs := hl1.trans hlive
  have hsorted : (docIds de1.accum (entries.drop de.docUpto)).Pairwise (· ≤ ·) := by
    rw [hrem]
    exact hinc.sublist (List.drop_sublist _ _)
  have hfuel : (entries.drop de.docUpto).length < de1.fuel := by
    unfold blockDocsEnum.fuel
    rw [hl.docFreq]
    push_cast
    omega
  obtain ⟨m, hm1, hm2, hm3, hm4, hm5⟩ :=
    nextDocUntilLoop_agrees target htarget _ de1 de1.fuel hl hfuel hsorted
  have hdoc := advanceMove_doc de1.liveDocs target de1.freq _ de1.accum hsorted
  rw [hrem] at hdoc
  refine ⟨de, records, _, _, hcalls, (hadv target).trans (advance_moves de1 _ target hl),
    (huntil target).trans hm1, ?_, hm4.symm, hm3.symm, ?_, ?_, ?_, rfl,
    by rw [← hll]; exact hdoc, ?_⟩
  · simp only [hm4]
  · simp only [blockDocsEnum.moved, hm2, hupto]
  · simp only [blockDocsEnum.moved, hm2]
  · intro hne
    simp only [blockDocsEnum.moved] at hne ⊢
    exact (hm5 (by rw [hm4]; exact hne)).symm
  · intro hnone
    rw [List.find?_eq_none] at hnone
    rw [← hrem, ← hll] at hnone
    have hnone2 : ∀ d ∈ docIds de1.accum (entries.drop de.docUpto),
        ¬ (d ≥ target ∧ isLive de1.liveDocs d = true) := by
      intro d hmem hcon
      exact hnone d hmem (by simp [hcon.1, hcon.2])
    have hbelow : ∀ d ∈ docIds de1.accum (entries.drop de.docUpto),
        isLive de1.liveDocs d = true → d < target := by
      intro d hmem hlv
      by_contra hge
      exact hnone2 d hmem ⟨by omega, hlv⟩
    obtain ⟨m2, hk1, hk2⟩ :=
      nextDocUntilLoop_exhausts target htarget _ de1 de1.fuel hl hfuel hbelow
    have hsame : de1.moved m = de1.moved m2 := by
      have := hm1.symm.trans hk1
      simp only [Option.some.injEq, EnumOutcome.mk.injEq] at this
      exact this.1
    have hmf : m.freq = m2.freq := congrArg blockDocsEnum.freq hsame
    constructor
    · have := advanceMove_exhausts de1.liveDocs target de1.freq _ de1.accum hsorted hnone2
      simp only [blockDocsEnum.moved]
      rw [this, hfreq]
    · simp only [blockDocsEnum.moved]
      rw [hmf, hk2, hll, hacc, hfreq]

set_option maxRecDepth 8000 in
/-- C15, witness: a new enumerator on a field with frequencies, reset with no mask
for the term with the documents 3 and 5; in the state after one `NextDoc`,
`Advance(4)` and the repeated `NextDoc` return the document 5 and leave its
frequency 3. -/
theorem advance_as_repeated_nextDoc_witness :
    (∃ (de : blockDocsEnum) (records : List CallRecord) (o1 o2 : EnumOutcome),
      ((newBlockDocsEnum 128 (sampleReader samplePostingsReads) sampleFieldFreqs).reset
        none sampleTerm 0).1.calls [.NextDoc] = some (de, records) ∧
      de.Advance 4 = some o1 ∧ de.nextDocUntil 4 = some o2 ∧
      o1.result = o2.result ∧ o1.de.doc = o2.de.doc ∧ o1.de.accum = o2.de.accum ∧
      o1.de.docUpto = o2.de.docUpto ∧ o1.de.docBufferUpto = o2.de.docBufferUpto ∧
      (o1.de.doc ≠ NO_MORE_DOCS → o1.de.freq = o2.de.freq) ∧
      o1.result = .ok (o1.de.doc, none) ∧
      o1.de.doc = (((docIds 0 sampleEntries).drop de.docUpto).find?
        (fun d => decide (d ≥ 4) && isLive none d)).getD NO_MORE_DOCS ∧
      (((docIds 0 sampleEntries).drop de.docUpto).find?
          (fun d => decide (d ≥ 4) && isLive none d) = none →
        o1.de.freq = de.freq ∧
        o2.de.freq = lastFreq none de.accum de.freq (sampleEntries.drop de.docUpto))) ∧
    ((((newBlockDocsEnum 128 (sampleReader samplePostingsReads) sampleFieldFreqs).reset
        none sampleTerm 0).1.calls [.NextDoc]).bind (fun p => p.1.Advance 4)).map
      (fun o => (o.result, o.de.freq)) = some (.ok (5, none), 3) :=
  ⟨advance_as_repeated_nextDoc
    (newBlockDocsEnum 128 (sampleReader samplePostingsReads) sampleFieldFreqs)
    none sampleTerm 0 sampleEntries [.NextDoc] 4
    (by simp [newBlockDocsEnum]) (by simp [newBlockDocsEnum]) (by decide) (by decide)
    sample_stored (by decide) (by decide), rfl⟩

/-! ### Reuse of an enumerator -/

theorem canReuse_iff (v : blockDocsEnum) (docIn : DocsInput) (fieldInfo : FieldInfo) :
    v.canReuse docIn fieldInfo = true ↔
      docIn.id = v.startDocIn.id ∧
      v.indexHasFreq = decide (fieldInfo.indexOptions ≥ INDEX_OPT_DOCS_AND_FREQS) ∧
      v.indexHasPos
        = decide (fieldInfo.indexOptions ≥ INDEX_OPT_DOCS_AND_FREQS_AND_POSITIONS) ∧
      v.indexHasPayloads = fieldInfo.hasPayloads := by
  unfold blockDocsEnum.canReuse
  simp only [Bool.and_eq_true, decide_eq_true_eq, beq_iff_eq, and_assoc]

theorem docs_fresh (r : Lucene41PostingsReader) (maxDataSize : Nat) (fieldInfo : FieldInfo)
    (ts : intBlockTermState) (liveDocs : Option (Int → Bool)) (reuse : Option blockDocsEnum)
    (flags : Nat) (entries : List (Int × Int)) (hmax : 128 ≤ maxDataSize)
    (hreuse : ∀ v, reuse = some v →
      128 ≤ v.docDeltaBuffer.length ∧ 128 ≤ v.freqBuffer.length ∧
      (r.docIn.id = v.startDocIn.id → v.startDocIn = r.docIn))
    (hn : 1 ≤ entries.length) (hsmall : entries.length < 128)
    (hst : StoredPostings r.docIn (decide (fieldInfo.indexOptions ≥ INDEX_OPT_DOCS_AND_FREQS))
      ts entries) :
    (r.Docs maxDataSize fieldInfo ts liveDocs reuse flags).2 = none ∧
    Fresh (r.Docs maxDataSize fieldInfo ts liveDocs reuse flags).1 entries ∧
    (r.Docs maxDataSize fieldInfo ts liveDocs reuse flags).1.liveDocs = liveDocs := by
  have hnew : ∀ l : Option (Int → Bool),
      ((newBlockDocsEnum maxDataSize r fieldInfo).reset l ts flags).2 = none ∧
      Fresh ((newBlockDocsEnum maxDataSize r fieldInfo).reset l ts flags).1 entries := by
    intro l
    exact reset_fresh (newBlockDocsEnum maxDataSize r fieldInfo) l ts flags entries
      (by simp only [newBlockDocsEnum, List.length_replicate]; exact hmax)
      (by simp only [newBlockDocsEnum, List.length_replicate]; exact hmax) hn hsmall hst
  unfold Lucene41PostingsReader.Docs
  cases reuse with
  | none =>
    exact ⟨(hnew liveDocs).1, (hnew liveDocs).2, (reset_fields _ liveDocs ts flags).1⟩
  | some v =>
    simp only
    by_cases hcan : v.canReuse r.docIn fieldInfo = true
    · rw [if_pos hcan]
      obtain ⟨hvd, hvf, hsame⟩ := hreuse v rfl
      obtain ⟨h1, h2, _, _⟩ := (canReuse_iff v r.docIn fieldInfo).1 hcan
      have hst2 : StoredPostings v.startDocIn v.indexHasFreq ts entries := by
        rw [hsame h1, h2]
        exact hst
      obtain ⟨k1, k2⟩ := reset_fresh v liveDocs ts flags entries hvd hvf hn hsmall hst2
      exact ⟨k1, k2, (reset_fields _ liveDocs ts flags).1⟩
    · rw [if_neg hcan]
      exact ⟨(hnew liveDocs).1, (hnew liveDocs).2, (reset_fields _ liveDocs ts flags).1⟩

/-- C20: for every reader whose buffers hold at least 128 entries, every field, every
term with 1 <= docFreq < 128 whose postings are stored (the seek and the reads
succeed), every mask and flags, and every reuse enumerator left in any state by
earlier terms: `Docs` with the reuse enumerator and `Docs` with none both return
nil, and for every sequence of `NextDoc` and `Advance` calls the two enumerators
return the same results, call by call, every one a document with a nil error, and
`Freq()` is the same after every call that returns a document other than
NO_MORE_DOCS: the two produce the same sequence of (document id, frequency)
results. `Docs` resets the reuse enumerator in place when `canReuse` holds and a
new enumerator otherwise, and `canReuse` holds exactly when the enumerator was
created on the reader's document stream with the has-freq, has-positions and
has-payloads flags of the field. -/
theorem docs_reuse_equivalent (r : Lucene41PostingsReader) (maxDataSize : Nat)
    (fieldInfo : FieldInfo) (ts : intBlockTermState) (liveDocs : Option (Int → Bool))
    (v : blockDocsEnum) (flags : Nat) (entries : List (Int × Int)) (cs : List EnumCall)
    (hmax : 128 ≤ maxDataSize)
    (hvd : 128 ≤ v.docDeltaBuffer.length) (hvf : 128 ≤ v.freqBuffer.length)
    (hsame : r.docIn.id = v.startDocIn.id → v.startDocIn = r.docIn)
    (hn : 1 ≤ entries.length) (hsmall : entries.length < 128)
    (hst : StoredPostings r.docIn (decide (fieldInfo.indexOptions ≥ INDEX_OPT_DOCS_AND_FREQS))
      ts entries) :
    (r.Docs maxDataSize fieldInfo ts liveDocs (some v) flags).2 = none ∧
    (r.Docs maxDataSize fieldInfo ts liveDocs none flags).2 = none ∧
    (∃ (de1 de2 : blockDocsEnum) (records1 records2 : List CallRecord),
      (r.Docs maxDataSize fieldInfo ts liveDocs (some v) flags).1.calls cs
        = some (de1, records1) ∧
      (r.Docs maxDataSize fieldInfo ts liveDocs none flags).1.calls cs
        = some (de2, records2) ∧
      List.Forall₂ (fun a b : CallRecord => a.result = b.result ∧
        ∃ doc, a.result = .ok (doc, none) ∧ (doc ≠ NO_MORE_DOCS → a.freq = b.freq))
        records1 records2) ∧
    r.Docs maxDataSize fieldInfo ts liveDocs (some v) flags =
      (if v.canReuse r.docIn fieldInfo then v
        else newBlockDocsEnum maxDataSize r fieldInfo).reset liveDocs ts flags ∧
    (v.canReuse r.docIn fieldInfo = true ↔
      r.docIn.id = v.startDocIn.id ∧
      v.indexHasFreq = decide (fieldInfo.indexOptions ≥ INDEX_OPT_DOCS_AND_FREQS) ∧
      v.indexHasPos
        = decide (fieldInfo.indexOptions ≥ INDEX_OPT_DOCS_AND_FREQS_AND_POSITIONS) ∧
      v.indexHasPayloads = fieldInfo.hasPayloads) := by
  obtain ⟨a1, a2, a3⟩ := docs_fresh r maxDataSize fieldInfo ts liveDocs (some v) flags entries
    hmax (fun w hw => by
      simp only [Option.some.injEq] at hw
      subst hw
      exact ⟨hvd, hvf, hsame⟩) hn hsmall hst
  obtain ⟨b1, b2, b3⟩ := docs_fresh r maxDataSize fieldInfo ts liveDocs none flags entries
    hmax (fun w hw => by simp at hw) hn hsmall hst
  obtain ⟨de1, h1⟩ := fresh_records _ entries cs a2
  obtain ⟨de2, h2⟩ := fresh_records _ entries cs b2
  rw [a3] at h1
  rw [b3] at h2
  refine ⟨a1, b1, ⟨de1, de2, _, _, h1, h2, ?_⟩, rfl, canReuse_iff v r.docIn fieldInfo⟩
  rw [List.forall₂_map_left_iff, List.forall₂_map_right_iff]
  refine List.Forall₂.imp ?_ (callMoves_agree liveDocs cs 0 _ _ entries)
  intro m1 m2 hag
  obtain ⟨_, _, g3, g4⟩ := hag
  refine ⟨by simp only [Move.record, g3], m1.doc, rfl, ?_⟩
  intro hne
  exact g4 hne

set_option maxRecDepth 8000 in
/-- C20, witness: a reuse enumerator that has returned the document 7 with the
frequency 5 for an earlier term, and a new enumerator, for the term with the
documents 3 and 5 on the stream whose reads succeed: `NextDoc` three times
returns 3, 5 and NO_MORE_DOCS on the reused enumerator, with the frequencies 1 and
3, and the new enumerator returns the same. -/
theorem docs_reuse_equivalent_witness :
    (∃ (de1 de2 : blockDocsEnum) (records1 records2 : List CallRecord),
      (Lucene41PostingsReader.Docs (sampleReader samplePostingsReads) 128 sampleFieldFreqs
        sampleTerm none (some (sampleUsedEnum samplePostingsReads)) 0).1.calls
        [.NextDoc, .NextDoc, .NextDoc] = some (de1, records1) ∧
      (Lucene41PostingsReader.Docs (sampleReader samplePostingsReads) 128 sampleFieldFreqs
        sampleTerm none none 0).1.calls [.NextDoc, .NextDoc, .NextDoc]
        = some (de2, records2) ∧
      List.Forall₂ (fun a b : CallRecord => a.result = b.result ∧
        ∃ doc, a.result = .ok (doc, none) ∧ (doc ≠ NO_MORE_DOCS → a.freq = b.freq))
        records1 records2) ∧
    ((Lucene41PostingsReader.Docs (sampleReader samplePostingsReads) 128 sampleFieldFreqs
        sampleTerm none (some (sampleUsedEnum samplePostingsReads)) 0).1.calls
        [.NextDoc, .NextDoc, .NextDoc]).map (fun p => p.2)
      = some [{ result := .ok (3, none), freq := 1 }, { result := .ok (5, none), freq := 3 },
          { result := .ok (NO_MORE_DOCS, none), freq := 3 }] :=
  ⟨(docs_reuse_equivalent (sampleReader samplePostingsReads) 128 sampleFieldFreqs sampleTerm
    none (sampleUsedEnum samplePostingsReads) 0 sampleEntries [.NextDoc, .NextDoc, .NextDoc]
    (by decide) (by decide) (by decide) (fun _ => rfl) (by decide) (by decide)
    sample_stored).2.2.1, rfl⟩

end GoLucene
